import Mathlib

/-! # NCCH container decoder (citrogen, `core/container_backend/ncch.cpp`)

A shallow embedding of the NCCH decoder and proofs about its seed
classification, initialization vectors, force-no-crypto override, derived flags,
patched header, signature key resolution, key derivation and its errors, region
installation, sector units and the byte swaps of `core/common_types.h`.

Conventions of the embedding.

* A byte is a `Fin 256`; `u8`/`u16`/`u32`/`u64` values are natural numbers, with
  an explicit reduction modulo `2 ^ 32` where the C++ arithmetic is done in `u32`.
* The host is little-endian (x86 / ARM, the platforms `common_types.h` names), so
  the in-memory bytes of an integer are its little-endian bytes and a scalar
  field is read from the raw little-endian bytes without a swap.
* A byte source is denoted by the list of bytes it can deliver.  Views are lazy
  in the program; a view over a source that is too short denotes the shorter
  list, so that a read through the view fails exactly when the read on the
  underlying source would.
* Fields are installed as lazily evaluated, memoized closures.  Every closure
  is a pure function of the raw source and of two members set once in the
  constructor (`seed_status`/`seed` and `force_no_crypto`), so a field is
  embedded as a function and memoization is not observable.
* A C++ function that may throw returns a `Result`.
-/

set_option linter.dupNamespace false
set_option maxRecDepth 100000

/-- An 8-bit byte. -/
abbrev byte := Fin 256

/-- A byte sequence (`byte_seq` in the program). -/
abbrev byte_seq := List byte

/-- The ways evaluation can fail: a read outside a byte source, the bare
`throw;` statement executed with no active exception (which terminates the
process), and a `memcpy` that reads past the end of its source buffer (undefined
behaviour). -/
inductive Fault
  | OutOfRange
  | Terminate
  | Undefined
  deriving DecidableEq, Repr

/-- Outcome of a computation that may throw. -/
inductive Result (α : Type)
  | ok (value : α)
  | error (fault : Fault)
  deriving DecidableEq, Repr

/-- Sequencing of computations that may throw. -/
def Result.bind {α β : Type} (r : Result α) (k : α → Result β) : Result β :=
  match r with
  | .ok v => k v
  | .error e => .error e

/-- Little-endian value of a byte sequence: the integer whose in-memory bytes
are the given ones. -/
def FromByteSeq : byte_seq → Nat
  | [] => 0
  | b :: bs => b.val + 256 * FromByteSeq bs

/-- Modelled from the spec: `ToByteSeq` of `core/cryptopp_util.h` (not part of
the sources), the in-memory bytes of an integer of the given width in bytes. -/
def ToByteSeq : Nat → Nat → byte_seq
  | 0, _ => []
  | n + 1, v => ⟨v % 256, Nat.mod_lt v (by decide)⟩ :: ToByteSeq n (v / 256)

/-! ## Byte swaps (`core/common_types.h`, generic implementation) -/

/-- The generic `swap16`: `(data >> 8) | (data << 8)`, converted to `u16` on
return. -/
def swap16 (data : Nat) : Nat :=
  ((data >>> 8) ||| (data <<< 8)) % 2 ^ 16

/-- The generic `swap32`: `(swap16(data) << 16) | swap16(data >> 16)`, converted
to `u32` on return; each argument of `swap16` is converted to `u16`. -/
def swap32 (data : Nat) : Nat :=
  ((swap16 (data % 2 ^ 16) <<< 16) ||| swap16 ((data >>> 16) % 2 ^ 16)) % 2 ^ 32

/-- The generic `swap64`: `((u64)swap32(data) << 32) | swap32(data >> 32)`; each
argument of `swap32` is converted to `u32`. -/
def swap64 (data : Nat) : Nat :=
  ((swap32 (data % 2 ^ 32) <<< 32) ||| swap32 ((data >>> 32) % 2 ^ 32)) % 2 ^ 64

namespace FB

/-- A byte source, denoted by the bytes it can deliver (`FilePtr`). -/
abbrev File := byte_seq

/-- Modelled from the spec: `File::Read(pos, size)` of `core/file_backend`
(not part of the sources): the `size` bytes at `pos`, failing with an
out-of-range error if the source is exceeded. -/
def Read (file : File) (pos size : Nat) : Result byte_seq :=
  if pos + size ≤ file.length then .ok ((file.drop pos).take size)
  else .error .OutOfRange

/-- Modelled from the spec: `SubFile(parent, offset, size)` of
`core/file_backend` (not part of the sources), the fixed-window view over
another source. -/
def SubFile (parent : File) (offset size : Nat) : File :=
  (parent.drop offset).take size

/-- Modelled from the spec: `MemoryFile(bytes)` of `core/file_backend/memory_file.h`
(not part of the sources), an owned in-memory buffer. -/
def MemoryFile (bytes : byte_seq) : File := bytes

/-- Modelled from the spec: `MemoryFile(size)` and `MemoryFile(size, value)`, an
owned buffer of `size` bytes all equal to `value` (zero when not given). -/
def MemoryFile.filled (size : Nat) (value : byte) : File :=
  List.replicate size value

/-- Modelled from the spec: `PatchFile(base, patch, offset)` of
`core/file_backend/patch_file.h` (not part of the sources), the overlay of the
replacement region `patch` over `base` at `offset`. -/
def PatchFile (base patch : File) (offset : Nat) : File :=
  base.mapIdx fun i b =>
    if offset ≤ i then (patch[i - offset]?).getD b else b

end FB

namespace CB

open FB

/-- Modelled from the spec: `Field<T>(name, offset)` of
`core/container_backend/container.h` (not part of the sources): reads `width`
bytes at `offset` from the raw source and interprets them as an integer. -/
def Field (width : Nat) (file : File) (offset : Nat) : Result Nat :=
  (Read file offset width).bind fun bs => .ok (FromByteSeq bs)

/-- Modelled from the spec: `Field<magic_t>` and `File::Read<magic_t>`, which read
the four characters as they are. -/
def FieldBytes (width : Nat) (file : File) (offset : Nat) : Result byte_seq :=
  Read file offset width

/-- The seed status enumeration (`SeedStatus`). -/
inductive SeedStatus
  | NoNeed
  | Found
  | NotFound
  | NotCorrect
  deriving DecidableEq, Repr

/-- The external collaborators of the decoder: the SHA-256 digest, the seed
database `SB::g_seeddb`, the secret database `secrets`, the key scrambler, the
AES-CTR view and the public key field of the extended header sub-container. A
digest has 32 bytes and a scrambled key is an `AESKey`, an array of 16 bytes. -/
structure World where
  sha256 : byte_seq → byte_seq
  sha256_size : ∀ m, (sha256 m).length = 32
  g_seeddb : Nat → byte_seq
  secrets : String → byte_seq
  ScrambleKey : byte_seq → byte_seq → byte_seq → byte_seq
  ScrambleKey_size : ∀ key_x key_y key_c, (ScrambleKey key_x key_y key_c).length = 16
  AesCtrFile : File → File → File → File
  NcchSignaturePublicKey : File → Result File

namespace Ncch

/-! ## Fixed-offset scalar fields -/

def Magic (file : File) : Result byte_seq := FieldBytes 4 file 0x100
def ContentSize (file : File) : Result Nat := Field 4 file 0x104
def PartitionId (file : File) : Result Nat := Field 8 file 0x108
def MakerCode (file : File) : Result Nat := Field 2 file 0x110
def Version (file : File) : Result Nat := Field 2 file 0x112
def SeedVerifier (file : File) : Result Nat := Field 4 file 0x114
def ProgramId (file : File) : Result Nat := Field 8 file 0x118
def ProductCode (file : File) : Result byte_seq := FieldBytes 0x10 file 0x150
def ExheaderHashRegionSize (file : File) : Result Nat := Field 4 file 0x180
def CryptoMethod (file : File) : Result Nat := Field 1 file 0x18B
def Platform (file : File) : Result Nat := Field 1 file 0x18C
def ContentTypeFlags (file : File) : Result Nat := Field 1 file 0x18D
def ContentType2Field (file : File) : Result Nat := Field 1 file 0x18F
def PlainRegionOffset (file : File) : Result Nat := Field 4 file 0x190
def PlainRegionSize (file : File) : Result Nat := Field 4 file 0x194
def LogoRegionOffset (file : File) : Result Nat := Field 4 file 0x198
def LogoRegionSize (file : File) : Result Nat := Field 4 file 0x19C
def ExefsOffset (file : File) : Result Nat := Field 4 file 0x1A0
def ExefsSize (file : File) : Result Nat := Field 4 file 0x1A4
def ExefsHashRegionSize (file : File) : Result Nat := Field 4 file 0x1A8
def RomfsOffset (file : File) : Result Nat := Field 4 file 0x1B0
def RomfsSize (file : File) : Result Nat := Field 4 file 0x1B4
def RomfsHashRegionSize (file : File) : Result Nat := Field 4 file 0x1B8

/-- The method `Ncch::ContentType()`: the value of the field "ContentTypeFlags". -/
def ContentType (file : File) : Result Nat := ContentTypeFlags file

/-- The method `Ncch::ContentType2()`: the value of the field "ContentType2". -/
def ContentType2 (file : File) : Result Nat := ContentType2Field file

/-! ## Derived flags -/

def IsData (file : File) : Result Bool :=
  (ContentType file).bind fun c => .ok ((c &&& 0x1) != 0)

def IsExecutable (file : File) : Result Bool :=
  (ContentType file).bind fun c => .ok ((c &&& 0x2) != 0)

/-- The field "ContentType": `(u8)(ContentType() >> 2)`. -/
def ContentTypeField (file : File) : Result Nat :=
  (ContentType file).bind fun c => .ok ((c >>> 2) % 256)

def IsFixedKeyCrypto (file : File) : Result Bool :=
  (ContentType2 file).bind fun c => .ok ((c &&& 0x1) != 0)

def IsNoRomfsMount (file : File) : Result Bool :=
  (ContentType2 file).bind fun c => .ok ((c &&& 0x2) != 0)

def IsNoCrypto (file : File) : Result Bool :=
  (ContentType2 file).bind fun c => .ok ((c &&& 0x4) != 0)

def IsSeedCrypto (file : File) : Result Bool :=
  (ContentType2 file).bind fun c => .ok ((c &&& 0x20) != 0)

/-! ## Seed status -/

/-- The members written by `InitSeed`: `seed_status` and `seed`. -/
structure SeedState where
  seed_status : SeedStatus
  seed : byte_seq
  deriving DecidableEq, Repr

/-- The method `Ncch::InitSeed()`.  The member `seed` is a default-constructed
(empty) byte sequence unless the status is `Found`. -/
def InitSeed (w : World) (file : File) : Result SeedState :=
  (IsSeedCrypto file).bind fun is_seed_crypto =>
  if !is_seed_crypto then .ok ⟨.NoNeed, []⟩
  else
    (ProgramId file).bind fun program_id =>
    let seed := w.g_seeddb program_id
    if seed.length ≠ 0x10 then .ok ⟨.NotFound, []⟩
    else
      let hash_block := seed ++ ToByteSeq 8 program_id
      let hash := (w.sha256 hash_block).take 4
      (SeedVerifier file).bind fun seed_verifier =>
      if hash ≠ ToByteSeq 4 seed_verifier then .ok ⟨.NotCorrect, []⟩
      else .ok ⟨.Found, seed⟩

/-! ## Force-no-crypto override -/

/-- The method `Ncch::RawRomfsFile()`.  Both products are computed in `u32`. -/
def RawRomfsFile (file : File) : Result File :=
  (RomfsOffset file).bind fun romfs_offset =>
  (RomfsSize file).bind fun romfs_size =>
  .ok (SubFile file (romfs_offset * 0x200 % 2 ^ 32) (romfs_size * 0x200 % 2 ^ 32))

/-- The plaintext magic `magic_t{'I', 'V', 'F', 'C'}`. -/
def ivfc_magic : byte_seq := [0x49, 0x56, 0x46, 0x43]

/-- The method `Ncch::CheckForceNoCrypto()`; the result is the value of the
member `force_no_crypto` afterwards, which is `false` before the call. -/
def CheckForceNoCrypto (file : File) : Result Bool :=
  (IsNoCrypto file).bind fun is_no_crypto =>
  if is_no_crypto then .ok false
  else
    (RomfsOffset file).bind fun romfs_offset =>
    if romfs_offset = 0 then .ok false
    else
      (RawRomfsFile file).bind fun raw =>
      (Read raw 0 4).bind fun magic =>
      if magic = ivfc_magic then .ok true else .ok false

/-! ## Initialization vectors -/

/-- The enumeration `IvType`, given by its underlying byte (the enumerators are
declared in `ncch.h`, which is not part of the sources). -/
abbrev IvType := byte

/-- Modelled from the spec: the region-type tag of the extended header. -/
def IvType.Exheader : IvType := 1

/-- Modelled from the spec: the region-type tag of the executable filesystem. -/
def IvType.Exefs : IvType := 2

/-- Modelled from the spec: the region-type tag of the ROM filesystem. -/
def IvType.Romfs : IvType := 3

/-- The method `Ncch::CryptoIv(type)`. -/
def CryptoIv (file : File) (type : IvType) : Result File :=
  (Version file).bind fun version =>
  if version = 1 then .error .Terminate
  else
    (PartitionId file).bind fun partition_id =>
    let partition_id_s := ToByteSeq 8 partition_id
    let iv := MemoryFile.filled 16 0
    let iv := partition_id_s.reverse ++ iv.drop 8
    .ok (iv.set 8 type)

/-! ## Patched header -/

/-- The method `Ncch::PatchedHeader()`. -/
def PatchedHeader (file : File) : Result File :=
  let header := SubFile file 0x100 0x100
  (Read header 0x8F 1).bind fun content_flag2 =>
  let patch := MemoryFile content_flag2
  let patch := patch.modifyHead fun b => b &&& 0xFB
  .ok (PatchFile header patch 0x8F)

end Ncch

end CB

namespace SB

/-- Modelled from the spec: the names of the external secret constants, declared
in `core/secret_backend/secret_database.h` (not part of the sources). -/
def k_sec_key2C_x : String := "key2C_x"
def k_sec_key25_x : String := "key25_x"
def k_sec_key18_x : String := "key18_x"
def k_sec_key1B_x : String := "key1B_x"
def k_sec_aes_const : String := "aes const"
def k_sec_pubkey_ncsd_cfa : String := "pubkey_ncsd_cfa"

end SB

namespace CB

open FB

namespace Ncch

/-! ## Key material and its errors -/

/-- The method `Ncch::KeyY()`. -/
def KeyY (file : File) : File := SubFile file 0 0x10

/-- The call `std::memcpy(dst.data(), src.data(), 0x10)` into an `AESKey`:
copying from a buffer of fewer than 16 bytes is undefined. -/
def memcpy16 (src : byte_seq) : Result byte_seq :=
  if 0x10 ≤ src.length then .ok (src.take 0x10) else .error .Undefined

/-- The method `Ncch::PrimaryNormalKey()`. -/
def PrimaryNormalKey (w : World) (file : File) : Result File :=
  (IsFixedKeyCrypto file).bind fun is_fixed_key =>
  if is_fixed_key then .ok (MemoryFile.filled 0x10 0)
  else
    (Read (KeyY file) 0 0x10).bind fun key_y_buf =>
    (memcpy16 (w.secrets SB.k_sec_key2C_x)).bind fun key_x =>
    (memcpy16 key_y_buf).bind fun key_y =>
    (memcpy16 (w.secrets SB.k_sec_aes_const)).bind fun key_c =>
    .ok (MemoryFile (w.ScrambleKey key_x key_y key_c))

/-- The method `Ncch::PrimaryNormalKeyError()`. -/
def PrimaryNormalKeyError (w : World) (file : File) : Result String :=
  (IsFixedKeyCrypto file).bind fun is_fixed_key =>
  if is_fixed_key then .ok ""
  else if (w.secrets SB.k_sec_aes_const).length ≠ 16 then .ok SB.k_sec_aes_const
  else if (w.secrets SB.k_sec_key2C_x).length ≠ 16 then .ok SB.k_sec_key2C_x
  else .ok ""

/-- The method `Ncch::SecondaryNormalKeyError()`. -/
def SecondaryNormalKeyError (w : World) (seed_status : SeedStatus) (file : File) :
    Result String :=
  (IsFixedKeyCrypto file).bind fun is_fixed_key =>
  if is_fixed_key then .ok ""
  else
    match seed_status with
    | .NotCorrect => .ok "Seed Not Correct"
    | .NotFound => .ok "Seed Not Found"
    | _ =>
      if (w.secrets SB.k_sec_aes_const).length ≠ 16 then .ok SB.k_sec_aes_const
      else
        (CryptoMethod file).bind fun crypto_method =>
        if crypto_method = 0x00 then
          if (w.secrets SB.k_sec_key2C_x).length ≠ 16 then .ok SB.k_sec_key2C_x else .ok ""
        else if crypto_method = 0x01 then
          if (w.secrets SB.k_sec_key25_x).length ≠ 16 then .ok SB.k_sec_key25_x else .ok ""
        else if crypto_method = 0x0A then
          if (w.secrets SB.k_sec_key18_x).length ≠ 16 then .ok SB.k_sec_key18_x else .ok ""
        else if crypto_method = 0x0B then
          if (w.secrets SB.k_sec_key1B_x).length ≠ 16 then .ok SB.k_sec_key1B_x else .ok ""
        else .ok "???"

/-- The method `Ncch::IsDecrypted()`; `||` evaluates its right operand only when
the left one is false. -/
def IsDecrypted (force_no_crypto : Bool) (file : File) : Result Bool :=
  if force_no_crypto then .ok true else IsNoCrypto file

/-- The method `Ncch::ExheaderFile()`. -/
def ExheaderFile (w : World) (force_no_crypto : Bool) (file : File) : Result File :=
  let raw := SubFile file 0x200 0x800
  (IsDecrypted force_no_crypto file).bind fun is_decrypted =>
  if is_decrypted then .ok raw
  else
    (CryptoIv file IvType.Exheader).bind fun iv =>
    (PrimaryNormalKey w file).bind fun key =>
    .ok (w.AesCtrFile raw key iv)

/-- The method `Ncch::ExheaderError()`. -/
def ExheaderError (w : World) (force_no_crypto : Bool) (file : File) : Result String :=
  (IsDecrypted force_no_crypto file).bind fun is_decrypted =>
  if is_decrypted then .ok "" else PrimaryNormalKeyError w file

/-- The method `Ncch::ExefsError()`. -/
def ExefsError (w : World) (seed_status : SeedStatus) (force_no_crypto : Bool)
    (file : File) : Result String :=
  (IsDecrypted force_no_crypto file).bind fun is_decrypted =>
  if is_decrypted then .ok ""
  else
    (PrimaryNormalKeyError w file).bind fun error_primary =>
    if error_primary ≠ "" then .ok error_primary
    else SecondaryNormalKeyError w seed_status file

/-- The method `Ncch::RomfsError()`. -/
def RomfsError (w : World) (seed_status : SeedStatus) (force_no_crypto : Bool)
    (file : File) : Result String :=
  (IsDecrypted force_no_crypto file).bind fun is_decrypted =>
  if is_decrypted then .ok "" else SecondaryNormalKeyError w seed_status file

/-- The method `Ncch::SecondaryNormalKey()`, reading the members `seed_status`
and `seed`. -/
def SecondaryNormalKey (w : World) (seed : SeedState) (file : File) : Result File :=
  (IsFixedKeyCrypto file).bind fun is_fixed_key =>
  if is_fixed_key then .ok (MemoryFile.filled 0x10 0)
  else
    (Read (KeyY file) 0 0x10).bind fun key_y_buf =>
    let key_y_buf :=
      if seed.seed_status = .Found then (w.sha256 (key_y_buf ++ seed.seed)).take 0x10
      else key_y_buf
    (memcpy16 key_y_buf).bind fun key_y =>
    (memcpy16 (w.secrets SB.k_sec_aes_const)).bind fun key_c =>
    (CryptoMethod file).bind fun crypto_method =>
    (if crypto_method = 0x00 then memcpy16 (w.secrets SB.k_sec_key2C_x)
      else if crypto_method = 0x01 then memcpy16 (w.secrets SB.k_sec_key25_x)
      else if crypto_method = 0x0A then memcpy16 (w.secrets SB.k_sec_key18_x)
      else if crypto_method = 0x0B then memcpy16 (w.secrets SB.k_sec_key1B_x)
      else .error .Terminate).bind fun key_x =>
    .ok (MemoryFile (w.ScrambleKey key_x key_y key_c))

/-- The method `Ncch::RawExefsFile()`.  Both products are computed in `u32`. -/
def RawExefsFile (file : File) : Result File :=
  (ExefsOffset file).bind fun exefs_offset =>
  (ExefsSize file).bind fun exefs_size =>
  .ok (SubFile file (exefs_offset * 0x200 % 2 ^ 32) (exefs_size * 0x200 % 2 ^ 32))

/-- The method `Ncch::PrimaryExefsFile()`. -/
def PrimaryExefsFile (w : World) (force_no_crypto : Bool) (file : File) : Result File :=
  (RawExefsFile file).bind fun raw =>
  (IsDecrypted force_no_crypto file).bind fun is_decrypted =>
  if is_decrypted then .ok raw
  else
    (CryptoIv file IvType.Exefs).bind fun iv =>
    (PrimaryNormalKey w file).bind fun key =>
    .ok (w.AesCtrFile raw key iv)

/-- The method `Ncch::SecondaryExefsFile()`. -/
def SecondaryExefsFile (w : World) (seed : SeedState) (force_no_crypto : Bool)
    (file : File) : Result File :=
  (RawExefsFile file).bind fun raw =>
  (IsDecrypted force_no_crypto file).bind fun is_decrypted =>
  if is_decrypted then .ok raw
  else
    (CryptoIv file IvType.Exefs).bind fun iv =>
    (SecondaryNormalKey w seed file).bind fun key =>
    .ok (w.AesCtrFile raw key iv)

/-- The method `Ncch::RomfsFile()`. -/
def RomfsFile (w : World) (seed : SeedState) (force_no_crypto : Bool)
    (file : File) : Result File :=
  (RawRomfsFile file).bind fun raw =>
  (IsDecrypted force_no_crypto file).bind fun is_decrypted =>
  if is_decrypted then .ok raw
  else
    (CryptoIv file IvType.Romfs).bind fun iv =>
    (SecondaryNormalKey w seed file).bind fun key =>
    .ok (w.AesCtrFile raw key iv)

/-- The arguments a `Sha` verification node is built with. -/
structure Sha where
  data : File
  hash : File
  deriving DecidableEq, Repr

/-- The closure registered as "ExefsHash"; the product is computed in `u32`. -/
def ExefsHash (w : World) (force_no_crypto : Bool) (file : File) : Result Sha :=
  (ExefsHashRegionSize file).bind fun region_size =>
  (PrimaryExefsFile w force_no_crypto file).bind fun primary =>
  .ok ⟨SubFile primary 0 (region_size * 0x200 % 2 ^ 32), SubFile file 0x1C0 0x20⟩

/-- The closure registered as "RomfsHash"; the product is computed in `u32`. -/
def RomfsHash (w : World) (seed : SeedState) (force_no_crypto : Bool) (file : File) :
    Result Sha :=
  (RomfsHashRegionSize file).bind fun region_size =>
  (RomfsFile w seed force_no_crypto file).bind fun romfs =>
  .ok ⟨SubFile romfs 0 (region_size * 0x200 % 2 ^ 32), SubFile file 0x1E0 0x20⟩

/-! ## Construction -/

/-- The arguments an `Rsa` verification node is built with. -/
structure Rsa where
  data : File
  signature : File
  key : File
  deriving DecidableEq, Repr

/-- What the constructor leaves behind: the members `seed_status`/`seed` and
`force_no_crypto`, the resolved signature key, the arguments captured by the
"Signature" and "SignaturePatched" closures, and the names registered by the
`InstallList` calls that follow the header field table, in order. -/
structure Constructed where
  seed : SeedState
  force_no_crypto : Bool
  signature_key : File
  Signature : Rsa
  SignaturePatched : Rsa
  installed : List String
  deriving DecidableEq, Repr

/-- Lines 91-120 of the constructor: the signature key, and the names
registered on the way. -/
def ResolveSignatureKey (w : World) (force_no_crypto : Bool) (file : File) :
    Result (File × List String) :=
  (ExheaderHashRegionSize file).bind fun exheader_hash_region_size =>
  if exheader_hash_region_size ≠ 0 then
    (ExheaderError w force_no_crypto file).bind fun error =>
    if error = "" then
      (ExheaderFile w force_no_crypto file).bind fun exheader =>
      (w.NcchSignaturePublicKey exheader).bind fun signature_key =>
      .ok (signature_key, ["ExheaderError", "Exheader", "ExheaderHash"])
    else .ok (MemoryFile [], ["ExheaderError"])
  else .ok (MemoryFile (w.secrets SB.k_sec_pubkey_ncsd_cfa), [])

/-- Lines 136-159 of the constructor: the names registered for the executable
filesystem region. -/
def InstallExefs (w : World) (seed_status : SeedStatus) (force_no_crypto : Bool)
    (file : File) : Result (List String) :=
  (ExefsOffset file).bind fun exefs_size =>
  if exefs_size ≠ 0 then
    (ExefsError w seed_status force_no_crypto file).bind fun error =>
    if error = "" then .ok ["ExefsError", "Exefs", "ExefsHash"]
    else .ok ["ExefsError"]
  else .ok []

/-- Lines 161-180 of the constructor: the names registered for the ROM filesystem
region. -/
def InstallRomfs (w : World) (seed_status : SeedStatus) (force_no_crypto : Bool)
    (file : File) : Result (List String) :=
  (RomfsOffset file).bind fun romfs_size =>
  if romfs_size ≠ 0 then
    (RomfsError w seed_status force_no_crypto file).bind fun error =>
    if error = "" then .ok ["RomfsError", "Romfs", "RomfsHash"]
    else .ok ["RomfsError"]
  else .ok []

/-- The constructor `Ncch::Ncch(file)`, after the header field table. -/
def Ncch (w : World) (file : File) : Result Constructed :=
  (InitSeed w file).bind fun seed =>
  (CheckForceNoCrypto file).bind fun force_no_crypto =>
  (ResolveSignatureKey w force_no_crypto file).bind fun key_and_names =>
  let signature_key := key_and_names.1
  let header := SubFile file 0x100 0x100
  (PatchedHeader file).bind fun patched_header =>
  let signature := SubFile file 0 0x100
  (InstallExefs w seed.seed_status force_no_crypto file).bind fun exefs_names =>
  (InstallRomfs w seed.seed_status force_no_crypto file).bind fun romfs_names =>
  .ok {
    seed := seed
    force_no_crypto := force_no_crypto
    signature_key := signature_key
    Signature := ⟨header, signature, signature_key⟩
    SignaturePatched := ⟨patched_header, signature, signature_key⟩
    installed := ["IsForceNoCrypto"] ++ key_and_names.2 ++ ["Signature", "SignaturePatched"]
      ++ exefs_names ++ romfs_names }

end Ncch

end CB

/-! # Sample inputs -/

namespace Sample

open FB CB

/-- A stand-in for the external collaborators: a digest that is constantly zero,
a seed database holding the zero seed for every title, a secret database
holding 16 zero bytes under every name, and transparent key scrambling and
decryption. -/
def world : World where
  sha256 := fun _ => List.replicate 32 0
  sha256_size := by simp
  g_seeddb := fun _ => List.replicate 16 0
  secrets := fun _ => List.replicate 16 0
  ScrambleKey := fun key_x _ _ => (key_x ++ List.replicate 16 0).take 16
  ScrambleKey_size := by simp
  AesCtrFile := fun raw _ _ => raw
  NcchSignaturePublicKey := fun exheader => .ok (SubFile exheader 0x500 0x100)

/-- The same collaborators with an empty seed database. -/
def world_no_seed : World := { world with g_seeddb := fun _ => [] }

/-- The source `file` with the bytes `bs` written at `pos`. -/
def poke (file : File) (pos : Nat) (bs : byte_seq) : File :=
  file.take pos ++ bs ++ file.drop (pos + bs.length)

/-- The source `file` with bit `bit` of the byte at `pos` inverted. -/
def flip_bit (file : File) (pos bit : Nat) : File :=
  match file[pos]? with
  | some b => file.set pos (b ^^^ ⟨2 ^ bit % 256, Nat.mod_lt _ (by decide)⟩)
  | none => file

/-- A raw source of 0x200 zero bytes: a header with every field zero. -/
def blank : File := List.replicate 0x200 0

/-- A header with the seed-crypto flag set and a zero verifier. -/
def seeded : File := poke blank 0x18F [0x20]

/-- A header whose "PartitionId" field holds 0x0102030405060708 (stored, as every
scalar of the header, in little-endian order) and whose version is 0. -/
def with_partition_id : File := poke blank 0x108 [8, 7, 6, 5, 4, 3, 2, 1]

/-- A header like `with_partition_id` whose version is 1. -/
def version_one : File := poke with_partition_id 0x112 [1, 0]

/-- A 0x200-byte source whose "RomfsOffset" is 0x800000 sectors and whose
"RomfsSize" is 1 sector, with the characters `IVFC` at raw offset 0. -/
def wrapped_romfs_offset : File :=
  poke (poke (poke blank 0 [0x49, 0x56, 0x46, 0x43]) 0x1B0 [0, 0, 0x80, 0]) 0x1B4 [1, 0, 0, 0]

/-- A source whose "RomfsOffset" is 1 sector and whose "RomfsSize" is 0 sectors,
with the characters `IVFC` at raw offset 0x200. -/
def empty_romfs_window : File :=
  poke blank 0x1B0 [1, 0, 0, 0] ++ [0x49, 0x56, 0x46, 0x43]

/-- A source whose "RomfsOffset" is 1 sector and whose "RomfsSize" is 1 sector,
with the characters `IVFC` at raw offset 0x200, followed by zeros. -/
def plain_romfs : File :=
  poke (poke blank 0x1B0 [1, 0, 0, 0]) 0x1B4 [1, 0, 0, 0]
    ++ [0x49, 0x56, 0x46, 0x43] ++ List.replicate 0x1FC 0

/-- A header whose content-type byte at 0x18D is 0x0B and whose secondary
content-type byte at 0x18F is 0x25. -/
def flagged : File := poke (poke blank 0x18D [0x0B]) 0x18F [0x25]

/-- The raw source `file` with its 0x100-byte header block at 0x100 replaced by
`header`: the source on which the flags and scalars of a patched header are
evaluated. -/
def with_header (file header : File) : File :=
  file.take 0x100 ++ header ++ file.drop 0x200

/-- A header block with every bit of the byte at 0x18F set and a non-zero
partition id. -/
def all_flags : File := poke with_partition_id 0x18F [0xFF]

/-- What the constructor leaves behind on the blank header with the sample
collaborators. -/
def blank_constructed : Ncch.Constructed where
  seed := ⟨.NoNeed, []⟩
  force_no_crypto := false
  signature_key := List.replicate 16 0
  Signature := ⟨List.replicate 0x100 0, List.replicate 0x100 0, List.replicate 16 0⟩
  SignaturePatched := ⟨List.replicate 0x100 0, List.replicate 0x100 0, List.replicate 16 0⟩
  installed := ["IsForceNoCrypto", "Signature", "SignaturePatched"]

/-- A header that declares an extended header of one hash-region unit and has
the no-crypto flag set, followed by 0x800 bytes of extended header whose last
0x300 bytes are 7. -/
def plain_exheader : File :=
  poke (poke blank 0x180 [1, 0, 0, 0]) 0x18F [0x04]
    ++ List.replicate 0x500 0 ++ List.replicate 0x300 7

/-- A header that declares an extended header, is encrypted, and whose secrets
are missing from `world_no_secrets`. -/
def locked_exheader : File := poke blank 0x180 [1, 0, 0, 0]

/-- The sample collaborators with an empty secret database. -/
def world_no_secrets : World := { world with secrets := fun _ => [] }

/-- The sample collaborators with a secret database holding one byte under
every name: every secret is present with a wrong length. -/
def world_short_secrets : World := { world with secrets := fun _ => [0] }

/-- A fixed-key-crypto header whose crypto-method byte is the unassigned value 2. -/
def fixed_key_odd_method : File := poke (poke blank 0x18B [2]) 0x18F [1]

/-- A header without fixed-key-crypto whose crypto-method byte is the unassigned
value 2. -/
def odd_method : File := poke blank 0x18B [2]

/-- Collaborators that make the arguments of the primitives visible: the digest
of a message is its first 32 bytes (zero-padded), the scrambled key is keyY, the
seed of every title is 16 bytes of 1, and every secret is 16 zero bytes. -/
def world_echo : World where
  sha256 := fun m => (m ++ List.replicate 32 0).take 32
  sha256_size := by simp
  g_seeddb := fun _ => List.replicate 16 1
  secrets := fun _ => List.replicate 16 0
  ScrambleKey := fun _ key_y _ => (key_y ++ List.replicate 16 0).take 16
  ScrambleKey_size := by simp
  AesCtrFile := fun raw _ _ => raw
  NcchSignaturePublicKey := fun exheader => .ok (SubFile exheader 0x500 0x100)

/-- A seed-crypto header whose first 16 bytes (keyY) are 2 and whose seed
verifier is `01 01 01 01`, the verifier of the seed of `world_echo`. -/
def seeded_echo : File :=
  poke (poke (poke blank 0 (List.replicate 16 2)) 0x114 [1, 1, 1, 1]) 0x18F [0x20]

/-- A header with the no-crypto flag set that declares an executable filesystem
at sector 1 and no ROM filesystem. -/
def plain_exefs : File := poke (poke blank 0x18F [0x04]) 0x1A0 [1, 0, 0, 0]

/-- What the constructor leaves behind on `plain_exefs` with the sample
collaborators. -/
def plain_exefs_constructed : Ncch.Constructed where
  seed := ⟨.NoNeed, []⟩
  force_no_crypto := false
  signature_key := List.replicate 16 0
  Signature := ⟨SubFile plain_exefs 0x100 0x100, SubFile plain_exefs 0 0x100,
    List.replicate 16 0⟩
  SignaturePatched := ⟨(SubFile plain_exefs 0x100 0x100).set 0x8F 0,
    SubFile plain_exefs 0 0x100, List.replicate 16 0⟩
  installed := ["IsForceNoCrypto", "Signature", "SignaturePatched", "ExefsError", "Exefs",
    "ExefsHash"]

/-- A header of version 1 that declares an encrypted extended header, followed
by the 0x800 bytes of the extended header region. -/
def version_one_exheader : File :=
  poke (poke blank 0x112 [1, 0]) 0x180 [1, 0, 0, 0] ++ List.replicate 0x800 0

/-- A 0x200-byte source whose "ExefsOffset" is 0x800000 sectors and whose
"ExefsSize" is 1 sector. -/
def wrapped_exefs_offset : File :=
  poke (poke blank 0x1A0 [0, 0, 0x80, 0]) 0x1A4 [1, 0, 0, 0]

/-- A decrypted source (no-crypto flag set) with an executable filesystem of one
sector at sector 1, filled with the byte 9, whose "ExefsHashRegionSize" is
0x800000 sectors. -/
def wrapped_hash_region : File :=
  poke (poke (poke (poke blank 0x18F [0x04]) 0x1A0 [1, 0, 0, 0]) 0x1A4 [1, 0, 0, 0])
    0x1A8 [0, 0, 0x80, 0] ++ List.replicate 0x200 9

/-- A fixed-key-crypto header that also has the seed-crypto flag set. -/
def fixed_key_seeded : File := poke blank 0x18F [0x21]

/-- An encrypted header (no flag set, crypto method 0) that declares an
executable filesystem at sector 1 and no ROM filesystem. -/
def encrypted_exefs : File := poke blank 0x1A0 [1, 0, 0, 0]

/-- What the constructor leaves behind on `encrypted_exefs` with the sample
collaborators. -/
def encrypted_exefs_constructed : Ncch.Constructed where
  seed := ⟨.NoNeed, []⟩
  force_no_crypto := false
  signature_key := List.replicate 16 0
  Signature := ⟨SubFile encrypted_exefs 0x100 0x100, SubFile encrypted_exefs 0 0x100,
    List.replicate 16 0⟩
  SignaturePatched := ⟨SubFile encrypted_exefs 0x100 0x100, SubFile encrypted_exefs 0 0x100,
    List.replicate 16 0⟩
  installed := ["IsForceNoCrypto", "Signature", "SignaturePatched", "ExefsError", "Exefs",
    "ExefsHash"]

end Sample

/-! # Basic facts about byte sources and scalar fields -/

@[simp] theorem Result.bind_ok {α β : Type} (v : α) (k : α → Result β) :
    (Result.ok v).bind k = k v := rfl

@[simp] theorem Result.bind_error {α β : Type} (e : Fault) (k : α → Result β) :
    (Result.error e : Result α).bind k = .error e := rfl

theorem Result.bind_eq_ok {α β : Type} (r : Result α) (k : α → Result β) (b : β) :
    r.bind k = .ok b ↔ ∃ a, r = .ok a ∧ k a = .ok b := by
  cases r <;> simp

theorem ToByteSeq_length (n v : Nat) : (ToByteSeq n v).length = n := by
  induction n generalizing v with
  | zero => rfl
  | succ n ih => simp [ToByteSeq, ih]

theorem ToByteSeq_FromByteSeq (bs : byte_seq) :
    ToByteSeq bs.length (FromByteSeq bs) = bs := by
  induction bs with
  | nil => rfl
  | cons b bs ih =>
    have h1 : (b.val + 256 * FromByteSeq bs) % 256 = b.val := by
      have := b.isLt
      omega
    have h2 : (b.val + 256 * FromByteSeq bs) / 256 = FromByteSeq bs := by
      have := b.isLt
      omega
    simp only [List.length_cons, ToByteSeq, FromByteSeq, h2, ih]
    congr 1
    exact Fin.ext h1

theorem FromByteSeq_lt (bs : byte_seq) : FromByteSeq bs < 256 ^ bs.length := by
  induction bs with
  | nil => simp [FromByteSeq]
  | cons b bs ih =>
    have := b.isLt
    simp only [FromByteSeq, List.length_cons, pow_succ]
    omega

namespace FB

theorem SubFile_length (file : File) (pos size : Nat) (h : pos + size ≤ file.length) :
    (SubFile file pos size).length = size := by
  simp only [SubFile, List.length_take, List.length_drop]
  omega

theorem SubFile_getElem? (file : File) (pos size i : Nat) (h : i < size) :
    (SubFile file pos size)[i]? = file[pos + i]? := by
  simp [SubFile, List.getElem?_take, h, List.getElem?_drop]

theorem Read_of_le (file : File) (pos size : Nat) (h : pos + size ≤ file.length) :
    Read file pos size = .ok (SubFile file pos size) := by
  simp [Read, SubFile, h]

theorem Read_of_lt (file : File) (pos size : Nat) (h : file.length < pos + size) :
    Read file pos size = .error .OutOfRange := by
  have : ¬ pos + size ≤ file.length := by omega
  simp [Read, this]

theorem Read_eq_ok (file : File) (pos size : Nat) (bs : byte_seq) :
    Read file pos size = .ok bs ↔ pos + size ≤ file.length ∧ bs = SubFile file pos size := by
  unfold Read SubFile
  split <;> simp_all [eq_comm]

end FB

namespace CB

open FB

theorem Field_of_le (width : Nat) (file : File) (offset : Nat)
    (h : offset + width ≤ file.length) :
    Field width file offset = .ok (FromByteSeq (SubFile file offset width)) := by
  simp [Field, Read_of_le file offset width h]

theorem Field_of_lt (width : Nat) (file : File) (offset : Nat)
    (h : file.length < offset + width) :
    Field width file offset = .error .OutOfRange := by
  simp [Field, Read_of_lt file offset width h]

theorem ToByteSeq_Field (width : Nat) (file : File) (offset : Nat)
    (h : offset + width ≤ file.length) :
    ToByteSeq width (FromByteSeq (SubFile file offset width)) = SubFile file offset width := by
  have hl := SubFile_length file offset width h
  have := ToByteSeq_FromByteSeq (SubFile file offset width)
  rwa [hl] at this

theorem SubFile_one (file : File) (pos : Nat) (b : byte) (h : file[pos]? = some b) :
    SubFile file pos 1 = [b] := by
  apply List.ext_getElem?
  intro i
  rcases Nat.eq_zero_or_pos i with rfl | hi
  · rw [SubFile_getElem? file pos 1 0 (by omega)]
    simpa using h
  · have h1 : (SubFile file pos 1).length ≤ 1 := by simp [SubFile]
    rw [List.getElem?_eq_none (by omega)]
    cases i with
    | zero => omega
    | succ i => simp

theorem Field_one (file : File) (pos : Nat) (b : byte) (h : file[pos]? = some b) :
    Field 1 file pos = .ok b.val := by
  have hlt : pos < file.length := by
    rcases Nat.lt_or_ge pos file.length with h1 | h1
    · exact h1
    · rw [List.getElem?_eq_none h1] at h
      cases h
  rw [Field_of_le 1 file pos (by omega), SubFile_one file pos b h]
  simp [FromByteSeq]

theorem Field_one_none (file : File) (pos : Nat) (h : file[pos]? = none) :
    Field 1 file pos = .error .OutOfRange := by
  apply Field_of_lt
  have := List.getElem?_eq_none_iff.mp h
  omega

end CB

/-! # Seed status -/

namespace CB.Ncch

open FB

theorem length_of_getElem? (file : File) (pos : Nat) (b : byte) (h : file[pos]? = some b) :
    pos < file.length := by
  rcases Nat.lt_or_ge pos file.length with h1 | h1
  · exact h1
  · rw [List.getElem?_eq_none h1] at h
    cases h

theorem IsSeedCrypto_of_byte (file : File) (g : byte) (h : file[0x18F]? = some g) :
    IsSeedCrypto file = .ok ((g.val &&& 0x20) != 0) := by
  simp [IsSeedCrypto, ContentType2, ContentType2Field, Field_one file 0x18F g h]

theorem IsSeedCrypto_of_none (file : File) (h : file[0x18F]? = none) :
    IsSeedCrypto file = .error .OutOfRange := by
  simp [IsSeedCrypto, ContentType2, ContentType2Field, Field_one_none file 0x18F h]

/-- The value `InitSeed` computes on a source whose flag byte is readable, in
terms of the raw bytes of the source. -/
theorem InitSeed_of_byte (w : World) (file : File) (g : byte) (h : file[0x18F]? = some g) :
    InitSeed w file =
      if g.val &&& 0x20 = 0 then .ok ⟨.NoNeed, []⟩
      else if (w.g_seeddb (FromByteSeq (SubFile file 0x118 8))).length ≠ 0x10 then
        .ok ⟨.NotFound, []⟩
      else if (w.sha256 (w.g_seeddb (FromByteSeq (SubFile file 0x118 8))
          ++ SubFile file 0x118 8)).take 4 ≠ SubFile file 0x114 4 then
        .ok ⟨.NotCorrect, []⟩
      else .ok ⟨.Found, w.g_seeddb (FromByteSeq (SubFile file 0x118 8))⟩ := by
  have hlen := length_of_getElem? file 0x18F g h
  have hp : ProgramId file = .ok (FromByteSeq (SubFile file 0x118 8)) :=
    Field_of_le 8 file 0x118 (by omega)
  have hv : SeedVerifier file = .ok (FromByteSeq (SubFile file 0x114 4)) :=
    Field_of_le 4 file 0x114 (by omega)
  have tp := ToByteSeq_Field 8 file 0x118 (by omega)
  have tv := ToByteSeq_Field 4 file 0x114 (by omega)
  unfold InitSeed
  rw [IsSeedCrypto_of_byte file g h, hp, hv]
  simp only [Result.bind_ok, tp, tv]
  by_cases hg : g.val &&& 0x20 = 0
  · simp [hg]
  · simp [hg]

/-- What a `Found` status tells about the raw bytes. -/
theorem InitSeed_found (w : World) (file : File) (seed : byte_seq)
    (h : InitSeed w file = .ok ⟨.Found, seed⟩) :
    ∃ g, file[0x18F]? = some g ∧ g.val &&& 0x20 ≠ 0 ∧
      (w.g_seeddb (FromByteSeq (SubFile file 0x118 8))).length = 16 ∧
      (w.sha256 (w.g_seeddb (FromByteSeq (SubFile file 0x118 8))
        ++ SubFile file 0x118 8)).take 4 = SubFile file 0x114 4 := by
  cases hb : file[0x18F]? with
  | none =>
    simp [InitSeed, IsSeedCrypto_of_none file hb] at h
  | some g =>
    rw [InitSeed_of_byte w file g hb] at h
    split_ifs at h with h1 h2 h3
    · cases h
    · cases h
    · cases h
    · exact ⟨g, rfl, h1, by simpa using h2, by simpa using h3⟩

/-- C1. Seed status classification: the status is `Found` if and only if the
seed-crypto flag (bit 0x20 of the byte at 0x18F) is set, the seed store returns
a 16-byte seed for the program id, and the first 4 bytes of the SHA-256 digest
of the seed followed by the 8 program id bytes equal the 4 bytes of the stored
seed verifier; with the flag set `InitSeed` returns, and the status is
`NotFound` exactly when the returned seed is not 16 bytes long and `NotCorrect`
exactly when a 16-byte seed is returned but the 4 bytes differ. -/
theorem InitSeed_classification (w : World) (file : File) :
    ((∃ st, InitSeed w file = .ok st ∧ st.seed_status = .Found) ↔
      (∃ g, file[0x18F]? = some g ∧ g.val &&& 0x20 ≠ 0) ∧
      (w.g_seeddb (FromByteSeq (SubFile file 0x118 8))).length = 16 ∧
      (w.sha256 (w.g_seeddb (FromByteSeq (SubFile file 0x118 8))
        ++ SubFile file 0x118 8)).take 4 = SubFile file 0x114 4) ∧
    ((∃ g, file[0x18F]? = some g ∧ g.val &&& 0x20 ≠ 0) →
      ∃ st, InitSeed w file = .ok st ∧
        (st.seed_status = .NotFound ↔
          (w.g_seeddb (FromByteSeq (SubFile file 0x118 8))).length ≠ 16) ∧
        (st.seed_status = .NotCorrect ↔
          (w.g_seeddb (FromByteSeq (SubFile file 0x118 8))).length = 16 ∧
          (w.sha256 (w.g_seeddb (FromByteSeq (SubFile file 0x118 8))
            ++ SubFile file 0x118 8)).take 4 ≠ SubFile file 0x114 4)) := by
  constructor
  · constructor
    · rintro ⟨st, hst, hfound⟩
      cases hb : file[0x18F]? with
      | none =>
        simp [InitSeed, IsSeedCrypto_of_none file hb] at hst
      | some g =>
        rw [InitSeed_of_byte w file g hb] at hst
        split_ifs at hst with h1 h2 h3
        · cases hst; cases hfound
        · cases hst; cases hfound
        · cases hst; cases hfound
        · exact ⟨⟨g, rfl, h1⟩, by simpa using h2, by simpa using h3⟩
    · rintro ⟨⟨g, hb, hg⟩, hlen, hhash⟩
      refine ⟨⟨.Found, w.g_seeddb (FromByteSeq (SubFile file 0x118 8))⟩, ?_, rfl⟩
      rw [InitSeed_of_byte w file g hb]
      simp [hg, hlen, hhash]
  · rintro ⟨g, hb, hg⟩
    rw [InitSeed_of_byte w file g hb]
    by_cases hlen : (w.g_seeddb (FromByteSeq (SubFile file 0x118 8))).length = 16
    · by_cases hhash : (w.sha256 (w.g_seeddb (FromByteSeq (SubFile file 0x118 8))
          ++ SubFile file 0x118 8)).take 4 = SubFile file 0x114 4
      · exact ⟨_, by simp [hg, hlen, hhash]; rfl, by simp [hlen], by simp [hlen, hhash]⟩
      · exact ⟨_, by simp [hg, hlen, hhash]; rfl, by simp [hlen], by simp [hlen, hhash]⟩
    · exact ⟨_, by simp [hg, hlen]; rfl, by simp [hlen], by simp [hlen]⟩

/-- Witness for C1: with the sample collaborators and the sample seed-crypto
header the flag is set and the status is `Found`. -/
theorem InitSeed_classification_witness :
    (∃ g, Sample.seeded[0x18F]? = some g ∧ g.val &&& 0x20 ≠ 0) ∧
    (∃ st, InitSeed Sample.world Sample.seeded = .ok st ∧
      (st.seed_status = .NotFound ↔
        (Sample.world.g_seeddb (FromByteSeq (SubFile Sample.seeded 0x118 8))).length ≠ 16) ∧
      (st.seed_status = .NotCorrect ↔
        (Sample.world.g_seeddb (FromByteSeq (SubFile Sample.seeded 0x118 8))).length = 16 ∧
        (Sample.world.sha256 (Sample.world.g_seeddb (FromByteSeq (SubFile Sample.seeded 0x118 8))
          ++ SubFile Sample.seeded 0x118 8)).take 4 ≠ SubFile Sample.seeded 0x114 4)) :=
  ⟨⟨0x20, by decide, by decide⟩,
    (InitSeed_classification Sample.world Sample.seeded).2 ⟨0x20, by decide, by decide⟩⟩

/-- C2. When the seed-crypto flag is unset, `InitSeed` yields `NoNeed` and
retains no seed, whatever the seed store, the program id and the stored verifier
are: two runs on headers that agree on the byte at 0x18F, with bit 0x20 clear,
both end with status `NoNeed` and an empty seed. -/
theorem InitSeed_no_need (w w' : World) (file file' : File) (g : byte)
    (h : file[0x18F]? = some g) (h' : file'[0x18F]? = some g)
    (hg : g.val &&& 0x20 = 0) :
    InitSeed w file = .ok ⟨.NoNeed, []⟩ ∧ InitSeed w' file' = .ok ⟨.NoNeed, []⟩ := by
  rw [InitSeed_of_byte w file g h, InitSeed_of_byte w' file' g h']
  simp [hg]

/-- Witness for C2: two different seed stores and two headers with different
program id and verifier bytes, both with a zero byte at 0x18F. -/
theorem InitSeed_no_need_witness :
    InitSeed Sample.world Sample.blank = .ok ⟨.NoNeed, []⟩ ∧
    InitSeed Sample.world_no_seed (Sample.poke Sample.blank 0x114 [1, 2, 3, 4, 5, 6, 7, 8])
      = .ok ⟨.NoNeed, []⟩ :=
  InitSeed_no_need Sample.world Sample.world_no_seed Sample.blank
    (Sample.poke Sample.blank 0x114 [1, 2, 3, 4, 5, 6, 7, 8]) 0
    (by decide) (by decide) (by decide)

theorem SubFile_set_outside (file : File) (p : Nat) (x : byte) (pos size : Nat)
    (h : p < pos ∨ pos + size ≤ p) :
    SubFile (file.set p x) pos size = SubFile file pos size := by
  apply List.ext_getElem?
  intro i
  simp only [SubFile, List.getElem?_take, List.getElem?_drop]
  split
  · rw [List.getElem?_set_ne (by omega)]
  · rfl

theorem flip_bit_ne : ∀ (b : byte) (j : Fin 8),
    b ^^^ (⟨2 ^ j.val % 256, Nat.mod_lt _ (by decide)⟩ : byte) ≠ b := by
  decide

/-- C3. Whenever `InitSeed` yields `Found`, inverting any single bit of the 4-byte
seed verifier at 0x114, everything else unchanged, makes `InitSeed` yield
`NotCorrect`. -/
theorem InitSeed_verifier_bit_flip (w : World) (file : File) (seed : byte_seq)
    (h : InitSeed w file = .ok ⟨.Found, seed⟩) (k j : Nat) (hk : k < 4) (hj : j < 8) :
    InitSeed w (Sample.flip_bit file (0x114 + k) j) = .ok ⟨.NotCorrect, []⟩ := by
  obtain ⟨g, hb, hg, hlen, hhash⟩ := InitSeed_found w file seed h
  have hl := length_of_getElem? file 0x18F g hb
  have hp : 0x114 + k < file.length := by omega
  have hbk : file[0x114 + k]? = some (file.get ⟨0x114 + k, hp⟩) := by
    simp [List.getElem?_eq_getElem hp]
  have hne := flip_bit_ne (file.get ⟨0x114 + k, hp⟩) ⟨j, hj⟩
  simp only [Sample.flip_bit, hbk]
  generalize (file.get ⟨0x114 + k, hp⟩ ^^^ (⟨2 ^ j % 256, _⟩ : byte)) = x at hne ⊢
  have hb2 : (file.set (0x114 + k) x)[0x18F]? = some g := by
    rw [List.getElem?_set_ne (by omega)]
    exact hb
  rw [InitSeed_of_byte w _ g hb2,
    SubFile_set_outside file (0x114 + k) x 0x118 8 (by omega)]
  have hdiff : SubFile (file.set (0x114 + k) x) 0x114 4 ≠ SubFile file 0x114 4 := by
    intro heq
    have h1 := congrArg (fun l => l[k]?) heq
    simp only [SubFile_getElem? _ 0x114 4 k hk] at h1
    rw [List.getElem?_set_self (by omega), hbk] at h1
    exact hne (Option.some.inj h1)
  have hdiff2 : (w.sha256 (w.g_seeddb (FromByteSeq (SubFile file 0x118 8))
      ++ SubFile file 0x118 8)).take 4 ≠ SubFile (file.set (0x114 + k) x) 0x114 4 := by
    rw [hhash]
    exact fun e => hdiff e.symm
  simp [hg, hlen, hdiff2]

/-- Witness for C3: the sample seed-crypto header has status `Found`, and
inverting bit 3 of the second verifier byte gives `NotCorrect`. -/
theorem InitSeed_verifier_bit_flip_witness :
    InitSeed Sample.world Sample.seeded = .ok ⟨.Found, List.replicate 16 0⟩ ∧
    InitSeed Sample.world (Sample.flip_bit Sample.seeded (0x114 + 1) 3)
      = .ok ⟨.NotCorrect, []⟩ :=
  ⟨by decide,
    InitSeed_verifier_bit_flip Sample.world Sample.seeded (List.replicate 16 0)
      (by decide) 1 3 (by decide) (by decide)⟩

end CB.Ncch

/-! # Initialization vectors -/

namespace CB.Ncch

open FB

theorem Version_eq_ok (file : File) (v : Nat) (h : Version file = .ok v) :
    0x114 ≤ file.length ∧ v = FromByteSeq (SubFile file 0x112 2) := by
  rcases Nat.lt_or_ge file.length (0x112 + 2) with hl | hl
  · rw [Version, Field_of_lt 2 file 0x112 hl] at h
    cases h
  · rw [Version, Field_of_le 2 file 0x112 hl] at h
    cases h
    exact ⟨hl, rfl⟩

theorem Version_eq_error (file : File) (e : Fault) (h : Version file = .error e) :
    file.length < 0x114 := by
  rcases Nat.lt_or_ge file.length (0x112 + 2) with hl | hl
  · exact hl
  · rw [Version, Field_of_le 2 file 0x112 hl] at h
    cases h

theorem reverse_ToByteSeq_8 (v : Nat) (type : byte) :
    ((ToByteSeq 8 v).reverse ++ (MemoryFile.filled 16 0).drop 8).set 8 type
      = (ToByteSeq 8 v).reverse ++ type :: List.replicate 7 0 := by
  simp [ToByteSeq, MemoryFile.filled, List.replicate]

/-- The buffer `CryptoIv` returns for a readable version other than 1. -/
theorem CryptoIv_of_version (file : File) (type : IvType) (v : Nat)
    (hv : Version file = .ok v) (hne : v ≠ 1) :
    PartitionId file = .ok (FromByteSeq (SubFile file 0x108 8)) ∧
    CryptoIv file type = .ok ((ToByteSeq 8 (FromByteSeq (SubFile file 0x108 8))).reverse
      ++ type :: List.replicate 7 0) := by
  have hl := (Version_eq_ok file v hv).1
  have hp : PartitionId file = .ok (FromByteSeq (SubFile file 0x108 8)) :=
    Field_of_le 8 file 0x108 (by omega)
  refine ⟨hp, ?_⟩
  unfold CryptoIv
  rw [hv, hp]
  simp only [Result.bind_ok, hne, if_false, reverse_ToByteSeq_8]

/-- C4 as stated fails: for the partition id value 0x0102030405060708, version 0
and the extended-header tag, the vector is not `08 07 06 05 04 03 02 01 T 00 ...`. -/
theorem CryptoIv_vector_refuted :
    PartitionId Sample.with_partition_id = .ok 0x0102030405060708 ∧
    Version Sample.with_partition_id = .ok 0 ∧
    CryptoIv Sample.with_partition_id IvType.Exheader
      = .ok [1, 2, 3, 4, 5, 6, 7, 8, 1, 0, 0, 0, 0, 0, 0, 0] ∧
    CryptoIv Sample.with_partition_id IvType.Exheader
      ≠ .ok [8, 7, 6, 5, 4, 3, 2, 1, 1, 0, 0, 0, 0, 0, 0, 0] := by
  decide

/-- C4, amended. For a header whose "PartitionId" value is 0x0102030405060708 and
whose version is not 1, and for every region type tag `T`, `CryptoIv` produces the
16 bytes `01 02 03 04 05 06 07 08 T 00 00 00 00 00 00 00`: the partition id in
big-endian order, then the tag, then zeros. -/
theorem CryptoIv_test_vector (file : File) (type : IvType) (v : Nat)
    (hp : PartitionId file = .ok 0x0102030405060708)
    (hv : Version file = .ok v) (hne : v ≠ 1) :
    CryptoIv file type = .ok [1, 2, 3, 4, 5, 6, 7, 8, type, 0, 0, 0, 0, 0, 0, 0] := by
  obtain ⟨hp2, hiv⟩ := CryptoIv_of_version file type v hv hne
  rw [hp] at hp2
  have hval : FromByteSeq (SubFile file 0x108 8) = 0x0102030405060708 :=
    (Result.ok.inj hp2).symm
  rw [hiv, hval]
  simp [ToByteSeq, List.replicate]

/-- Witness for the amended C4, at the ROM filesystem tag. -/
theorem CryptoIv_test_vector_witness :
    CryptoIv Sample.with_partition_id IvType.Romfs
      = .ok [1, 2, 3, 4, 5, 6, 7, 8, IvType.Romfs, 0, 0, 0, 0, 0, 0, 0] :=
  CryptoIv_test_vector Sample.with_partition_id IvType.Romfs 0 (by decide) (by decide)
    (by decide)

/-- C5. For every header with a version other than 1 and every region type tag,
`CryptoIv` returns a buffer of exactly 16 bytes whose bytes 0..7 are the 8
in-memory bytes of the "PartitionId" value in reversed order (which are the raw
bytes 0x108..0x10F reversed), whose byte 8 is the tag and whose bytes 9..15 are
zero; two vectors for the same header agree at every index other than 8. -/
theorem CryptoIv_structure (file : File) (type : IvType) (v : Nat)
    (hv : Version file = .ok v) (hne : v ≠ 1) :
    ∃ partition_id iv, PartitionId file = .ok partition_id ∧
      CryptoIv file type = .ok iv ∧
      iv.length = 16 ∧
      iv.take 8 = (ToByteSeq 8 partition_id).reverse ∧
      iv.take 8 = (SubFile file 0x108 8).reverse ∧
      iv[8]? = some type ∧
      (∀ i, 9 ≤ i → i < 16 → iv[i]? = some 0) ∧
      (∀ other iv2, CryptoIv file other = .ok iv2 →
        iv2.length = 16 ∧ ∀ i, i ≠ 8 → iv2[i]? = iv[i]?) := by
  obtain ⟨hp, hiv⟩ := CryptoIv_of_version file type v hv hne
  have hl := (Version_eq_ok file v hv).1
  have hlen := ToByteSeq_length 8 (FromByteSeq (SubFile file 0x108 8))
  have hraw := ToByteSeq_Field 8 file 0x108 (by omega)
  refine ⟨_, _, hp, hiv, ?_, ?_, ?_, ?_, ?_, ?_⟩
  · simp [hlen]
  · rw [List.take_left' (by simp [hlen])]
  · rw [List.take_left' (by simp [hlen]), hraw]
  · rw [List.getElem?_append_right (by simp [hlen])]
    simp [hlen]
  · intro i h9 h16
    rw [List.getElem?_append_right (by simp [hlen]; omega)]
    simp only [List.length_reverse, hlen]
    obtain ⟨j, rfl⟩ : ∃ j, i = 9 + j := ⟨i - 9, by omega⟩
    have : 9 + j - 8 = j + 1 := by omega
    rw [this, List.getElem?_cons_succ, List.getElem?_replicate]
    simp
    omega
  · intro other iv2 h2
    rw [(CryptoIv_of_version file other v hv hne).2] at h2
    cases h2
    refine ⟨by simp [hlen], ?_⟩
    intro i hi
    rcases Nat.lt_or_ge i 8 with h8 | h8
    · rw [List.getElem?_append_left (by simp [hlen]; omega),
        List.getElem?_append_left (by simp [hlen]; omega)]
    · rw [List.getElem?_append_right (by simp [hlen]; omega),
        List.getElem?_append_right (by simp [hlen]; omega)]
      simp only [List.length_reverse, hlen]
      obtain ⟨j, rfl⟩ : ∃ j, i = 9 + j := ⟨i - 9, by omega⟩
      have : 9 + j - 8 = j + 1 := by omega
      rw [this, List.getElem?_cons_succ, List.getElem?_cons_succ]

/-- Witness for C5, at the sample header with version 0. -/
theorem CryptoIv_structure_witness :
    ∃ partition_id iv, PartitionId Sample.with_partition_id = .ok partition_id ∧
      CryptoIv Sample.with_partition_id IvType.Exefs = .ok iv ∧
      iv.length = 16 ∧
      iv.take 8 = (ToByteSeq 8 partition_id).reverse ∧
      iv.take 8 = (SubFile Sample.with_partition_id 0x108 8).reverse ∧
      iv[8]? = some IvType.Exefs ∧
      (∀ i, 9 ≤ i → i < 16 → iv[i]? = some 0) ∧
      (∀ other iv2, CryptoIv Sample.with_partition_id other = .ok iv2 →
        iv2.length = 16 ∧ ∀ i, i ≠ 8 → iv2[i]? = iv[i]?) :=
  CryptoIv_structure Sample.with_partition_id IvType.Exefs 0 (by decide) (by decide)

/-- C6. `CryptoIv` fails fatally if and only if the "Version" field equals 1: for
version 1 it terminates for every region type and produces no vector, and for
every other readable version value it returns a vector. -/
theorem CryptoIv_fatal_iff (file : File) (type : IvType) :
    (CryptoIv file type = .error .Terminate ↔ Version file = .ok 1) ∧
    (Version file = .ok 1 → ∀ iv, CryptoIv file type ≠ .ok iv) ∧
    (∀ v, Version file = .ok v → v ≠ 1 → v < 2 ^ 16 ∧ ∃ iv, CryptoIv file type = .ok iv) := by
  refine ⟨⟨?_, ?_⟩, ?_, ?_⟩
  · intro h
    cases hv : Version file with
    | error e =>
      have hl := Version_eq_error file e hv
      rw [Version, Field_of_lt 2 file 0x112 hl] at hv
      cases hv
      simp [CryptoIv, Version, Field_of_lt 2 file 0x112 hl] at h
    | ok v =>
      by_cases h1 : v = 1
      · rw [h1]
      · rw [(CryptoIv_of_version file type v hv h1).2] at h
        cases h
  · intro hv
    simp [CryptoIv, hv]
  · intro hv iv
    simp [CryptoIv, hv]
  · intro v hv hne
    refine ⟨?_, _, (CryptoIv_of_version file type v hv hne).2⟩
    obtain ⟨hl, rfl⟩ := Version_eq_ok file v hv
    have := FromByteSeq_lt (SubFile file 0x112 2)
    rw [SubFile_length file 0x112 2 (by omega)] at this
    omega

/-- Witness for C6: the sample header with version 1 terminates, the one with
version 0 returns a vector. -/
theorem CryptoIv_fatal_iff_witness :
    (∀ iv, CryptoIv Sample.version_one IvType.Exheader ≠ .ok iv) ∧
    (0 < 2 ^ 16 ∧ ∃ iv, CryptoIv Sample.with_partition_id IvType.Exheader = .ok iv) :=
  ⟨(CryptoIv_fatal_iff Sample.version_one IvType.Exheader).2.1 (by decide),
    (CryptoIv_fatal_iff Sample.with_partition_id IvType.Exheader).2.2 0 (by decide)
      (by decide)⟩

end CB.Ncch

/-! # Force-no-crypto override -/

namespace CB.Ncch

open FB

theorem Read_SubFile_magic (file : File) (pos size : Nat) :
    Read (SubFile file pos size) 0 4 =
      if 4 ≤ size ∧ pos + 4 ≤ file.length then .ok (SubFile file pos 4)
      else .error .OutOfRange := by
  unfold Read SubFile
  simp only [List.length_take, List.length_drop, List.drop_zero, List.take_take]
  by_cases h : 4 ≤ size ∧ pos + 4 ≤ file.length
  · have h1 : 0 + 4 ≤ min size (file.length - pos) := by omega
    have h2 : min 4 size = 4 := by omega
    simp [h, h1, h2]
  · have h1 : ¬ 0 + 4 ≤ min size (file.length - pos) := by omega
    simp [h, h1]

theorem IsNoCrypto_of_byte (file : File) (g : byte) (h : file[0x18F]? = some g) :
    IsNoCrypto file = .ok ((g.val &&& 0x4) != 0) := by
  simp [IsNoCrypto, ContentType2, ContentType2Field, Field_one file 0x18F g h]

theorem IsNoCrypto_of_none (file : File) (h : file[0x18F]? = none) :
    IsNoCrypto file = .error .OutOfRange := by
  simp [IsNoCrypto, ContentType2, ContentType2Field, Field_one_none file 0x18F h]

/-- The value `CheckForceNoCrypto` computes on a source whose header is
readable up to the "RomfsSize" field, in terms of the raw bytes. -/
theorem CheckForceNoCrypto_of_header (file : File) (g : byte) (h : file[0x18F]? = some g)
    (hl : 0x1B8 ≤ file.length) :
    CheckForceNoCrypto file =
      if g.val &&& 0x4 ≠ 0 then .ok false
      else if FromByteSeq (SubFile file 0x1B0 4) = 0 then .ok false
      else if 4 ≤ FromByteSeq (SubFile file 0x1B4 4) * 0x200 % 2 ^ 32 ∧
          FromByteSeq (SubFile file 0x1B0 4) * 0x200 % 2 ^ 32 + 4 ≤ file.length then
        if SubFile file (FromByteSeq (SubFile file 0x1B0 4) * 0x200 % 2 ^ 32) 4 = ivfc_magic
        then .ok true else .ok false
      else .error .OutOfRange := by
  have ho : RomfsOffset file = .ok (FromByteSeq (SubFile file 0x1B0 4)) :=
    Field_of_le 4 file 0x1B0 (by omega)
  have hs : RomfsSize file = .ok (FromByteSeq (SubFile file 0x1B4 4)) :=
    Field_of_le 4 file 0x1B4 (by omega)
  unfold CheckForceNoCrypto RawRomfsFile
  rw [IsNoCrypto_of_byte file g h, ho, hs]
  simp only [Result.bind_ok, Read_SubFile_magic]
  split_ifs <;> simp_all

/-- Short sources: `CheckForceNoCrypto` never yields `true` when the header is not
readable up to the "RomfsSize" field. -/
theorem CheckForceNoCrypto_short (file : File) (hl : file.length < 0x1B8) :
    CheckForceNoCrypto file ≠ .ok true := by
  intro h
  unfold CheckForceNoCrypto at h
  obtain ⟨nc, _, h⟩ := (Result.bind_eq_ok _ _ _).mp h
  split at h
  · cases h
  · obtain ⟨off, hoff, h⟩ := (Result.bind_eq_ok _ _ _).mp h
    split at h
    · cases h
    · obtain ⟨raw, hraw, _⟩ := (Result.bind_eq_ok _ _ _).mp h
      unfold RawRomfsFile at hraw
      obtain ⟨_, _, hraw⟩ := (Result.bind_eq_ok _ _ _).mp hraw
      obtain ⟨sz, hsz, _⟩ := (Result.bind_eq_ok _ _ _).mp hraw
      rw [RomfsSize, Field_of_lt 4 file 0x1B4 (by omega)] at hsz
      cases hsz

/-- C7 as stated fails. First source: "RomfsOffset" is 0x800000, the `u32` product
with 0x200 wraps to 0, the characters `IVFC` stand at raw offset 0 and the override
becomes true although nothing stands at byte offset 0x800000 * 0x200. Second
source: the flag is unset, "RomfsOffset" is 1 and `IVFC` stands at raw offset
0x200, but the region is 0 sectors long, the read through its window fails and the
override does not become true. -/
theorem CheckForceNoCrypto_refuted :
    (CheckForceNoCrypto Sample.wrapped_romfs_offset = .ok true ∧
      RomfsOffset Sample.wrapped_romfs_offset = .ok 0x800000 ∧
      SubFile Sample.wrapped_romfs_offset (0x800000 * 0x200) 4 ≠ ivfc_magic) ∧
    (IsNoCrypto Sample.empty_romfs_window = .ok false ∧
      RomfsOffset Sample.empty_romfs_window = .ok 1 ∧
      SubFile Sample.empty_romfs_window (1 * 0x200) 4 = ivfc_magic ∧
      CheckForceNoCrypto Sample.empty_romfs_window = .error .OutOfRange) := by
  decide

/-- Reading "RomfsOffset" and "RomfsSize" succeeds only on a source that holds
the header up to 0x1B8, and gives the little-endian value of the raw bytes. -/
theorem Romfs_fields_eq_ok (file : File) (off size : Nat)
    (ho : RomfsOffset file = .ok off) (hs : RomfsSize file = .ok size) :
    0x1B8 ≤ file.length ∧ off = FromByteSeq (SubFile file 0x1B0 4) ∧
      size = FromByteSeq (SubFile file 0x1B4 4) := by
  rcases Nat.lt_or_ge file.length (0x1B4 + 4) with hl | hl
  · rw [RomfsSize, Field_of_lt 4 file 0x1B4 hl] at hs
    cases hs
  · rw [RomfsSize, Field_of_le 4 file 0x1B4 hl] at hs
    rw [RomfsOffset, Field_of_le 4 file 0x1B0 (by omega)] at ho
    exact ⟨hl, (Result.ok.inj ho).symm, (Result.ok.inj hs).symm⟩

/-- C7, amended. For a header whose "RomfsOffset" and "RomfsSize" are below
0x800000 sectors (so that the products with 0x200 fit in 32 bits):
`CheckForceNoCrypto` leaves `force_no_crypto` true if and only if the no-crypto
flag (bit 0x4 of the byte at 0x18F) is unset, "RomfsOffset" is non-zero,
"RomfsSize" is non-zero, and the first 4 bytes of the raw source at byte offset
`RomfsOffset * 0x200` are `IVFC`; and it returns with the initial value `false`
when the flag is set, when "RomfsOffset" is zero, and when the region is not
empty and its first 4 bytes are present and differ from the magic. -/
theorem CheckForceNoCrypto_true_iff (file : File) (off size : Nat)
    (ho : RomfsOffset file = .ok off) (hs : RomfsSize file = .ok size)
    (hoff : off < 0x800000) (hsize : size < 0x800000) :
    (CheckForceNoCrypto file = .ok true ↔
      (∃ g, file[0x18F]? = some g ∧ g.val &&& 0x4 = 0) ∧ off ≠ 0 ∧ size ≠ 0 ∧
      SubFile file (off * 0x200) 4 = ivfc_magic) ∧
    ((∃ g, file[0x18F]? = some g ∧
        (g.val &&& 0x4 ≠ 0 ∨ off = 0 ∨
          (size ≠ 0 ∧ off * 0x200 + 4 ≤ file.length ∧
            SubFile file (off * 0x200) 4 ≠ ivfc_magic))) →
      CheckForceNoCrypto file = .ok false) := by
  obtain ⟨hl, hoe, hse⟩ := Romfs_fields_eq_ok file off size ho hs
  have hmo : off * 0x200 % 2 ^ 32 = off * 0x200 := Nat.mod_eq_of_lt (by omega)
  have hms : size * 0x200 % 2 ^ 32 = size * 0x200 := Nat.mod_eq_of_lt (by omega)
  obtain ⟨b, hb⟩ : ∃ b, file[0x18F]? = some b :=
    ⟨_, List.getElem?_eq_getElem (show 0x18F < file.length by omega)⟩
  have hval := CheckForceNoCrypto_of_header file b hb hl
  rw [← hoe, ← hse, hmo, hms] at hval
  refine ⟨⟨?_, ?_⟩, ?_⟩
  · intro h
    rw [hval] at h
    by_cases h1 : b.val &&& 0x4 ≠ 0
    · rw [if_pos h1] at h
      cases h
    · rw [if_neg h1] at h
      by_cases h2 : off = 0
      · rw [if_pos h2] at h
        cases h
      · rw [if_neg h2] at h
        by_cases h3 : 4 ≤ size * 0x200 ∧ off * 0x200 + 4 ≤ file.length
        · rw [if_pos h3] at h
          by_cases h4 : SubFile file (off * 0x200) 4 = ivfc_magic
          · exact ⟨⟨b, hb, not_not.mp h1⟩, h2, by omega, h4⟩
          · rw [if_neg h4] at h
            cases h
        · rw [if_neg h3] at h
          cases h
  · rintro ⟨⟨g, hg, hflag⟩, h0, hsz, hm⟩
    rw [hb] at hg
    cases hg
    have hlen : (SubFile file (off * 0x200) 4).length = 4 := by
      rw [hm]
      rfl
    have hr : off * 0x200 + 4 ≤ file.length := by
      generalize off * 0x200 = pos at hlen ⊢
      simp only [SubFile, List.length_take, List.length_drop] at hlen
      omega
    rw [hval, if_neg (not_not.mpr hflag), if_neg h0, if_pos ⟨by omega, hr⟩, if_pos hm]
  · rintro ⟨g, hg, hcase⟩
    rw [hb] at hg
    cases hg
    rw [hval]
    rcases hcase with h1 | h2 | ⟨h3, h4, h5⟩
    · rw [if_pos h1]
    · by_cases h1 : b.val &&& 0x4 ≠ 0
      · rw [if_pos h1]
      · rw [if_neg h1, if_pos h2]
    · by_cases h1 : b.val &&& 0x4 ≠ 0
      · rw [if_pos h1]
      · by_cases h2 : off = 0
        · rw [if_neg h1, if_pos h2]
        · rw [if_neg h1, if_neg h2, if_pos ⟨by omega, h4⟩, if_neg h5]

/-- Witness for the amended C7: a source with one plaintext ROM filesystem sector
at sector 1 gets the override, and a blank header does not. -/
theorem CheckForceNoCrypto_true_iff_witness :
    CheckForceNoCrypto Sample.plain_romfs = .ok true ∧
    CheckForceNoCrypto Sample.blank = .ok false :=
  ⟨(CheckForceNoCrypto_true_iff Sample.plain_romfs 1 1 (by decide) (by decide) (by decide)
      (by decide)).1.2 ⟨⟨0, by decide, by decide⟩, by decide, by decide, by decide⟩,
    (CheckForceNoCrypto_true_iff Sample.blank 0 0 (by decide) (by decide) (by decide)
      (by decide)).2 ⟨0, by decide, Or.inr (Or.inl rfl)⟩⟩

end CB.Ncch

/-! # Derived flags -/

namespace CB.Ncch

open FB

theorem Field_one_congr (file file2 : File) (pos : Nat) (h : file2[pos]? = file[pos]?) :
    Field 1 file2 pos = Field 1 file pos := by
  cases hb : file[pos]? with
  | none =>
    rw [Field_one_none file pos hb, Field_one_none file2 pos (h.trans hb)]
  | some b =>
    rw [Field_one file pos b hb, Field_one file2 pos b (h.trans hb)]

theorem byte_bit_facts : ∀ f : byte,
    (f.val >>> 2) % 256 = f.val >>> 2 ∧ f.val >>> 2 < 64 ∧ f.val >>> 2 = f.val / 4 ∧
    ((f.val &&& 0x1) != 0) = f.val.testBit 0 ∧
    ((f.val &&& 0x2) != 0) = f.val.testBit 1 ∧
    ((f.val &&& 0x4) != 0) = f.val.testBit 2 ∧
    ((f.val &&& 0x20) != 0) = f.val.testBit 5 := by
  decide

/-- C8. The derived flags are exact bit masks of the two content-type bytes. For
the byte `f` at 0x18D: "IsData" is `f & 1 != 0` (bit 0), "IsExecutable" is
`f & 2 != 0` (bit 1) and "ContentType" is `f >> 2`, a value below 64. For the
byte `g` at 0x18F: "IsFixedKeyCrypto" is `g & 1 != 0`, "IsNoRomfsMount" is
`g & 2 != 0`, "IsNoCrypto" is `g & 4 != 0` and "IsSeedCrypto" is `g & 0x20 != 0`.
Two sources that agree on the byte at 0x18D (at 0x18F) agree on the flags derived
from it, whatever their other bytes are. -/
theorem derived_flags (file : File) :
    (∀ f, file[0x18D]? = some f →
      IsData file = .ok ((f.val &&& 0x1) != 0) ∧
      IsExecutable file = .ok ((f.val &&& 0x2) != 0) ∧
      ContentTypeField file = .ok (f.val >>> 2) ∧
      f.val >>> 2 < 64 ∧ f.val >>> 2 = f.val / 4 ∧
      ((f.val &&& 0x1) != 0) = f.val.testBit 0 ∧
      ((f.val &&& 0x2) != 0) = f.val.testBit 1) ∧
    (∀ g, file[0x18F]? = some g →
      IsFixedKeyCrypto file = .ok ((g.val &&& 0x1) != 0) ∧
      IsNoRomfsMount file = .ok ((g.val &&& 0x2) != 0) ∧
      IsNoCrypto file = .ok ((g.val &&& 0x4) != 0) ∧
      IsSeedCrypto file = .ok ((g.val &&& 0x20) != 0) ∧
      ((g.val &&& 0x1) != 0) = g.val.testBit 0 ∧
      ((g.val &&& 0x2) != 0) = g.val.testBit 1 ∧
      ((g.val &&& 0x4) != 0) = g.val.testBit 2 ∧
      ((g.val &&& 0x20) != 0) = g.val.testBit 5) ∧
    (∀ file2 : File, file2[0x18D]? = file[0x18D]? →
      IsData file2 = IsData file ∧ IsExecutable file2 = IsExecutable file ∧
      ContentTypeField file2 = ContentTypeField file) ∧
    (∀ file2 : File, file2[0x18F]? = file[0x18F]? →
      IsFixedKeyCrypto file2 = IsFixedKeyCrypto file ∧
      IsNoRomfsMount file2 = IsNoRomfsMount file ∧
      IsNoCrypto file2 = IsNoCrypto file ∧
      IsSeedCrypto file2 = IsSeedCrypto file) := by
  refine ⟨?_, ?_, ?_, ?_⟩
  · intro f hf
    obtain ⟨h1, h2, h3, h4, h5, _, _⟩ := byte_bit_facts f
    have hr := Field_one file 0x18D f hf
    refine ⟨?_, ?_, ?_, h2, h3, h4, h5⟩
    · simp [IsData, ContentType, ContentTypeFlags, hr]
    · simp [IsExecutable, ContentType, ContentTypeFlags, hr]
    · simp only [ContentTypeField, ContentType, ContentTypeFlags, hr, Result.bind_ok, h1]
  · intro g hg
    obtain ⟨_, _, _, h4, h5, h6, h7⟩ := byte_bit_facts g
    have hr := Field_one file 0x18F g hg
    refine ⟨?_, ?_, ?_, ?_, h4, h5, h6, h7⟩
    · simp [IsFixedKeyCrypto, ContentType2, ContentType2Field, hr]
    · simp [IsNoRomfsMount, ContentType2, ContentType2Field, hr]
    · simp [IsNoCrypto, ContentType2, ContentType2Field, hr]
    · simp [IsSeedCrypto, ContentType2, ContentType2Field, hr]
  · intro file2 h
    have hr := Field_one_congr file file2 0x18D h
    simp only [IsData, IsExecutable, ContentTypeField, ContentType, ContentTypeFlags, hr,
      and_self]
  · intro file2 h
    have hr := Field_one_congr file file2 0x18F h
    simp only [IsFixedKeyCrypto, IsNoRomfsMount, IsNoCrypto, IsSeedCrypto, ContentType2,
      ContentType2Field, hr, and_self]

/-- Witness for C8: the flags of a header with bytes 0x0B at 0x18D and 0x25 at
0x18F. -/
theorem derived_flags_witness :
    (IsData Sample.flagged = .ok true ∧ IsExecutable Sample.flagged = .ok true ∧
      ContentTypeField Sample.flagged = .ok 2) ∧
    (IsFixedKeyCrypto Sample.flagged = .ok true ∧ IsNoRomfsMount Sample.flagged = .ok false ∧
      IsNoCrypto Sample.flagged = .ok true ∧ IsSeedCrypto Sample.flagged = .ok true) ∧
    IsNoCrypto (Sample.poke Sample.flagged 0x100 [1, 2, 3]) = IsNoCrypto Sample.flagged :=
  have hf := (derived_flags Sample.flagged).1 0x0B (by decide)
  have hg := (derived_flags Sample.flagged).2.1 0x25 (by decide)
  have hc := (derived_flags Sample.flagged).2.2.2 (Sample.poke Sample.flagged 0x100 [1, 2, 3])
    (by decide)
  ⟨⟨hf.1, hf.2.1, hf.2.2.1⟩, ⟨hg.1, hg.2.1, hg.2.2.1, hg.2.2.2.1⟩, hc.2.2.1⟩

end CB.Ncch

/-! # Patched header -/

namespace CB.Ncch

open FB

theorem PatchFile_single (base : File) (offset : Nat) (x : byte) :
    PatchFile base [x] offset = base.set offset x := by
  apply List.ext_getElem?
  intro i
  simp only [PatchFile, List.getElem?_mapIdx, List.getElem?_set]
  rcases Nat.lt_trichotomy i offset with h | h | h
  · have h1 : ¬ offset ≤ i := by omega
    have h2 : ¬ offset = i := by omega
    simp [h1, h2]
  · subst h
    cases hb : base[i]? with
    | none =>
      have := List.getElem?_eq_none_iff.mp hb
      have h3 : ¬ i < base.length := by omega
      simp [h3]
    | some b =>
      have := length_of_getElem? base i b hb
      simp [this]
  · have h1 : offset ≤ i := by omega
    have h2 : ¬ offset = i := by omega
    obtain ⟨j, rfl⟩ : ∃ j, i = offset + (j + 1) := ⟨i - offset - 1, by omega⟩
    have h3 : offset + (j + 1) - offset = j + 1 := by omega
    cases hb : base[offset + (j + 1)]? <;> simp [h1, h2, h3]

theorem patch_byte_facts : ∀ b : byte,
    (b &&& 0xFB).val = b.val &&& 0xFB ∧
    (b &&& 0xFB).val &&& 0x4 = 0 ∧
    (∀ k : Fin 8, k.val ≠ 2 → (b &&& 0xFB).val.testBit k.val = b.val.testBit k.val) ∧
    (((b &&& 0xFB).val &&& 0x1) != 0) = ((b.val &&& 0x1) != 0) ∧
    (((b &&& 0xFB).val &&& 0x2) != 0) = ((b.val &&& 0x2) != 0) ∧
    (((b &&& 0xFB).val &&& 0x20) != 0) = ((b.val &&& 0x20) != 0) ∧
    (b.val &&& 0x4 = 0 → b &&& 0xFB = b) ∧
    (b &&& 0xFB) &&& 0xFB = b &&& 0xFB := by
  decide

/-- The patched header of a source that holds the whole header block: the header
window with the byte at 0x8F replaced by itself and-ed with 0xFB. -/
theorem PatchedHeader_of_header (file : File) (hl : 0x200 ≤ file.length) (b : byte)
    (hb : file[0x18F]? = some b) :
    PatchedHeader file = .ok ((SubFile file 0x100 0x100).set 0x8F (b &&& 0xFB)) := by
  have hlen := SubFile_length file 0x100 0x100 (by omega)
  have h1 : (SubFile file 0x100 0x100)[0x8F]? = some b := by
    rw [SubFile_getElem? file 0x100 0x100 0x8F (by omega)]
    exact hb
  unfold PatchedHeader
  simp only [Read_of_le (SubFile file 0x100 0x100) 0x8F 1 (by omega), Result.bind_ok,
    SubFile_one _ 0x8F _ h1, MemoryFile, List.modifyHead, PatchFile_single]

theorem with_header_set (file : File) (hl : 0x200 ≤ file.length) (x : byte) :
    Sample.with_header file ((SubFile file 0x100 0x100).set 0x8F x) = file.set 0x18F x := by
  have hlen := SubFile_length file 0x100 0x100 (by omega)
  have htake : (file.take 0x100).length = 0x100 := by
    simp only [List.length_take]
    omega
  apply List.ext_getElem?
  intro i
  unfold Sample.with_header
  rcases Nat.lt_or_ge i 0x100 with h1 | h1
  · rw [List.append_assoc, List.getElem?_append_left (by omega), List.getElem?_take,
      if_pos h1, List.getElem?_set_ne (by omega)]
  · rw [List.append_assoc, List.getElem?_append_right (by omega), htake]
    rcases Nat.lt_or_ge i 0x200 with h2 | h2
    · rw [List.getElem?_append_left (by simp only [List.length_set, hlen]; omega)]
      obtain ⟨j, rfl⟩ : ∃ j, i = 0x100 + j := ⟨i - 0x100, by omega⟩
      have hj : 0x100 + j - 0x100 = j := by omega
      rw [hj]
      by_cases h3 : j = 0x8F
      · subst h3
        rw [List.getElem?_set_self (by omega), List.getElem?_set_self (by omega)]
      · rw [List.getElem?_set_ne (by omega), List.getElem?_set_ne (by omega),
          SubFile_getElem? file 0x100 0x100 j (by omega)]
    · rw [List.getElem?_append_right (by simp only [List.length_set, hlen]; omega),
        List.length_set, hlen, List.getElem?_drop, List.getElem?_set_ne (by omega)]
      congr 1
      omega

theorem Field_set_outside (file : File) (p : Nat) (x : byte) (width offset : Nat)
    (h : p < offset ∨ offset + width ≤ p) :
    Field width (file.set p x) offset = Field width file offset := by
  rcases Nat.lt_or_ge file.length (offset + width) with hl | hl
  · rw [Field_of_lt width file offset hl,
      Field_of_lt width _ offset (by simpa only [List.length_set] using hl)]
  · rw [Field_of_le width file offset hl,
      Field_of_le width _ offset (by simpa only [List.length_set] using hl),
      SubFile_set_outside file p x offset width h]

/-- C9. For every raw source that holds the 0x200-byte header, `PatchedHeader`
returns a 0x100-byte source that agrees with the header window (raw offset 0x100 +
offset) at every offset other than 0x8F, and whose byte at 0x8F is the original
byte with bit 0x4 cleared and the other seven bits unchanged. On the source
whose header block is replaced by the patched one, "IsNoCrypto" is false, every
other derived flag is unchanged, and so is every scalar field that does not
cover raw offset 0x18F. -/
theorem PatchedHeader_frame (file : File) (hl : 0x200 ≤ file.length) :
    ∃ patched b p, PatchedHeader file = .ok patched ∧ file[0x18F]? = some b ∧
      patched.length = 0x100 ∧
      (∀ i, i < 0x100 → i ≠ 0x8F → patched[i]? = file[0x100 + i]?) ∧
      patched[0x8F]? = some p ∧ p.val = b.val &&& 0xFB ∧ p.val &&& 0x4 = 0 ∧
      (∀ k, k < 8 → k ≠ 2 → p.val.testBit k = b.val.testBit k) ∧
      IsNoCrypto (Sample.with_header file patched) = .ok false ∧
      IsFixedKeyCrypto (Sample.with_header file patched) = IsFixedKeyCrypto file ∧
      IsNoRomfsMount (Sample.with_header file patched) = IsNoRomfsMount file ∧
      IsSeedCrypto (Sample.with_header file patched) = IsSeedCrypto file ∧
      IsData (Sample.with_header file patched) = IsData file ∧
      IsExecutable (Sample.with_header file patched) = IsExecutable file ∧
      ContentTypeField (Sample.with_header file patched) = ContentTypeField file ∧
      (∀ width offset, offset + width ≤ 0x18F ∨ 0x190 ≤ offset →
        Field width (Sample.with_header file patched) offset = Field width file offset) := by
  have hlen := SubFile_length file 0x100 0x100 (by omega)
  obtain ⟨b, hb⟩ : ∃ b, file[0x18F]? = some b :=
    ⟨_, List.getElem?_eq_getElem (show 0x18F < file.length by omega)⟩
  obtain ⟨f1, f2, f3, f4, f5, f6, _, _⟩ := patch_byte_facts b
  have hset : (file.set 0x18F (b &&& 0xFB))[0x18F]? = some (b &&& 0xFB) :=
    List.getElem?_set_self (by omega)
  have h8D : (file.set 0x18F (b &&& 0xFB))[0x18D]? = file[0x18D]? :=
    List.getElem?_set_ne (by omega)
  have hr2 := Field_one _ 0x18F _ hset
  have hr := Field_one file 0x18F b hb
  have hc := Field_one_congr file _ 0x18D h8D
  refine ⟨_, b, b &&& 0xFB, PatchedHeader_of_header file hl b hb, hb, ?_, ?_, ?_, f1, f2, ?_, ?_⟩
  · rw [List.length_set, hlen]
  · intro i hi hne
    rw [List.getElem?_set_ne (by omega), SubFile_getElem? file 0x100 0x100 i hi]
  · exact List.getElem?_set_self (by omega)
  · intro k hk hne
    exact f3 ⟨k, hk⟩ hne
  · rw [with_header_set file hl]
    refine ⟨?_, ?_, ?_, ?_, ?_, ?_, ?_, ?_⟩
    · simp only [IsNoCrypto, ContentType2, ContentType2Field, hr2, Result.bind_ok, f2]
      rfl
    · simp only [IsFixedKeyCrypto, ContentType2, ContentType2Field, hr2, hr, Result.bind_ok, f4]
    · simp only [IsNoRomfsMount, ContentType2, ContentType2Field, hr2, hr, Result.bind_ok, f5]
    · simp only [IsSeedCrypto, ContentType2, ContentType2Field, hr2, hr, Result.bind_ok, f6]
    · simp only [IsData, ContentType, ContentTypeFlags, hc]
    · simp only [IsExecutable, ContentType, ContentTypeFlags, hc]
    · simp only [ContentTypeField, ContentType, ContentTypeFlags, hc]
    · intro width offset h
      exact Field_set_outside file 0x18F _ width offset (by omega)

/-- Witness for C9: the sample header with every bit of the byte at 0x18F set. -/
theorem PatchedHeader_frame_witness :
    ∃ patched b p, PatchedHeader Sample.all_flags = .ok patched ∧
      Sample.all_flags[0x18F]? = some b ∧
      patched.length = 0x100 ∧
      (∀ i, i < 0x100 → i ≠ 0x8F → patched[i]? = Sample.all_flags[0x100 + i]?) ∧
      patched[0x8F]? = some p ∧ p.val = b.val &&& 0xFB ∧ p.val &&& 0x4 = 0 ∧
      (∀ k, k < 8 → k ≠ 2 → p.val.testBit k = b.val.testBit k) ∧
      IsNoCrypto (Sample.with_header Sample.all_flags patched) = .ok false ∧
      IsFixedKeyCrypto (Sample.with_header Sample.all_flags patched)
        = IsFixedKeyCrypto Sample.all_flags ∧
      IsNoRomfsMount (Sample.with_header Sample.all_flags patched)
        = IsNoRomfsMount Sample.all_flags ∧
      IsSeedCrypto (Sample.with_header Sample.all_flags patched)
        = IsSeedCrypto Sample.all_flags ∧
      IsData (Sample.with_header Sample.all_flags patched) = IsData Sample.all_flags ∧
      IsExecutable (Sample.with_header Sample.all_flags patched)
        = IsExecutable Sample.all_flags ∧
      ContentTypeField (Sample.with_header Sample.all_flags patched)
        = ContentTypeField Sample.all_flags ∧
      (∀ width offset, offset + width ≤ 0x18F ∨ 0x190 ≤ offset →
        Field width (Sample.with_header Sample.all_flags patched) offset
          = Field width Sample.all_flags offset) :=
  PatchedHeader_frame Sample.all_flags (by decide)

end CB.Ncch

/-! # Signature key resolution -/

namespace CB.Ncch

open FB

/-- What a successful construction says about its intermediate steps. -/
theorem Ncch_eq_ok (w : World) (file : File) (c : Constructed) (h : Ncch w file = .ok c) :
    InitSeed w file = .ok c.seed ∧
    CheckForceNoCrypto file = .ok c.force_no_crypto ∧
    (∃ names, ResolveSignatureKey w c.force_no_crypto file = .ok (c.signature_key, names)) ∧
    c.Signature = ⟨SubFile file 0x100 0x100, SubFile file 0 0x100, c.signature_key⟩ ∧
    (∃ patched_header, PatchedHeader file = .ok patched_header ∧
      c.SignaturePatched = ⟨patched_header, SubFile file 0 0x100, c.signature_key⟩) := by
  unfold Ncch at h
  obtain ⟨seed, hseed, h⟩ := (Result.bind_eq_ok _ _ _).mp h
  obtain ⟨fnc, hfnc, h⟩ := (Result.bind_eq_ok _ _ _).mp h
  obtain ⟨kn, hkn, h⟩ := (Result.bind_eq_ok _ _ _).mp h
  obtain ⟨ph, hph, h⟩ := (Result.bind_eq_ok _ _ _).mp h
  obtain ⟨en, _, h⟩ := (Result.bind_eq_ok _ _ _).mp h
  obtain ⟨rn, _, h⟩ := (Result.bind_eq_ok _ _ _).mp h
  cases h
  exact ⟨hseed, hfnc, ⟨kn.2, hkn⟩, rfl, ph, hph, rfl⟩

/-- C10. Signature public key resolution in the constructor. If
"ExheaderHashRegionSize" is zero the key is the secret `pubkey_ncsd_cfa`; if it is
non-zero and `ExheaderError` is non-empty the key is an empty byte source; if it
is non-zero and `ExheaderError` is empty the key is the "NcchSignaturePublicKey"
field of the extended header sub-container built over `ExheaderFile`; and the
"Signature" and "SignaturePatched" nodes are built with that same key and the
same signature window of 0x100 bytes at raw offset 0, over the header window and
the patched header respectively. -/
theorem signature_key_resolution (w : World) (file : File) (c : Constructed)
    (h : Ncch w file = .ok c) :
    (ExheaderHashRegionSize file = .ok 0 →
      c.signature_key = MemoryFile (w.secrets SB.k_sec_pubkey_ncsd_cfa)) ∧
    (∀ n error, ExheaderHashRegionSize file = .ok n → n ≠ 0 →
      ExheaderError w c.force_no_crypto file = .ok error → error ≠ "" →
      c.signature_key = MemoryFile [] ∧ c.signature_key.length = 0) ∧
    (∀ n, ExheaderHashRegionSize file = .ok n → n ≠ 0 →
      ExheaderError w c.force_no_crypto file = .ok "" →
      ∃ exheader, ExheaderFile w c.force_no_crypto file = .ok exheader ∧
        w.NcchSignaturePublicKey exheader = .ok c.signature_key) ∧
    (∃ n, ExheaderHashRegionSize file = .ok n ∧
      (n ≠ 0 → ∃ error, ExheaderError w c.force_no_crypto file = .ok error)) ∧
    c.Signature = ⟨SubFile file 0x100 0x100, SubFile file 0 0x100, c.signature_key⟩ ∧
    (∃ patched_header, PatchedHeader file = .ok patched_header ∧
      c.SignaturePatched = ⟨patched_header, SubFile file 0 0x100, c.signature_key⟩) ∧
    c.Signature.key = c.SignaturePatched.key ∧
    c.Signature.signature = c.SignaturePatched.signature := by
  obtain ⟨_, _, ⟨names, hkey⟩, hsig, ph, hph, hsp⟩ := Ncch_eq_ok w file c h
  unfold ResolveSignatureKey at hkey
  obtain ⟨n, hn, hkey⟩ := (Result.bind_eq_ok _ _ _).mp hkey
  refine ⟨?_, ?_, ?_, ?_, hsig, ⟨ph, hph, hsp⟩, by rw [hsig, hsp], by rw [hsig, hsp]⟩
  · intro h0
    rw [hn] at h0
    cases h0
    simp only [ne_eq, not_true_eq_false, if_false] at hkey
    exact (Prod.mk.inj (Result.ok.inj hkey)).1.symm
  · intro m error hm hne herr hnonempty
    rw [hn] at hm
    cases hm
    rw [if_pos hne, herr, Result.bind_ok, if_neg hnonempty] at hkey
    have hk : c.signature_key = MemoryFile [] := (Prod.mk.inj (Result.ok.inj hkey)).1.symm
    exact ⟨hk, by rw [hk]; rfl⟩
  · intro m hm hne herr
    rw [hn] at hm
    cases hm
    rw [if_pos hne, herr, Result.bind_ok, if_pos rfl] at hkey
    obtain ⟨exheader, hex, hkey⟩ := (Result.bind_eq_ok _ _ _).mp hkey
    obtain ⟨key, hk, hkey⟩ := (Result.bind_eq_ok _ _ _).mp hkey
    rw [(Prod.mk.inj (Result.ok.inj hkey)).1] at hk
    exact ⟨exheader, hex, hk⟩
  · refine ⟨n, hn, ?_⟩
    intro hne
    rw [if_pos hne] at hkey
    obtain ⟨error, herr, _⟩ := (Result.bind_eq_ok _ _ _).mp hkey
    exact ⟨error, herr⟩

/-- Witness for C10: on the blank header, which declares no extended header, the
constructor succeeds and the key is the secret `pubkey_ncsd_cfa`. -/
theorem signature_key_resolution_witness :
    Ncch Sample.world Sample.blank = .ok Sample.blank_constructed ∧
    ExheaderHashRegionSize Sample.blank = .ok 0 ∧
    Sample.blank_constructed.signature_key
      = MemoryFile (Sample.world.secrets SB.k_sec_pubkey_ncsd_cfa) ∧
    Sample.blank_constructed.Signature.key = Sample.blank_constructed.SignaturePatched.key :=
  have h := signature_key_resolution Sample.world Sample.blank Sample.blank_constructed
    (by decide)
  ⟨by decide, by decide, h.1 (by decide), h.2.2.2.2.2.2.1⟩

end CB.Ncch

/-! # Byte swaps -/

theorem swap16_eq (data : Nat) (h : data < 2 ^ 16) :
    swap16 data = data % 256 * 256 + data / 256 := by
  have hlt : data / 2 ^ 8 < 2 ^ 8 := by omega
  have hor : (data >>> 8) ||| (data <<< 8) = 2 ^ 8 * data + data / 2 ^ 8 := by
    rw [Nat.shiftRight_eq_div_pow, Nat.shiftLeft_eq, Nat.lor_comm, Nat.mul_comm data,
      Nat.mul_add_lt_is_or hlt]
  unfold swap16
  rw [hor]
  omega

theorem swap16_lt (data : Nat) : swap16 data < 2 ^ 16 :=
  Nat.mod_lt _ (by decide)

theorem swap32_eq (data : Nat) (h : data < 2 ^ 32) :
    swap32 data = 2 ^ 16 * swap16 (data % 2 ^ 16) + swap16 (data / 2 ^ 16) := by
  have hlt := swap16_lt (data / 2 ^ 16)
  have hlt2 := swap16_lt (data % 2 ^ 16)
  have hd : data / 2 ^ 16 % 2 ^ 16 = data / 2 ^ 16 := Nat.mod_eq_of_lt (by omega)
  unfold swap32
  rw [Nat.shiftRight_eq_div_pow, hd, Nat.shiftLeft_eq, Nat.mul_comm _ (2 ^ 16),
    ← Nat.mul_add_lt_is_or hlt]
  exact Nat.mod_eq_of_lt (by omega)

theorem swap32_lt (data : Nat) : swap32 data < 2 ^ 32 :=
  Nat.mod_lt _ (by decide)

theorem swap64_eq (data : Nat) (h : data < 2 ^ 64) :
    swap64 data = 2 ^ 32 * swap32 (data % 2 ^ 32) + swap32 (data / 2 ^ 32) := by
  have hlt := swap32_lt (data / 2 ^ 32)
  have hlt2 := swap32_lt (data % 2 ^ 32)
  have hd : data / 2 ^ 32 % 2 ^ 32 = data / 2 ^ 32 := Nat.mod_eq_of_lt (by omega)
  unfold swap64
  rw [Nat.shiftRight_eq_div_pow, hd, Nat.shiftLeft_eq, Nat.mul_comm _ (2 ^ 32),
    ← Nat.mul_add_lt_is_or hlt]
  exact Nat.mod_eq_of_lt (by omega)


theorem ToByteSeq_add (n m x : Nat) :
    ToByteSeq (n + m) x = ToByteSeq n x ++ ToByteSeq m (x / 256 ^ n) := by
  induction n generalizing x with
  | zero => simp [ToByteSeq]
  | succ n ih =>
    have h : n + 1 + m = (n + m) + 1 := by omega
    rw [h]
    simp only [ToByteSeq, ih, List.cons_append, Nat.div_div_eq_div_mul, pow_succ]
    rw [Nat.mul_comm 256]

theorem ToByteSeq_mod (n x : Nat) : ToByteSeq n (x % 256 ^ n) = ToByteSeq n x := by
  induction n generalizing x with
  | zero => rfl
  | succ n ih =>
    have h1 : x % 256 ^ (n + 1) % 256 = x % 256 := by
      rw [pow_succ]
      exact Nat.mod_mul_left_mod x (256 ^ n) 256
    have h2 : x % 256 ^ (n + 1) / 256 = x / 256 % 256 ^ n := by
      rw [pow_succ, Nat.mul_comm, Nat.mod_mul_right_div_self]
    simp only [ToByteSeq, h1, h2, ih]

theorem FromByteSeq_append (a b : byte_seq) :
    FromByteSeq (a ++ b) = FromByteSeq a + 256 ^ a.length * FromByteSeq b := by
  induction a with
  | nil => simp [FromByteSeq]
  | cons x a ih =>
    rw [List.cons_append]
    simp only [FromByteSeq, List.length_cons, pow_succ]
    rw [ih]
    ring

theorem FromByteSeq_ToByteSeq (n x : Nat) : FromByteSeq (ToByteSeq n x) = x % 256 ^ n := by
  induction n generalizing x with
  | zero => simp [ToByteSeq, FromByteSeq, Nat.mod_one]
  | succ n ih =>
    simp only [ToByteSeq, FromByteSeq, ih, pow_succ]
    rw [Nat.mul_comm (256 ^ n) 256, Nat.mod_mul, Nat.add_comm]

/-- The value whose bytes are those of `x` in reversed order, built from the
two halves of `x`. -/
theorem reversed_halves (n x : Nat) :
    FromByteSeq (ToByteSeq (n + n) x).reverse
      = 256 ^ n * FromByteSeq (ToByteSeq n (x % 256 ^ n)).reverse
        + FromByteSeq (ToByteSeq n (x / 256 ^ n)).reverse := by
  rw [ToByteSeq_add, List.reverse_append, FromByteSeq_append, List.length_reverse,
    ToByteSeq_length, ToByteSeq_mod, Nat.add_comm]

theorem swap16_value (x : Nat) (h : x < 2 ^ 16) :
    swap16 x = FromByteSeq (ToByteSeq 2 x).reverse := by
  rw [swap16_eq x h]
  simp [ToByteSeq, FromByteSeq]
  omega

theorem swap32_value (x : Nat) (h : x < 2 ^ 32) :
    swap32 x = FromByteSeq (ToByteSeq 4 x).reverse := by
  rw [swap32_eq x h, swap16_value _ (Nat.mod_lt _ (by decide)),
    swap16_value (x / 2 ^ 16) (by omega)]
  exact (reversed_halves 2 x).symm

theorem swap64_lt (data : Nat) : swap64 data < 2 ^ 64 :=
  Nat.mod_lt _ (by decide)

theorem swap64_value (x : Nat) (h : x < 2 ^ 64) :
    swap64 x = FromByteSeq (ToByteSeq 8 x).reverse := by
  rw [swap64_eq x h, swap32_value _ (Nat.mod_lt _ (by decide)),
    swap32_value (x / 2 ^ 32) (by omega)]
  exact (reversed_halves 4 x).symm

/-- Consequences of `swap x` being the value of the reversed bytes of `x`. -/
theorem reversed_bytes_facts (n x y : Nat) (hx : x < 256 ^ n)
    (hy : y = FromByteSeq (ToByteSeq n x).reverse) :
    ToByteSeq n y = (ToByteSeq n x).reverse ∧
    FromByteSeq (ToByteSeq n y).reverse = x := by
  have hlen : (ToByteSeq n x).reverse.length = n := by
    rw [List.length_reverse, ToByteSeq_length]
  have h1 : ToByteSeq n y = (ToByteSeq n x).reverse := by
    have := ToByteSeq_FromByteSeq (ToByteSeq n x).reverse
    rw [hlen] at this
    rw [hy, this]
  refine ⟨h1, ?_⟩
  rw [h1, List.reverse_reverse, FromByteSeq_ToByteSeq, Nat.mod_eq_of_lt hx]

/-- C20. The generic byte-swap helpers reverse byte order: for every 16-, 32- and
64-bit unsigned value `x`, `swap16`/`swap32`/`swap64` (with `swap32` built from two
`swap16` calls and `swap64` from two `swap32` calls on the truncated halves)
return the value whose in-memory bytes are those of `x` in reversed order, a
value of the same width, and each is an involution. -/
theorem swap_reverses_bytes :
    (∀ x, x < 2 ^ 16 →
      swap16 x = FromByteSeq (ToByteSeq 2 x).reverse ∧
      ToByteSeq 2 (swap16 x) = (ToByteSeq 2 x).reverse ∧
      swap16 x < 2 ^ 16 ∧ swap16 (swap16 x) = x) ∧
    (∀ x, x < 2 ^ 32 →
      swap32 x = FromByteSeq (ToByteSeq 4 x).reverse ∧
      ToByteSeq 4 (swap32 x) = (ToByteSeq 4 x).reverse ∧
      swap32 x < 2 ^ 32 ∧ swap32 (swap32 x) = x) ∧
    (∀ x, x < 2 ^ 64 →
      swap64 x = FromByteSeq (ToByteSeq 8 x).reverse ∧
      ToByteSeq 8 (swap64 x) = (ToByteSeq 8 x).reverse ∧
      swap64 x < 2 ^ 64 ∧ swap64 (swap64 x) = x) := by
  refine ⟨?_, ?_, ?_⟩
  · intro x h
    have hv := swap16_value x h
    have hf := reversed_bytes_facts 2 x (swap16 x) (by omega) hv
    refine ⟨hv, hf.1, swap16_lt x, ?_⟩
    rw [swap16_value _ (swap16_lt x)]
    exact hf.2
  · intro x h
    have hv := swap32_value x h
    have hf := reversed_bytes_facts 4 x (swap32 x) (by omega) hv
    refine ⟨hv, hf.1, swap32_lt x, ?_⟩
    rw [swap32_value _ (swap32_lt x)]
    exact hf.2
  · intro x h
    have hv := swap64_value x h
    have hf := reversed_bytes_facts 8 x (swap64 x) (by omega) hv
    refine ⟨hv, hf.1, swap64_lt x, ?_⟩
    rw [swap64_value _ (swap64_lt x)]
    exact hf.2

/-- Witness for C20: the swaps of 0x1234, 0x12345678 and 0x0102030405060708. -/
theorem swap_reverses_bytes_witness :
    (ToByteSeq 2 (swap16 0x1234) = (ToByteSeq 2 0x1234).reverse ∧
      swap16 (swap16 0x1234) = 0x1234) ∧
    (ToByteSeq 4 (swap32 0x12345678) = (ToByteSeq 4 0x12345678).reverse ∧
      swap32 (swap32 0x12345678) = 0x12345678) ∧
    (ToByteSeq 8 (swap64 0x0102030405060708) = (ToByteSeq 8 0x0102030405060708).reverse ∧
      swap64 (swap64 0x0102030405060708) = 0x0102030405060708) :=
  have h16 := swap_reverses_bytes.1 0x1234 (by decide)
  have h32 := swap_reverses_bytes.2.1 0x12345678 (by decide)
  have h64 := swap_reverses_bytes.2.2 0x0102030405060708 (by decide)
  ⟨⟨h16.2.1, h16.2.2.2⟩, ⟨h32.2.1, h32.2.2.2⟩, ⟨h64.2.1, h64.2.2.2⟩⟩

/-! # Key errors -/

namespace CB.Ncch

open FB

theorem IsFixedKeyCrypto_of_byte (file : File) (g : byte) (h : file[0x18F]? = some g) :
    IsFixedKeyCrypto file = .ok ((g.val &&& 0x1) != 0) := by
  simp [IsFixedKeyCrypto, ContentType2, ContentType2Field, Field_one file 0x18F g h]

theorem IsDecrypted_of_byte (force_no_crypto : Bool) (file : File) (g : byte)
    (h : file[0x18F]? = some g) :
    IsDecrypted force_no_crypto file = .ok (force_no_crypto || ((g.val &&& 0x4) != 0)) := by
  unfold IsDecrypted
  cases force_no_crypto
  · simp [IsNoCrypto_of_byte file g h]
  · simp

theorem IsDecrypted_forced (file : File) : IsDecrypted true file = .ok true := rfl

theorem CryptoMethod_of_flag_byte (file : File) (g : byte) (h : file[0x18F]? = some g) :
    ∃ m : byte, file[0x18B]? = some m ∧ CryptoMethod file = .ok m.val := by
  have hl := length_of_getElem? file 0x18F g h
  have hm : file[0x18B]? = some (file.get ⟨0x18B, by omega⟩) :=
    List.getElem?_eq_getElem (show 0x18B < file.length by omega)
  exact ⟨_, hm, Field_one file 0x18B _ hm⟩

/-- The value of `PrimaryNormalKeyError` on a source whose flag byte is readable. -/
theorem PrimaryNormalKeyError_of_byte (w : World) (file : File) (g : byte)
    (h : file[0x18F]? = some g) :
    PrimaryNormalKeyError w file =
      if g.val &&& 0x1 ≠ 0 then .ok ""
      else if (w.secrets SB.k_sec_aes_const).length ≠ 16 then .ok SB.k_sec_aes_const
      else if (w.secrets SB.k_sec_key2C_x).length ≠ 16 then .ok SB.k_sec_key2C_x
      else .ok "" := by
  unfold PrimaryNormalKeyError
  rw [IsFixedKeyCrypto_of_byte file g h]
  by_cases hf : g.val &&& 0x1 = 0 <;> simp [hf]

/-- The value of `ExheaderError` on a source whose flag byte is readable. -/
theorem ExheaderError_of_byte (w : World) (force_no_crypto : Bool) (file : File) (g : byte)
    (h : file[0x18F]? = some g) :
    ExheaderError w force_no_crypto file =
      if force_no_crypto = true ∨ g.val &&& 0x4 ≠ 0 then .ok ""
      else PrimaryNormalKeyError w file := by
  unfold ExheaderError
  rw [IsDecrypted_of_byte force_no_crypto file g h]
  cases force_no_crypto <;> by_cases hn : g.val &&& 0x4 = 0 <;> simp [hn]

/-- C11. Extended-header decryptability error. For a container that is not
decrypted (neither no-crypto nor force-no-crypto) and not fixed-key-crypto,
`ExheaderError` is the name of the first of the secrets `aes const`, `key2C_x`
that is not exactly 16 bytes long (a missing secret has length 0), and is empty
when both are 16 bytes long, so it is non-empty if and only if one of the two is
missing or of a wrong length; two secret stores with the same secrets of a
wrong length give the same error, whatever the wrong lengths are; for a
decrypted or fixed-key container `ExheaderError` is empty whatever the secrets
are. -/
theorem ExheaderError_classification (w : World) (file : File) (g : byte)
    (hg : file[0x18F]? = some g) :
    (g.val &&& 0x4 = 0 → g.val &&& 0x1 = 0 →
      ExheaderError w false file = .ok
        (if (w.secrets SB.k_sec_aes_const).length ≠ 16 then "aes const"
          else if (w.secrets SB.k_sec_key2C_x).length ≠ 16 then "key2C_x" else "") ∧
      ((∃ e, ExheaderError w false file = .ok e ∧ e ≠ "") ↔
        ((w.secrets SB.k_sec_aes_const).length ≠ 16 ∨
          (w.secrets SB.k_sec_key2C_x).length ≠ 16)) ∧
      (∀ w2 : World,
        ((w2.secrets SB.k_sec_aes_const).length ≠ 16 ↔
          (w.secrets SB.k_sec_aes_const).length ≠ 16) →
        ((w2.secrets SB.k_sec_key2C_x).length ≠ 16 ↔
          (w.secrets SB.k_sec_key2C_x).length ≠ 16) →
        ExheaderError w2 false file = ExheaderError w false file)) ∧
    (g.val &&& 0x4 ≠ 0 ∨ g.val &&& 0x1 ≠ 0 → ExheaderError w false file = .ok "") ∧
    ExheaderError w true file = .ok "" := by
  have hval : ∀ v : World, ExheaderError v false file =
      if g.val &&& 0x4 ≠ 0 then .ok ""
      else if g.val &&& 0x1 ≠ 0 then .ok ""
      else if (v.secrets SB.k_sec_aes_const).length ≠ 16 then .ok SB.k_sec_aes_const
      else if (v.secrets SB.k_sec_key2C_x).length ≠ 16 then .ok SB.k_sec_key2C_x
      else .ok "" := by
    intro v
    rw [ExheaderError_of_byte v false file g hg, PrimaryNormalKeyError_of_byte v file g hg]
    simp
  refine ⟨?_, ?_, ?_⟩
  · intro hnc hfix
    have hv : ∀ v : World, ExheaderError v false file =
        if (v.secrets SB.k_sec_aes_const).length ≠ 16 then .ok SB.k_sec_aes_const
        else if (v.secrets SB.k_sec_key2C_x).length ≠ 16 then .ok SB.k_sec_key2C_x
        else .ok "" := by
      intro v
      rw [hval v, if_neg (not_not.mpr hnc), if_neg (not_not.mpr hfix)]
    refine ⟨?_, ?_, ?_⟩
    · rw [hv w]
      by_cases h1 : (w.secrets SB.k_sec_aes_const).length ≠ 16
      · rw [if_pos h1, if_pos h1]
        rfl
      · by_cases h2 : (w.secrets SB.k_sec_key2C_x).length ≠ 16
        · rw [if_neg h1, if_neg h1, if_pos h2, if_pos h2]
          rfl
        · rw [if_neg h1, if_neg h1, if_neg h2, if_neg h2]
    · rw [hv w]
      by_cases h1 : (w.secrets SB.k_sec_aes_const).length ≠ 16
      · rw [if_pos h1]
        exact ⟨fun _ => Or.inl h1, fun _ => ⟨_, rfl, by decide⟩⟩
      · by_cases h2 : (w.secrets SB.k_sec_key2C_x).length ≠ 16
        · rw [if_neg h1, if_pos h2]
          exact ⟨fun _ => Or.inr h2, fun _ => ⟨_, rfl, by decide⟩⟩
        · rw [if_neg h1, if_neg h2]
          constructor
          · rintro ⟨e, he, hne⟩
            exact absurd (Result.ok.inj he).symm hne
          · rintro (h | h)
            · exact absurd h h1
            · exact absurd h h2
    · intro w2 ha hk
      rw [hv w, hv w2]
      by_cases h1 : (w.secrets SB.k_sec_aes_const).length ≠ 16
      · rw [if_pos h1, if_pos (ha.mpr h1)]
      · by_cases h2 : (w.secrets SB.k_sec_key2C_x).length ≠ 16
        · rw [if_neg h1, if_neg (fun h => h1 (ha.mp h)), if_pos h2, if_pos (hk.mpr h2)]
        · rw [if_neg h1, if_neg (fun h => h1 (ha.mp h)), if_neg h2,
            if_neg (fun h => h2 (hk.mp h))]
  · intro h
    rw [hval w]
    rcases h with h | h
    · rw [if_pos h]
    · by_cases h4 : g.val &&& 0x4 ≠ 0
      · rw [if_pos h4]
      · rw [if_neg h4, if_pos h]
  · rw [ExheaderError_of_byte w true file g hg, if_pos (Or.inl rfl)]

/-- The value of `SecondaryNormalKeyError` on a source whose flag byte is
readable, `m` being the crypto-method byte. -/
theorem SecondaryNormalKeyError_of_byte (w : World) (seed_status : SeedStatus) (file : File)
    (g m : byte) (h : file[0x18F]? = some g) (hm : file[0x18B]? = some m) :
    SecondaryNormalKeyError w seed_status file =
      if g.val &&& 0x1 ≠ 0 then .ok ""
      else if seed_status = .NotCorrect then .ok "Seed Not Correct"
      else if seed_status = .NotFound then .ok "Seed Not Found"
      else if (w.secrets SB.k_sec_aes_const).length ≠ 16 then .ok SB.k_sec_aes_const
      else if m.val = 0x00 then
        if (w.secrets SB.k_sec_key2C_x).length ≠ 16 then .ok SB.k_sec_key2C_x else .ok ""
      else if m.val = 0x01 then
        if (w.secrets SB.k_sec_key25_x).length ≠ 16 then .ok SB.k_sec_key25_x else .ok ""
      else if m.val = 0x0A then
        if (w.secrets SB.k_sec_key18_x).length ≠ 16 then .ok SB.k_sec_key18_x else .ok ""
      else if m.val = 0x0B then
        if (w.secrets SB.k_sec_key1B_x).length ≠ 16 then .ok SB.k_sec_key1B_x else .ok ""
      else .ok "???" := by
  unfold SecondaryNormalKeyError
  rw [IsFixedKeyCrypto_of_byte file g h, CryptoMethod, Field_one file 0x18B m hm]
  simp only [Result.bind_ok]
  by_cases hf : g.val &&& 0x1 = 0
  · have hb : ((g.val &&& 0x1) != 0) = false := by simp [hf]
    rw [hb, if_neg (not_not.mpr hf)]
    cases seed_status <;> simp
  · have hb : ((g.val &&& 0x1) != 0) = true := by simpa using hf
    rw [hb, if_pos hf]
    rfl

/-- The value of `RomfsError` on a source whose flag byte is readable. -/
theorem RomfsError_of_byte (w : World) (seed_status : SeedStatus) (force_no_crypto : Bool)
    (file : File) (g : byte) (h : file[0x18F]? = some g) :
    RomfsError w seed_status force_no_crypto file =
      if force_no_crypto = true ∨ g.val &&& 0x4 ≠ 0 then .ok ""
      else SecondaryNormalKeyError w seed_status file := by
  unfold RomfsError
  rw [IsDecrypted_of_byte force_no_crypto file g h]
  cases force_no_crypto <;> by_cases hn : g.val &&& 0x4 = 0 <;> simp [hn]

/-- The value of `ExefsError` on a source whose flag byte is readable. -/
theorem ExefsError_of_byte (w : World) (seed_status : SeedStatus) (force_no_crypto : Bool)
    (file : File) (g : byte) (h : file[0x18F]? = some g) :
    ExefsError w seed_status force_no_crypto file =
      if force_no_crypto = true ∨ g.val &&& 0x4 ≠ 0 then .ok ""
      else (PrimaryNormalKeyError w file).bind fun error_primary =>
        if error_primary ≠ "" then .ok error_primary
        else SecondaryNormalKeyError w seed_status file := by
  unfold ExefsError
  rw [IsDecrypted_of_byte force_no_crypto file g h]
  cases force_no_crypto <;> by_cases hn : g.val &&& 0x4 = 0 <;> simp [hn]

theorem exists_ok_ite {α : Type} (c : Prop) [Decidable c] (r1 r2 : Result α)
    (h1 : ∃ x, r1 = .ok x) (h2 : ∃ x, r2 = .ok x) :
    ∃ x, (if c then r1 else r2) = .ok x := by
  by_cases h : c
  · rw [if_pos h]
    exact h1
  · rw [if_neg h]
    exact h2

/-- Both key errors are always produced on a source whose flag byte is readable. -/
theorem key_errors_ok (w : World) (seed_status : SeedStatus) (file : File) (g : byte)
    (h : file[0x18F]? = some g) :
    ∃ p s, PrimaryNormalKeyError w file = .ok p ∧
      SecondaryNormalKeyError w seed_status file = .ok s := by
  obtain ⟨m, hm, _⟩ := CryptoMethod_of_flag_byte file g h
  have hp : ∃ p, PrimaryNormalKeyError w file = .ok p := by
    rw [PrimaryNormalKeyError_of_byte w file g h]
    repeat (first | exact ⟨_, rfl⟩ | apply exists_ok_ite)
  have hs : ∃ s, SecondaryNormalKeyError w seed_status file = .ok s := by
    rw [SecondaryNormalKeyError_of_byte w seed_status file g m h hm]
    repeat (first | exact ⟨_, rfl⟩ | apply exists_ok_ite)
  obtain ⟨p, hp⟩ := hp
  obtain ⟨s, hs⟩ := hs
  exact ⟨p, s, hp, hs⟩

/-- C12. Seed errors for seed-crypto titles: for every container that is not
fixed-key-crypto, `SecondaryNormalKeyError` returns "Seed Not Found" when the
seed status is `NotFound` and "Seed Not Correct" when it is `NotCorrect`,
whatever the secret store and the crypto-method byte are, and for a container
that is not decrypted `RomfsError` returns that same string. -/
theorem seed_errors (w : World) (file : File) (g : byte) (hg : file[0x18F]? = some g)
    (hfix : g.val &&& 0x1 = 0) :
    SecondaryNormalKeyError w .NotFound file = .ok "Seed Not Found" ∧
    SecondaryNormalKeyError w .NotCorrect file = .ok "Seed Not Correct" ∧
    (g.val &&& 0x4 = 0 →
      RomfsError w .NotFound false file = .ok "Seed Not Found" ∧
      RomfsError w .NotCorrect false file = .ok "Seed Not Correct") := by
  obtain ⟨m, hm, _⟩ := CryptoMethod_of_flag_byte file g hg
  have h1 : SecondaryNormalKeyError w .NotFound file = .ok "Seed Not Found" := by
    rw [SecondaryNormalKeyError_of_byte w .NotFound file g m hg hm,
      if_neg (not_not.mpr hfix), if_neg (by decide), if_pos rfl]
  have h2 : SecondaryNormalKeyError w .NotCorrect file = .ok "Seed Not Correct" := by
    rw [SecondaryNormalKeyError_of_byte w .NotCorrect file g m hg hm,
      if_neg (not_not.mpr hfix), if_pos rfl]
  refine ⟨h1, h2, ?_⟩
  intro hnc
  have hnd : ¬ (false = true ∨ g.val &&& 0x4 ≠ 0) := by
    rintro (h | h)
    · cases h
    · exact h hnc
  rw [RomfsError_of_byte w .NotFound false file g hg, if_neg hnd,
    RomfsError_of_byte w .NotCorrect false file g hg, if_neg hnd]
  exact ⟨h1, h2⟩

/-- C13. Error priority for the executable-filesystem region: for a container
that is not decrypted both key errors are produced, `ExefsError` equals
`PrimaryNormalKeyError` whenever that is non-empty, whatever the seed status is,
and equals `SecondaryNormalKeyError` otherwise, so it is empty if and only if
both key errors are empty; for a decrypted container it is empty. -/
theorem ExefsError_priority (w : World) (seed_status : SeedStatus) (file : File) (g : byte)
    (hg : file[0x18F]? = some g) :
    (g.val &&& 0x4 = 0 →
      ∃ p s, PrimaryNormalKeyError w file = .ok p ∧
        SecondaryNormalKeyError w seed_status file = .ok s ∧
        (p ≠ "" → ExefsError w seed_status false file = .ok p) ∧
        (p = "" → ExefsError w seed_status false file = .ok s) ∧
        (ExefsError w seed_status false file = .ok "" ↔ p = "" ∧ s = "")) ∧
    (g.val &&& 0x4 ≠ 0 → ExefsError w seed_status false file = .ok "") ∧
    ExefsError w seed_status true file = .ok "" := by
  refine ⟨?_, ?_, ?_⟩
  · intro hnc
    obtain ⟨p, s, hp, hs⟩ := key_errors_ok w seed_status file g hg
    have hnd : ¬ (false = true ∨ g.val &&& 0x4 ≠ 0) := by
      rintro (h | h)
      · cases h
      · exact h hnc
    have hval : ExefsError w seed_status false file = if p ≠ "" then .ok p else .ok s := by
      rw [ExefsError_of_byte w seed_status false file g hg, if_neg hnd, hp, Result.bind_ok, hs]
    refine ⟨p, s, hp, hs, ?_, ?_, ?_⟩
    · intro h
      rw [hval, if_pos h]
    · intro h
      rw [hval, if_neg (not_not.mpr h)]
    · rw [hval]
      by_cases h : p = ""
      · rw [if_neg (not_not.mpr h)]
        constructor
        · intro e
          exact ⟨h, Result.ok.inj e⟩
        · rintro ⟨_, e⟩
          rw [e]
      · rw [if_pos h]
        constructor
        · intro e
          exact absurd (Result.ok.inj e) h
        · rintro ⟨e, _⟩
          exact absurd e h
  · intro h
    rw [ExefsError_of_byte w seed_status false file g hg, if_pos (Or.inr h)]
  · rw [ExefsError_of_byte w seed_status true file g hg, if_pos (Or.inl rfl)]

/-- Witness for C11: an encrypted header with an empty secret store reports
`aes const`, a store of one-byte secrets reports the same, and with the override
the error is empty. -/
theorem ExheaderError_classification_witness :
    ExheaderError Sample.world_no_secrets false Sample.locked_exheader = .ok "aes const" ∧
    ExheaderError Sample.world_short_secrets false Sample.locked_exheader
      = ExheaderError Sample.world_no_secrets false Sample.locked_exheader ∧
    ExheaderError Sample.world_no_secrets true Sample.locked_exheader = .ok "" :=
  have h := ExheaderError_classification Sample.world_no_secrets Sample.locked_exheader 0
    (by decide)
  have h1 := h.1 (by decide) (by decide)
  ⟨h1.1, h1.2.2 Sample.world_short_secrets (by decide) (by decide), h.2.2⟩

/-- Witness for C12: the sample seed-crypto header, with an empty secret store. -/
theorem seed_errors_witness :
    SecondaryNormalKeyError Sample.world_no_secrets .NotFound Sample.seeded
      = .ok "Seed Not Found" ∧
    SecondaryNormalKeyError Sample.world_no_secrets .NotCorrect Sample.seeded
      = .ok "Seed Not Correct" ∧
    RomfsError Sample.world_no_secrets .NotFound false Sample.seeded = .ok "Seed Not Found" ∧
    RomfsError Sample.world_no_secrets .NotCorrect false Sample.seeded
      = .ok "Seed Not Correct" :=
  have h := seed_errors Sample.world_no_secrets Sample.seeded 0x20 (by decide) (by decide)
  ⟨h.1, h.2.1, (h.2.2 (by decide)).1, (h.2.2 (by decide)).2⟩

/-- Witness for C13: on the sample seed-crypto header with an empty secret store
and seed status `NotFound`, the primary error `aes const` wins over the seed
error. -/
theorem ExefsError_priority_witness :
    PrimaryNormalKeyError Sample.world_no_secrets Sample.seeded = .ok "aes const" ∧
    SecondaryNormalKeyError Sample.world_no_secrets .NotFound Sample.seeded
      = .ok "Seed Not Found" ∧
    ExefsError Sample.world_no_secrets .NotFound false Sample.seeded = .ok "aes const" :=
  match (ExefsError_priority Sample.world_no_secrets .NotFound Sample.seeded 0x20
      (by decide)).1 (by decide) with
  | ⟨p, _, hp, _, h1, _, _⟩ =>
    have e : p = "aes const" :=
      Result.ok.inj (hp.symm.trans (by decide :
        PrimaryNormalKeyError Sample.world_no_secrets Sample.seeded = .ok "aes const"))
    ⟨by decide, by decide, e ▸ h1 (e ▸ (by decide : ("aes const" : String) ≠ ""))⟩

end CB.Ncch

/-! # Key derivation -/

namespace CB.Ncch

open FB

theorem memcpy16_of_length (src : byte_seq) (h : src.length = 16) :
    memcpy16 src = .ok src := by
  unfold memcpy16
  rw [if_pos (by omega), List.take_of_length_le (by omega)]

theorem memcpy16_of_short (src : byte_seq) (h : src.length < 16) :
    memcpy16 src = .error .Undefined := by
  unfold memcpy16
  rw [if_neg (by omega)]

theorem Read_KeyY (file : File) (h : 0x10 ≤ file.length) :
    Read (KeyY file) 0 0x10 = .ok (SubFile file 0 0x10) ∧
      (SubFile file 0 0x10).length = 16 := by
  have hlen := SubFile_length file 0 0x10 (by omega)
  refine ⟨?_, hlen⟩
  unfold KeyY
  rw [Read_of_le _ 0 0x10 (by omega)]
  simp [SubFile, List.take_take]

/-- The value of `PrimaryNormalKey` on a source whose flag byte is readable. -/
theorem PrimaryNormalKey_of_byte (w : World) (file : File) (g : byte)
    (h : file[0x18F]? = some g) :
    PrimaryNormalKey w file =
      if g.val &&& 0x1 ≠ 0 then .ok (List.replicate 16 0)
      else
        (memcpy16 (w.secrets SB.k_sec_key2C_x)).bind fun key_x =>
        (memcpy16 (w.secrets SB.k_sec_aes_const)).bind fun key_c =>
        .ok (w.ScrambleKey key_x (SubFile file 0 0x10) key_c) := by
  have hl := length_of_getElem? file 0x18F g h
  obtain ⟨hr, hlen⟩ := Read_KeyY file (by omega)
  unfold PrimaryNormalKey
  rw [IsFixedKeyCrypto_of_byte file g h, hr]
  simp only [Result.bind_ok, memcpy16_of_length _ hlen, MemoryFile, MemoryFile.filled]
  by_cases hf : g.val &&& 0x1 = 0
  · have hb : ((g.val &&& 0x1) != 0) = false := by simp [hf]
    rw [hb, if_neg (not_not.mpr hf)]
    rfl
  · have hb : ((g.val &&& 0x1) != 0) = true := by simpa using hf
    rw [hb, if_pos hf]
    rfl

/-- The key `SecondaryNormalKey` passes to the scrambler as keyY. -/
theorem seeded_key_y_length (w : World) (seed : SeedState) (key_y_buf : byte_seq)
    (h : key_y_buf.length = 16) :
    (if seed.seed_status = .Found then (w.sha256 (key_y_buf ++ seed.seed)).take 0x10
      else key_y_buf).length = 16 := by
  split
  · rw [List.length_take, w.sha256_size]
    rfl
  · exact h

/-- The value of `SecondaryNormalKey` on a source whose flag byte is readable,
`m` being the crypto-method byte. -/
theorem SecondaryNormalKey_of_byte (w : World) (seed : SeedState) (file : File) (g m : byte)
    (h : file[0x18F]? = some g) (hm : file[0x18B]? = some m) :
    SecondaryNormalKey w seed file =
      if g.val &&& 0x1 ≠ 0 then .ok (List.replicate 16 0)
      else
        (memcpy16 (w.secrets SB.k_sec_aes_const)).bind fun key_c =>
        (if m.val = 0x00 then memcpy16 (w.secrets SB.k_sec_key2C_x)
          else if m.val = 0x01 then memcpy16 (w.secrets SB.k_sec_key25_x)
          else if m.val = 0x0A then memcpy16 (w.secrets SB.k_sec_key18_x)
          else if m.val = 0x0B then memcpy16 (w.secrets SB.k_sec_key1B_x)
          else .error .Terminate).bind fun key_x =>
        .ok (w.ScrambleKey key_x
          (if seed.seed_status = .Found then
            (w.sha256 (SubFile file 0 0x10 ++ seed.seed)).take 0x10
          else SubFile file 0 0x10) key_c) := by
  have hl := length_of_getElem? file 0x18F g h
  obtain ⟨hr, hlen⟩ := Read_KeyY file (by omega)
  unfold SecondaryNormalKey
  rw [IsFixedKeyCrypto_of_byte file g h, hr, CryptoMethod, Field_one file 0x18B m hm]
  simp only [Result.bind_ok, memcpy16_of_length _ (seeded_key_y_length w seed _ hlen),
    MemoryFile, MemoryFile.filled]
  by_cases hf : g.val &&& 0x1 = 0
  · have hb : ((g.val &&& 0x1) != 0) = false := by simp [hf]
    rw [hb, if_neg (not_not.mpr hf)]
    rfl
  · have hb : ((g.val &&& 0x1) != 0) = true := by simpa using hf
    rw [hb, if_pos hf]
    rfl

/-- C15. Primary key definition: when the fixed-key-crypto flag (bit 0x1 of the
byte at 0x18F) is set, `PrimaryNormalKey` returns 16 zero bytes, whatever the
secret store and the raw bytes 0..15 are; otherwise, given 16-byte secrets, it
returns `ScrambleKey` of keyX = `key2C_x`, keyY = raw source bytes 0..15 and
keyC = `aes const`; a key it returns is always exactly 16 bytes long. -/
theorem PrimaryNormalKey_definition (w : World) (file : File) (g : byte)
    (hg : file[0x18F]? = some g) :
    (g.val &&& 0x1 ≠ 0 →
      PrimaryNormalKey w file = .ok (List.replicate 16 0) ∧
      ∀ (w2 : World) (file2 : File), file2[0x18F]? = some g →
        PrimaryNormalKey w2 file2 = PrimaryNormalKey w file) ∧
    (g.val &&& 0x1 = 0 → (w.secrets SB.k_sec_key2C_x).length = 16 →
      (w.secrets SB.k_sec_aes_const).length = 16 →
      PrimaryNormalKey w file = .ok (w.ScrambleKey (w.secrets SB.k_sec_key2C_x)
        (SubFile file 0 0x10) (w.secrets SB.k_sec_aes_const)) ∧
      (SubFile file 0 0x10).length = 16) ∧
    (∀ key, PrimaryNormalKey w file = .ok key → key.length = 16) := by
  have hl := length_of_getElem? file 0x18F g hg
  refine ⟨?_, ?_, ?_⟩
  · intro hfix
    refine ⟨?_, ?_⟩
    · rw [PrimaryNormalKey_of_byte w file g hg, if_pos hfix]
    · intro w2 file2 hg2
      rw [PrimaryNormalKey_of_byte w file g hg, PrimaryNormalKey_of_byte w2 file2 g hg2,
        if_pos hfix, if_pos hfix]
  · intro hfix hx hc
    refine ⟨?_, SubFile_length file 0 0x10 (by omega)⟩
    rw [PrimaryNormalKey_of_byte w file g hg, if_neg (not_not.mpr hfix),
      memcpy16_of_length _ hx, memcpy16_of_length _ hc]
    rfl
  · intro key hkey
    rw [PrimaryNormalKey_of_byte w file g hg] at hkey
    by_cases hfix : g.val &&& 0x1 ≠ 0
    · rw [if_pos hfix] at hkey
      rw [← Result.ok.inj hkey]
      rfl
    · rw [if_neg hfix] at hkey
      obtain ⟨key_x, _, hkey⟩ := (Result.bind_eq_ok _ _ _).mp hkey
      obtain ⟨key_c, _, hkey⟩ := (Result.bind_eq_ok _ _ _).mp hkey
      rw [← Result.ok.inj hkey]
      exact w.ScrambleKey_size _ _ _

/-- Witness for C15: the fixed-key sample header gives 16 zero bytes with any
collaborators, and the blank header with the sample secrets gives the scrambled
key. -/
theorem PrimaryNormalKey_definition_witness :
    PrimaryNormalKey Sample.world_no_secrets Sample.fixed_key_odd_method
      = .ok (List.replicate 16 0) ∧
    PrimaryNormalKey Sample.world Sample.blank
      = .ok (Sample.world.ScrambleKey (Sample.world.secrets SB.k_sec_key2C_x)
        (SubFile Sample.blank 0 0x10) (Sample.world.secrets SB.k_sec_aes_const)) :=
  ⟨((PrimaryNormalKey_definition Sample.world_no_secrets Sample.fixed_key_odd_method 1
      (by decide)).1 (by decide)).1,
    ((PrimaryNormalKey_definition Sample.world Sample.blank 0 (by decide)).2.1
      (by decide) (by decide) (by decide)).1⟩

/-- C14 as stated fails. For a fixed-key-crypto container whose crypto-method byte
is the unassigned value 2, `SecondaryNormalKey` returns 16 zero bytes instead of
failing. And for the recognized value 0 with an empty secret store the 16-byte
copy from the missing secret reads past its end, which is undefined, so the key
derivation is not free of failure. -/
theorem SecondaryNormalKey_refuted :
    (CryptoMethod Sample.fixed_key_odd_method = .ok 2 ∧
      SecondaryNormalKey Sample.world ⟨.NoNeed, []⟩ Sample.fixed_key_odd_method
        = .ok (List.replicate 16 0)) ∧
    (CryptoMethod Sample.blank = .ok 0 ∧
      SecondaryNormalKey Sample.world_no_secrets ⟨.NoNeed, []⟩ Sample.blank
        = .error .Undefined) := by
  decide

/-- C14, amended. For a container that is not fixed-key-crypto: if the
crypto-method byte at 0x18B is not one of 0x00, 0x01, 0x0A, 0x0B,
`SecondaryNormalKey` returns no key, and it terminates when `aes const` is 16
bytes long; for the four recognized values, given a 16-byte `aes const` and a
16-byte selected secret, it scrambles with keyX = `key2C_x`, `key25_x`, `key18_x`,
`key1B_x` respectively and does not fail. For a fixed-key-crypto container it
returns 16 zero bytes whatever the crypto-method byte is. -/
theorem SecondaryNormalKey_crypto_method (w : World) (seed : SeedState) (file : File)
    (g m : byte) (hg : file[0x18F]? = some g) (hm : file[0x18B]? = some m) :
    (g.val &&& 0x1 = 0 → m.val ≠ 0x00 → m.val ≠ 0x01 → m.val ≠ 0x0A → m.val ≠ 0x0B →
      (∀ key, SecondaryNormalKey w seed file ≠ .ok key) ∧
      ((w.secrets SB.k_sec_aes_const).length = 16 →
        SecondaryNormalKey w seed file = .error .Terminate)) ∧
    (g.val &&& 0x1 = 0 → (w.secrets SB.k_sec_aes_const).length = 16 →
      (m.val = 0x00 → (w.secrets SB.k_sec_key2C_x).length = 16 →
        ∃ key_y, key_y.length = 16 ∧ SecondaryNormalKey w seed file = .ok
          (w.ScrambleKey (w.secrets SB.k_sec_key2C_x) key_y (w.secrets SB.k_sec_aes_const))) ∧
      (m.val = 0x01 → (w.secrets SB.k_sec_key25_x).length = 16 →
        ∃ key_y, key_y.length = 16 ∧ SecondaryNormalKey w seed file = .ok
          (w.ScrambleKey (w.secrets SB.k_sec_key25_x) key_y (w.secrets SB.k_sec_aes_const))) ∧
      (m.val = 0x0A → (w.secrets SB.k_sec_key18_x).length = 16 →
        ∃ key_y, key_y.length = 16 ∧ SecondaryNormalKey w seed file = .ok
          (w.ScrambleKey (w.secrets SB.k_sec_key18_x) key_y (w.secrets SB.k_sec_aes_const))) ∧
      (m.val = 0x0B → (w.secrets SB.k_sec_key1B_x).length = 16 →
        ∃ key_y, key_y.length = 16 ∧ SecondaryNormalKey w seed file = .ok
          (w.ScrambleKey (w.secrets SB.k_sec_key1B_x) key_y
            (w.secrets SB.k_sec_aes_const)))) ∧
    (g.val &&& 0x1 ≠ 0 → SecondaryNormalKey w seed file = .ok (List.replicate 16 0)) := by
  have hl := length_of_getElem? file 0x18F g hg
  have hky := seeded_key_y_length w seed (SubFile file 0 0x10)
    (SubFile_length file 0 0x10 (by omega))
  have hval := SecondaryNormalKey_of_byte w seed file g m hg hm
  refine ⟨?_, ?_, ?_⟩
  · intro hfix h0 h1 hA hB
    rw [if_neg (not_not.mpr hfix), if_neg h0, if_neg h1, if_neg hA, if_neg hB] at hval
    refine ⟨?_, ?_⟩
    · intro key hkey
      rw [hval] at hkey
      obtain ⟨key_c, _, hkey⟩ := (Result.bind_eq_ok _ _ _).mp hkey
      cases hkey
    · intro hc
      rw [hval, memcpy16_of_length _ hc]
      rfl
  · intro hfix hc
    rw [if_neg (not_not.mpr hfix), memcpy16_of_length _ hc, Result.bind_ok] at hval
    refine ⟨?_, ?_, ?_, ?_⟩
    · intro h0 hx
      rw [if_pos h0, memcpy16_of_length _ hx, Result.bind_ok] at hval
      exact ⟨_, hky, hval⟩
    · intro h1 hx
      have h0 : ¬ m.val = 0x00 := by omega
      rw [if_neg h0, if_pos h1, memcpy16_of_length _ hx, Result.bind_ok] at hval
      exact ⟨_, hky, hval⟩
    · intro hA hx
      have h0 : ¬ m.val = 0x00 := by omega
      have h1 : ¬ m.val = 0x01 := by omega
      rw [if_neg h0, if_neg h1, if_pos hA, memcpy16_of_length _ hx, Result.bind_ok] at hval
      exact ⟨_, hky, hval⟩
    · intro hB hx
      have h0 : ¬ m.val = 0x00 := by omega
      have h1 : ¬ m.val = 0x01 := by omega
      have hA : ¬ m.val = 0x0A := by omega
      rw [if_neg h0, if_neg h1, if_neg hA, if_pos hB, memcpy16_of_length _ hx,
        Result.bind_ok] at hval
      exact ⟨_, hky, hval⟩
  · intro hfix
    rw [hval, if_pos hfix]

/-- Witness for the amended C14: the unassigned crypto method 2 terminates the
key derivation of a container that is not fixed-key-crypto. -/
theorem SecondaryNormalKey_crypto_method_witness :
    (∀ key, SecondaryNormalKey Sample.world ⟨.NoNeed, []⟩ Sample.odd_method ≠ .ok key) ∧
    SecondaryNormalKey Sample.world ⟨.NoNeed, []⟩ Sample.odd_method = .error .Terminate :=
  have h := (SecondaryNormalKey_crypto_method Sample.world ⟨.NoNeed, []⟩ Sample.odd_method 0 2
    (by decide) (by decide)).1 (by decide) (by decide) (by decide) (by decide) (by decide)
  ⟨h.1, h.2 (by decide)⟩

/-- C19 as stated fails: with status `Found` the digest is taken over raw bytes
0..15 followed by the seed, not over the seed followed by raw bytes 0..15. With
collaborators that return the first bytes of the digested message as the key,
the secondary key of the sample header is its keyY bytes (2), not the seed
bytes (1). -/
theorem seeded_key_y_refuted :
    InitSeed Sample.world_echo Sample.seeded_echo = .ok ⟨.Found, List.replicate 16 1⟩ ∧
    CryptoMethod Sample.seeded_echo = .ok 0 ∧
    SecondaryNormalKey Sample.world_echo ⟨.Found, List.replicate 16 1⟩ Sample.seeded_echo
      = .ok (Sample.world_echo.ScrambleKey (Sample.world_echo.secrets SB.k_sec_key2C_x)
        ((Sample.world_echo.sha256
          (SubFile Sample.seeded_echo 0 0x10 ++ List.replicate 16 1)).take 0x10)
        (Sample.world_echo.secrets SB.k_sec_aes_const)) ∧
    SecondaryNormalKey Sample.world_echo ⟨.Found, List.replicate 16 1⟩ Sample.seeded_echo
      ≠ .ok (Sample.world_echo.ScrambleKey (Sample.world_echo.secrets SB.k_sec_key2C_x)
        ((Sample.world_echo.sha256
          (List.replicate 16 1 ++ SubFile Sample.seeded_echo 0 0x10)).take 0x10)
        (Sample.world_echo.secrets SB.k_sec_aes_const)) := by
  decide

/-- C19, amended. For a container that is not fixed-key-crypto, with a recognized
crypto method and 16-byte secrets: when the seed status is `Found`, the keyY
passed to the scrambler by `SecondaryNormalKey` is the first 16 bytes of the
SHA-256 digest of raw source bytes 0..15 followed by the seed (32 bytes for a
16-byte seed); when the seed status is not `Found` the keyY is raw source bytes
0..15 unchanged. -/
theorem SecondaryNormalKey_seeded_key_y (w : World) (seed : SeedState) (file : File)
    (g m : byte) (hg : file[0x18F]? = some g) (hm : file[0x18B]? = some m)
    (hfix : g.val &&& 0x1 = 0) (hc : (w.secrets SB.k_sec_aes_const).length = 16)
    (key_x : byte_seq) (hx : key_x.length = 16)
    (hsel : (m.val = 0x00 ∧ key_x = w.secrets SB.k_sec_key2C_x) ∨
      (m.val = 0x01 ∧ key_x = w.secrets SB.k_sec_key25_x) ∨
      (m.val = 0x0A ∧ key_x = w.secrets SB.k_sec_key18_x) ∨
      (m.val = 0x0B ∧ key_x = w.secrets SB.k_sec_key1B_x)) :
    (seed.seed_status = .Found →
      SecondaryNormalKey w seed file = .ok (w.ScrambleKey key_x
        ((w.sha256 (SubFile file 0 0x10 ++ seed.seed)).take 0x10)
        (w.secrets SB.k_sec_aes_const)) ∧
      ((w.sha256 (SubFile file 0 0x10 ++ seed.seed)).take 0x10).length = 16 ∧
      (seed.seed.length = 16 → (SubFile file 0 0x10 ++ seed.seed).length = 32)) ∧
    (seed.seed_status ≠ .Found →
      SecondaryNormalKey w seed file = .ok (w.ScrambleKey key_x (SubFile file 0 0x10)
        (w.secrets SB.k_sec_aes_const))) := by
  have hl := length_of_getElem? file 0x18F g hg
  have hky := SubFile_length file 0 0x10 (by omega)
  have hsel2 : (if m.val = 0x00 then memcpy16 (w.secrets SB.k_sec_key2C_x)
      else if m.val = 0x01 then memcpy16 (w.secrets SB.k_sec_key25_x)
      else if m.val = 0x0A then memcpy16 (w.secrets SB.k_sec_key18_x)
      else if m.val = 0x0B then memcpy16 (w.secrets SB.k_sec_key1B_x)
      else .error .Terminate) = .ok key_x := by
    rcases hsel with ⟨h, e⟩ | ⟨h, e⟩ | ⟨h, e⟩ | ⟨h, e⟩
    · rw [if_pos h, ← e, memcpy16_of_length _ hx]
    · rw [if_neg (by omega), if_pos h, ← e, memcpy16_of_length _ hx]
    · rw [if_neg (by omega), if_neg (by omega), if_pos h, ← e, memcpy16_of_length _ hx]
    · rw [if_neg (by omega), if_neg (by omega), if_neg (by omega), if_pos h, ← e,
        memcpy16_of_length _ hx]
  have hval := SecondaryNormalKey_of_byte w seed file g m hg hm
  rw [if_neg (not_not.mpr hfix), memcpy16_of_length _ hc, Result.bind_ok, hsel2,
    Result.bind_ok] at hval
  refine ⟨?_, ?_⟩
  · intro hfound
    rw [if_pos hfound] at hval
    refine ⟨hval, ?_, ?_⟩
    · rw [List.length_take, w.sha256_size]
      rfl
    · intro hs
      rw [List.length_append, hky, hs]
  · intro hnot
    rw [if_neg hnot] at hval
    exact hval

/-- Witness for the amended C19: the sample seed-crypto header with the echoing
collaborators, with status `Found` and with status `NoNeed`. -/
theorem SecondaryNormalKey_seeded_key_y_witness :
    SecondaryNormalKey Sample.world_echo ⟨.Found, List.replicate 16 1⟩ Sample.seeded_echo
      = .ok (Sample.world_echo.ScrambleKey (List.replicate 16 0)
        ((Sample.world_echo.sha256
          (SubFile Sample.seeded_echo 0 0x10 ++ List.replicate 16 1)).take 0x10)
        (Sample.world_echo.secrets SB.k_sec_aes_const)) ∧
    SecondaryNormalKey Sample.world_echo ⟨.NoNeed, []⟩ Sample.seeded_echo
      = .ok (Sample.world_echo.ScrambleKey (List.replicate 16 0)
        (SubFile Sample.seeded_echo 0 0x10)
        (Sample.world_echo.secrets SB.k_sec_aes_const)) :=
  ⟨((SecondaryNormalKey_seeded_key_y Sample.world_echo ⟨.Found, List.replicate 16 1⟩
      Sample.seeded_echo 0x20 0 (by decide) (by decide) (by decide) (by decide)
      (List.replicate 16 0) (by decide) (Or.inl ⟨by decide, by decide⟩)).1 rfl).1,
    (SecondaryNormalKey_seeded_key_y Sample.world_echo ⟨.NoNeed, []⟩
      Sample.seeded_echo 0x20 0 (by decide) (by decide) (by decide) (by decide)
      (List.replicate 16 0) (by decide) (Or.inl ⟨by decide, by decide⟩)).2 (by decide)⟩

end CB.Ncch

/-! # Region presence -/

namespace CB.Ncch

open FB

/-- The names a successful construction has registered, in terms of its three
region steps. -/
theorem Ncch_installed (w : World) (file : File) (c : Constructed) (h : Ncch w file = .ok c) :
    ∃ key_and_names exefs_names romfs_names,
      ResolveSignatureKey w c.force_no_crypto file = .ok key_and_names ∧
      InstallExefs w c.seed.seed_status c.force_no_crypto file = .ok exefs_names ∧
      InstallRomfs w c.seed.seed_status c.force_no_crypto file = .ok romfs_names ∧
      c.installed = ["IsForceNoCrypto"] ++ key_and_names.2 ++ ["Signature", "SignaturePatched"]
        ++ exefs_names ++ romfs_names := by
  unfold Ncch at h
  obtain ⟨seed, _, h⟩ := (Result.bind_eq_ok _ _ _).mp h
  obtain ⟨fnc, _, h⟩ := (Result.bind_eq_ok _ _ _).mp h
  obtain ⟨kn, hkn, h⟩ := (Result.bind_eq_ok _ _ _).mp h
  obtain ⟨ph, _, h⟩ := (Result.bind_eq_ok _ _ _).mp h
  obtain ⟨en, hen, h⟩ := (Result.bind_eq_ok _ _ _).mp h
  obtain ⟨rn, hrn, h⟩ := (Result.bind_eq_ok _ _ _).mp h
  cases h
  exact ⟨kn, en, rn, hkn, hen, hrn, rfl⟩

theorem ResolveSignatureKey_names (w : World) (force_no_crypto : Bool) (file : File)
    (key_and_names : File × List String)
    (h : ResolveSignatureKey w force_no_crypto file = .ok key_and_names) :
    key_and_names.2 = [] ∨ key_and_names.2 = ["ExheaderError"] ∨
      key_and_names.2 = ["ExheaderError", "Exheader", "ExheaderHash"] := by
  unfold ResolveSignatureKey at h
  obtain ⟨n, _, h⟩ := (Result.bind_eq_ok _ _ _).mp h
  split at h
  · obtain ⟨e, _, h⟩ := (Result.bind_eq_ok _ _ _).mp h
    split at h
    · obtain ⟨x, _, h⟩ := (Result.bind_eq_ok _ _ _).mp h
      obtain ⟨k, _, h⟩ := (Result.bind_eq_ok _ _ _).mp h
      cases h
      exact Or.inr (Or.inr rfl)
    · cases h
      exact Or.inr (Or.inl rfl)
  · cases h
    exact Or.inl rfl

/-- The outcome of the executable filesystem step. -/
theorem InstallExefs_eq_ok (w : World) (seed_status : SeedStatus) (force_no_crypto : Bool)
    (file : File) (names : List String)
    (h : InstallExefs w seed_status force_no_crypto file = .ok names) :
    ∃ off, ExefsOffset file = .ok off ∧
      ((off = 0 ∧ names = []) ∨
        (off ≠ 0 ∧ ExefsError w seed_status force_no_crypto file = .ok "" ∧
          names = ["ExefsError", "Exefs", "ExefsHash"]) ∨
        (off ≠ 0 ∧ ExefsError w seed_status force_no_crypto file ≠ .ok "" ∧
          names = ["ExefsError"])) := by
  unfold InstallExefs at h
  obtain ⟨off, hoff, h⟩ := (Result.bind_eq_ok _ _ _).mp h
  refine ⟨off, hoff, ?_⟩
  split at h
  · rename_i hne
    obtain ⟨e, he, h⟩ := (Result.bind_eq_ok _ _ _).mp h
    split at h
    · rename_i hempty
      cases h
      exact Or.inr (Or.inl ⟨hne, by rw [he, hempty], rfl⟩)
    · rename_i hnonempty
      cases h
      refine Or.inr (Or.inr ⟨hne, ?_, rfl⟩)
      rw [he]
      intro heq
      exact hnonempty (Result.ok.inj heq)
  · rename_i hz
    cases h
    exact Or.inl ⟨not_not.mp hz, rfl⟩

/-- The outcome of the ROM filesystem step. -/
theorem InstallRomfs_eq_ok (w : World) (seed_status : SeedStatus) (force_no_crypto : Bool)
    (file : File) (names : List String)
    (h : InstallRomfs w seed_status force_no_crypto file = .ok names) :
    ∃ off, RomfsOffset file = .ok off ∧
      ((off = 0 ∧ names = []) ∨
        (off ≠ 0 ∧ RomfsError w seed_status force_no_crypto file = .ok "" ∧
          names = ["RomfsError", "Romfs", "RomfsHash"]) ∨
        (off ≠ 0 ∧ RomfsError w seed_status force_no_crypto file ≠ .ok "" ∧
          names = ["RomfsError"])) := by
  unfold InstallRomfs at h
  obtain ⟨off, hoff, h⟩ := (Result.bind_eq_ok _ _ _).mp h
  refine ⟨off, hoff, ?_⟩
  split at h
  · rename_i hne
    obtain ⟨e, he, h⟩ := (Result.bind_eq_ok _ _ _).mp h
    split at h
    · rename_i hempty
      cases h
      exact Or.inr (Or.inl ⟨hne, by rw [he, hempty], rfl⟩)
    · rename_i hnonempty
      cases h
      refine Or.inr (Or.inr ⟨hne, ?_, rfl⟩)
      rw [he]
      intro heq
      exact hnonempty (Result.ok.inj heq)
  · rename_i hz
    cases h
    exact Or.inl ⟨not_not.mp hz, rfl⟩

/-- The region errors read the raw source only at the crypto-method byte and
the secondary content-type byte. -/
theorem region_errors_congr (w : World) (seed_status : SeedStatus) (force_no_crypto : Bool)
    (file file2 : File) (h8B : file2[0x18B]? = file[0x18B]?)
    (h8F : file2[0x18F]? = file[0x18F]?) :
    ExefsError w seed_status force_no_crypto file2
      = ExefsError w seed_status force_no_crypto file ∧
    RomfsError w seed_status force_no_crypto file2
      = RomfsError w seed_status force_no_crypto file := by
  have e1 := Field_one_congr file file2 0x18B h8B
  have e2 := Field_one_congr file file2 0x18F h8F
  constructor
  · simp only [ExefsError, IsDecrypted, IsNoCrypto, PrimaryNormalKeyError,
      SecondaryNormalKeyError, IsFixedKeyCrypto, ContentType2, ContentType2Field,
      CryptoMethod, e1, e2]
  · simp only [RomfsError, IsDecrypted, IsNoCrypto, SecondaryNormalKeyError,
      IsFixedKeyCrypto, ContentType2, ContentType2Field, CryptoMethod, e1, e2]

/-- Membership of a region name in the registered names only depends on the step
of its region. -/
theorem mem_installed (x : String) (names exefs_names romfs_names : List String)
    (hk : names = [] ∨ names = ["ExheaderError"] ∨
      names = ["ExheaderError", "Exheader", "ExheaderHash"])
    (h1 : x ≠ "IsForceNoCrypto") (h2 : x ≠ "Signature") (h3 : x ≠ "SignaturePatched")
    (h4 : x ≠ "ExheaderError") (h5 : x ≠ "Exheader") (h6 : x ≠ "ExheaderHash") :
    x ∈ ["IsForceNoCrypto"] ++ names ++ ["Signature", "SignaturePatched"]
        ++ exefs_names ++ romfs_names ↔ x ∈ exefs_names ∨ x ∈ romfs_names := by
  rcases hk with hk | hk | hk <;>
    simp [hk, List.mem_append, List.mem_cons, h1, h2, h3, h4, h5, h6]

/-- C16. Region presence gates field installation: after construction
"ExefsError" is registered if and only if "ExefsOffset" is non-zero, and "Exefs"
and "ExefsHash" are registered if and only if "ExefsOffset" is non-zero and
`ExefsError` is empty; likewise "RomfsError" is registered if and only if
"RomfsOffset" is non-zero, and "Romfs" and "RomfsHash" if and only if "RomfsOffset"
is non-zero and `RomfsError` is empty. The names a region step registers are
determined by the offset field, the crypto-method byte and the secondary
content-type byte, so the size fields play no part. -/
theorem region_presence (w : World) (file : File) (c : Constructed)
    (h : Ncch w file = .ok c) :
    ∃ exefs_offset romfs_offset,
      ExefsOffset file = .ok exefs_offset ∧ RomfsOffset file = .ok romfs_offset ∧
      ("ExefsError" ∈ c.installed ↔ exefs_offset ≠ 0) ∧
      ("Exefs" ∈ c.installed ↔ exefs_offset ≠ 0 ∧
        ExefsError w c.seed.seed_status c.force_no_crypto file = .ok "") ∧
      ("ExefsHash" ∈ c.installed ↔ exefs_offset ≠ 0 ∧
        ExefsError w c.seed.seed_status c.force_no_crypto file = .ok "") ∧
      ("RomfsError" ∈ c.installed ↔ romfs_offset ≠ 0) ∧
      ("Romfs" ∈ c.installed ↔ romfs_offset ≠ 0 ∧
        RomfsError w c.seed.seed_status c.force_no_crypto file = .ok "") ∧
      ("RomfsHash" ∈ c.installed ↔ romfs_offset ≠ 0 ∧
        RomfsError w c.seed.seed_status c.force_no_crypto file = .ok "") ∧
      (∀ file2 : File, ExefsOffset file2 = ExefsOffset file →
        file2[0x18B]? = file[0x18B]? → file2[0x18F]? = file[0x18F]? →
        InstallExefs w c.seed.seed_status c.force_no_crypto file2
          = InstallExefs w c.seed.seed_status c.force_no_crypto file) ∧
      (∀ file2 : File, RomfsOffset file2 = RomfsOffset file →
        file2[0x18B]? = file[0x18B]? → file2[0x18F]? = file[0x18F]? →
        InstallRomfs w c.seed.seed_status c.force_no_crypto file2
          = InstallRomfs w c.seed.seed_status c.force_no_crypto file) := by
  obtain ⟨kn, en, rn, hkn, hen, hrn, hinst⟩ := Ncch_installed w file c h
  have hk := ResolveSignatureKey_names w _ file kn hkn
  obtain ⟨eoff, heoff, he⟩ := InstallExefs_eq_ok w _ _ file en hen
  obtain ⟨roff, hroff, hr⟩ := InstallRomfs_eq_ok w _ _ file rn hrn
  have hmem : ∀ x : String, x ≠ "IsForceNoCrypto" → x ≠ "Signature" →
      x ≠ "SignaturePatched" → x ≠ "ExheaderError" → x ≠ "Exheader" → x ≠ "ExheaderHash" →
      (x ∈ c.installed ↔ x ∈ en ∨ x ∈ rn) := by
    intro x h1 h2 h3 h4 h5 h6
    rw [hinst]
    exact mem_installed x kn.2 en rn hk h1 h2 h3 h4 h5 h6
  have hen_sub : ∀ x, x ∈ en → x = "ExefsError" ∨ x = "Exefs" ∨ x = "ExefsHash" := by
    intro x hx
    rcases he with ⟨_, e⟩ | ⟨_, _, e⟩ | ⟨_, _, e⟩ <;> rw [e] at hx <;> simp at hx <;> simp [hx]
  have hrn_sub : ∀ x, x ∈ rn → x = "RomfsError" ∨ x = "Romfs" ∨ x = "RomfsHash" := by
    intro x hx
    rcases hr with ⟨_, e⟩ | ⟨_, _, e⟩ | ⟨_, _, e⟩ <;> rw [e] at hx <;> simp at hx <;> simp [hx]
  have hE : ∀ x : String, x ≠ "RomfsError" → x ≠ "Romfs" → x ≠ "RomfsHash" →
      (x ∈ en ∨ x ∈ rn ↔ x ∈ en) := by
    intro x h1 h2 h3
    constructor
    · rintro (hx | hx)
      · exact hx
      · rcases hrn_sub x hx with e | e | e
        · exact absurd e h1
        · exact absurd e h2
        · exact absurd e h3
    · exact Or.inl
  have hR : ∀ x : String, x ≠ "ExefsError" → x ≠ "Exefs" → x ≠ "ExefsHash" →
      (x ∈ en ∨ x ∈ rn ↔ x ∈ rn) := by
    intro x h1 h2 h3
    constructor
    · rintro (hx | hx)
      · rcases hen_sub x hx with e | e | e
        · exact absurd e h1
        · exact absurd e h2
        · exact absurd e h3
      · exact hx
    · exact Or.inr
  refine ⟨eoff, roff, heoff, hroff, ?_, ?_, ?_, ?_, ?_, ?_, ?_, ?_⟩
  · rw [hmem _ (by decide) (by decide) (by decide) (by decide) (by decide) (by decide),
      hE _ (by decide) (by decide) (by decide)]
    rcases he with ⟨h0, e⟩ | ⟨h0, _, e⟩ | ⟨h0, _, e⟩ <;> simp [e, h0]
  · rw [hmem _ (by decide) (by decide) (by decide) (by decide) (by decide) (by decide),
      hE _ (by decide) (by decide) (by decide)]
    rcases he with ⟨h0, e⟩ | ⟨h0, h1, e⟩ | ⟨h0, h1, e⟩
    · simp [e, h0]
    · simp [e, h0, h1]
    · simp [e, h0, h1]
  · rw [hmem _ (by decide) (by decide) (by decide) (by decide) (by decide) (by decide),
      hE _ (by decide) (by decide) (by decide)]
    rcases he with ⟨h0, e⟩ | ⟨h0, h1, e⟩ | ⟨h0, h1, e⟩
    · simp [e, h0]
    · simp [e, h0, h1]
    · simp [e, h0, h1]
  · rw [hmem _ (by decide) (by decide) (by decide) (by decide) (by decide) (by decide),
      hR _ (by decide) (by decide) (by decide)]
    rcases hr with ⟨h0, e⟩ | ⟨h0, _, e⟩ | ⟨h0, _, e⟩ <;> simp [e, h0]
  · rw [hmem _ (by decide) (by decide) (by decide) (by decide) (by decide) (by decide),
      hR _ (by decide) (by decide) (by decide)]
    rcases hr with ⟨h0, e⟩ | ⟨h0, h1, e⟩ | ⟨h0, h1, e⟩
    · simp [e, h0]
    · simp [e, h0, h1]
    · simp [e, h0, h1]
  · rw [hmem _ (by decide) (by decide) (by decide) (by decide) (by decide) (by decide),
      hR _ (by decide) (by decide) (by decide)]
    rcases hr with ⟨h0, e⟩ | ⟨h0, h1, e⟩ | ⟨h0, h1, e⟩
    · simp [e, h0]
    · simp [e, h0, h1]
    · simp [e, h0, h1]
  · intro file2 ho h8B h8F
    unfold InstallExefs
    rw [ho, (region_errors_congr w _ _ file file2 h8B h8F).1]
  · intro file2 ho h8B h8F
    unfold InstallRomfs
    rw [ho, (region_errors_congr w _ _ file file2 h8B h8F).2]

/-- Witness for C16: a decrypted header with an executable filesystem at sector
1 and no ROM filesystem registers the three executable filesystem names and
none of the ROM filesystem names. -/
theorem region_presence_witness :
    Ncch Sample.world Sample.plain_exefs = .ok Sample.plain_exefs_constructed ∧
    ∃ exefs_offset romfs_offset,
      ExefsOffset Sample.plain_exefs = .ok exefs_offset ∧
      RomfsOffset Sample.plain_exefs = .ok romfs_offset ∧
      ("ExefsError" ∈ Sample.plain_exefs_constructed.installed ↔ exefs_offset ≠ 0) ∧
      ("RomfsError" ∈ Sample.plain_exefs_constructed.installed ↔ romfs_offset ≠ 0) :=
  ⟨by decide,
    match region_presence Sample.world Sample.plain_exefs Sample.plain_exefs_constructed
      (by decide) with
    | ⟨eo, ro, heo, hro, h1, _, _, h4, _⟩ => ⟨eo, ro, heo, hro, h1, h4⟩⟩

/-! # Completion of the construction -/

theorem InitSeed_ok (w : World) (file : File) (g : byte) (h : file[0x18F]? = some g) :
    ∃ st, InitSeed w file = .ok st := by
  rw [InitSeed_of_byte w file g h]
  repeat (first | exact ⟨_, rfl⟩ | apply exists_ok_ite)

theorem region_errors_ok (w : World) (seed_status : SeedStatus) (force_no_crypto : Bool)
    (file : File) (g : byte) (h : file[0x18F]? = some g) :
    (∃ e, ExheaderError w force_no_crypto file = .ok e) ∧
    (∃ e, ExefsError w seed_status force_no_crypto file = .ok e) ∧
    (∃ e, RomfsError w seed_status force_no_crypto file = .ok e) := by
  obtain ⟨p, s, hp, hs⟩ := key_errors_ok w seed_status file g h
  refine ⟨?_, ?_, ?_⟩
  · rw [ExheaderError_of_byte w force_no_crypto file g h, hp]
    repeat (first | exact ⟨_, rfl⟩ | apply exists_ok_ite)
  · rw [ExefsError_of_byte w seed_status force_no_crypto file g h, hp, Result.bind_ok, hs]
    repeat (first | exact ⟨_, rfl⟩ | apply exists_ok_ite)
  · rw [RomfsError_of_byte w seed_status force_no_crypto file g h, hs]
    repeat (first | exact ⟨_, rfl⟩ | apply exists_ok_ite)

theorem region_steps_ok (w : World) (seed_status : SeedStatus) (force_no_crypto : Bool)
    (file : File) (hl : 0x200 ≤ file.length) :
    (∃ names, InstallExefs w seed_status force_no_crypto file = .ok names) ∧
    (∃ names, InstallRomfs w seed_status force_no_crypto file = .ok names) := by
  obtain ⟨g, hg⟩ : ∃ g, file[0x18F]? = some g :=
    ⟨_, List.getElem?_eq_getElem (show 0x18F < file.length by omega)⟩
  obtain ⟨_, ⟨e1, he1⟩, ⟨e2, he2⟩⟩ := region_errors_ok w seed_status force_no_crypto file g hg
  constructor
  · unfold InstallExefs
    rw [ExefsOffset, Field_of_le 4 file 0x1A0 (by omega), Result.bind_ok, he1, Result.bind_ok]
    repeat (first | exact ⟨_, rfl⟩ | apply exists_ok_ite)
  · unfold InstallRomfs
    rw [RomfsOffset, Field_of_le 4 file 0x1B0 (by omega), Result.bind_ok, he2, Result.bind_ok]
    repeat (first | exact ⟨_, rfl⟩ | apply exists_ok_ite)

/-- With an empty primary key error the primary key can be derived: the
container is fixed-key-crypto or both secrets hold 16 bytes. -/
theorem PrimaryNormalKey_ok (w : World) (file : File) (g : byte) (hg : file[0x18F]? = some g)
    (h : PrimaryNormalKeyError w file = .ok "") :
    ∃ key, PrimaryNormalKey w file = .ok key := by
  rw [PrimaryNormalKeyError_of_byte w file g hg] at h
  rw [PrimaryNormalKey_of_byte w file g hg]
  by_cases hfix : g.val &&& 0x1 ≠ 0
  · rw [if_pos hfix]
    exact ⟨_, rfl⟩
  · rw [if_neg hfix] at h ⊢
    by_cases hc : (w.secrets SB.k_sec_aes_const).length ≠ 16
    · rw [if_pos hc] at h
      exact absurd (Result.ok.inj h) (by decide)
    · rw [if_neg hc] at h
      by_cases hx : (w.secrets SB.k_sec_key2C_x).length ≠ 16
      · rw [if_pos hx] at h
        exact absurd (Result.ok.inj h) (by decide)
      · rw [memcpy16_of_length _ (not_not.mp hx), memcpy16_of_length _ (not_not.mp hc)]
        exact ⟨_, rfl⟩

/-- Resolving the signature key terminates for version 1 with a declared,
encrypted and decryptable extended header. -/
theorem ResolveSignatureKey_terminates (w : World) (force_no_crypto : Bool) (file : File)
    (n : Nat) (hv : Version file = .ok 1) (hn : ExheaderHashRegionSize file = .ok n)
    (hz : n ≠ 0) (hd : IsDecrypted force_no_crypto file = .ok false)
    (he : ExheaderError w force_no_crypto file = .ok "") :
    ResolveSignatureKey w force_no_crypto file = .error .Terminate := by
  have hiv : CryptoIv file IvType.Exheader = .error .Terminate := by
    simp [CryptoIv, hv]
  unfold ResolveSignatureKey ExheaderFile
  rw [hn, Result.bind_ok, if_pos hz, he, Result.bind_ok, if_pos rfl, hd,
    Result.bind_ok, if_neg (by decide), hiv]
  rfl

/-- The construction terminates when resolving the signature key does. -/
theorem Ncch_terminates (w : World) (file : File) (seed : SeedState) (force_no_crypto : Bool)
    (hseed : InitSeed w file = .ok seed)
    (hfnc : CheckForceNoCrypto file = .ok force_no_crypto)
    (hres : ResolveSignatureKey w force_no_crypto file = .error .Terminate) :
    Ncch w file = .error .Terminate := by
  unfold Ncch
  rw [hseed, Result.bind_ok, hfnc, Result.bind_ok, hres]
  rfl

/-- A scalar field that lies within a source is not affected by bytes appended
to the source. -/
theorem Field_append (width : Nat) (file rest : File) (offset : Nat)
    (h : offset + width ≤ file.length) :
    Field width (file ++ rest) offset = Field width file offset := by
  rw [Field_of_le width file offset h,
    Field_of_le width (file ++ rest) offset (by rw [List.length_append]; omega)]
  congr 2
  simp only [SubFile]
  rw [List.drop_append_of_le_length (by omega), List.take_append_of_le_length]
  rw [List.length_drop]
  omega

/-- When the signature key is resolved: always, except for version 1 with a
declared, encrypted and decryptable extended header. -/
theorem ResolveSignatureKey_ok_iff (w : World) (force_no_crypto : Bool) (file : File)
    (hl : 0x200 ≤ file.length)
    (hkey : ∀ exheader, ∃ key, w.NcchSignaturePublicKey exheader = .ok key) :
    (∃ key_and_names, ResolveSignatureKey w force_no_crypto file = .ok key_and_names) ↔
      ¬ (Version file = .ok 1 ∧ (∃ n, ExheaderHashRegionSize file = .ok n ∧ n ≠ 0) ∧
        IsDecrypted force_no_crypto file = .ok false ∧
        ExheaderError w force_no_crypto file = .ok "") := by
  obtain ⟨g, hg⟩ : ∃ g, file[0x18F]? = some g :=
    ⟨_, List.getElem?_eq_getElem (show 0x18F < file.length by omega)⟩
  have hn : ExheaderHashRegionSize file = .ok (FromByteSeq (SubFile file 0x180 4)) :=
    Field_of_le 4 file 0x180 (by omega)
  have hv : Version file = .ok (FromByteSeq (SubFile file 0x112 2)) :=
    Field_of_le 2 file 0x112 (by omega)
  obtain ⟨⟨e, he⟩, _, _⟩ := region_errors_ok w .NoNeed force_no_crypto file g hg
  have hd := IsDecrypted_of_byte force_no_crypto file g hg
  generalize FromByteSeq (SubFile file 0x180 4) = n at hn
  generalize FromByteSeq (SubFile file 0x112 2) = v at hv
  constructor
  · rintro ⟨kn, h⟩ ⟨hv1, ⟨m, hm, hmz⟩, hd0, he0⟩
    rw [ResolveSignatureKey_terminates w force_no_crypto file m hv1 hm hmz hd0 he0] at h
    cases h
  · intro hnot
    unfold ResolveSignatureKey
    rw [hn, Result.bind_ok]
    by_cases hz : n ≠ 0
    · rw [if_pos hz, he, Result.bind_ok]
      by_cases hempty : e = ""
      · rw [if_pos hempty]
        subst hempty
        unfold ExheaderFile
        rw [hd, Result.bind_ok]
        by_cases hdec : (force_no_crypto || ((g.val &&& 0x4) != 0)) = true
        · obtain ⟨key, hk⟩ := hkey (SubFile file 0x200 0x800)
          rw [if_pos hdec, Result.bind_ok, hk]
          exact ⟨_, rfl⟩
        · have hd0 : IsDecrypted force_no_crypto file = .ok false := by
            rw [hd]
            congr 1
            exact Bool.eq_false_iff.mpr hdec
          have h1 : v ≠ 1 := by
            intro h1
            exact hnot ⟨by rw [hv, h1], ⟨n, hn, hz⟩, hd0, he⟩
          have hiv := (CryptoIv_of_version file IvType.Exheader v hv h1).2
          have hnd : ¬ (force_no_crypto = true ∨ g.val &&& 0x4 ≠ 0) := by
            rintro (h | h)
            · rw [h] at hdec
              exact hdec rfl
            · apply hdec
              have hb : ((g.val &&& 0x4) != 0) = true := by simpa using h
              rw [hb, Bool.or_true]
          have hp : PrimaryNormalKeyError w file = .ok "" := by
            rw [ExheaderError_of_byte w force_no_crypto file g hg, if_neg hnd] at he
            exact he
          obtain ⟨key, hk⟩ := PrimaryNormalKey_ok w file g hg hp
          obtain ⟨pk, hpk⟩ := hkey (w.AesCtrFile (SubFile file 0x200 0x800) key
            ((ToByteSeq 8 (FromByteSeq (SubFile file 0x108 8))).reverse
              ++ IvType.Exheader :: List.replicate 7 0))
          rw [if_neg hdec, hiv, Result.bind_ok, hk, Result.bind_ok, Result.bind_ok, hpk]
          exact ⟨_, rfl⟩
      · rw [if_neg hempty]
        exact ⟨_, rfl⟩
    · rw [if_neg hz]
      exact ⟨_, rfl⟩

/-- The override check returns when the first 4 bytes of a declared ROM
filesystem region can be read. -/
theorem CheckForceNoCrypto_ok (file : File) (off size : Nat)
    (ho : RomfsOffset file = .ok off) (hs : RomfsSize file = .ok size)
    (hread : off ≠ 0 → size ≠ 0 ∧ size < 0x800000 ∧ off * 0x200 + 4 ≤ file.length) :
    ∃ b, CheckForceNoCrypto file = .ok b := by
  obtain ⟨hl, hoe, hse⟩ := Romfs_fields_eq_ok file off size ho hs
  obtain ⟨g, hg⟩ : ∃ g, file[0x18F]? = some g :=
    ⟨_, List.getElem?_eq_getElem (show 0x18F < file.length by omega)⟩
  rw [CheckForceNoCrypto_of_header file g hg hl, ← hoe, ← hse]
  by_cases h1 : g.val &&& 0x4 ≠ 0
  · rw [if_pos h1]
    exact ⟨_, rfl⟩
  · by_cases h2 : off = 0
    · rw [if_neg h1, if_pos h2]
      exact ⟨_, rfl⟩
    · obtain ⟨hs0, hs1, hr⟩ := hread h2
      have hms : size * 0x200 % 2 ^ 32 = size * 0x200 := Nat.mod_eq_of_lt (by omega)
      have hmo : off * 0x200 % 2 ^ 32 ≤ off * 0x200 := Nat.mod_le _ _
      rw [if_neg h1, if_neg h2, if_pos ⟨by omega, by omega⟩]
      repeat (first | exact ⟨_, rfl⟩ | apply exists_ok_ite)

/-- C17 as stated fails: on a header of version 1 that declares an encrypted
extended header, with every secret present and every declared region readable,
the constructor opens the extended header to fetch the signature key, `CryptoIv`
rejects the version and the construction terminates. -/
theorem construction_refuted :
    Version Sample.version_one_exheader = .ok 1 ∧
    ExheaderHashRegionSize Sample.version_one_exheader = .ok 1 ∧
    Sample.version_one_exheader.length = 0x200 + 0x800 ∧
    ExheaderError Sample.world false Sample.version_one_exheader = .ok "" ∧
    Ncch Sample.world Sample.version_one_exheader = .error .Terminate := by
  have hlen : (Sample.poke (Sample.poke Sample.blank 0x112 [1, 0]) 0x180 [1, 0, 0, 0]).length
      = 0x200 := by decide
  have hg : Sample.version_one_exheader[0x18F]? = some 0 := by
    unfold Sample.version_one_exheader
    rw [List.getElem?_append_left (by rw [hlen]; decide)]
    decide
  have hv : Version Sample.version_one_exheader = .ok 1 := by
    unfold Sample.version_one_exheader Version
    rw [Field_append 2 _ _ 0x112 (by rw [hlen]; decide)]
    decide
  have hn : ExheaderHashRegionSize Sample.version_one_exheader = .ok 1 := by
    unfold Sample.version_one_exheader ExheaderHashRegionSize
    rw [Field_append 4 _ _ 0x180 (by rw [hlen]; decide)]
    decide
  have ho : RomfsOffset Sample.version_one_exheader = .ok 0 := by
    unfold Sample.version_one_exheader RomfsOffset
    rw [Field_append 4 _ _ 0x1B0 (by rw [hlen]; decide)]
    decide
  have hl : Sample.version_one_exheader.length = 0x200 + 0x800 := by
    unfold Sample.version_one_exheader
    rw [List.length_append, hlen, List.length_replicate]
  have he : ExheaderError Sample.world false Sample.version_one_exheader = .ok "" := by
    rw [ExheaderError_of_byte _ false _ 0 hg, if_neg (by decide),
      PrimaryNormalKeyError_of_byte _ _ 0 hg]
    decide
  have hseed : InitSeed Sample.world Sample.version_one_exheader = .ok ⟨.NoNeed, []⟩ := by
    rw [InitSeed_of_byte _ _ 0 hg, if_pos (by decide)]
  have hfnc : CheckForceNoCrypto Sample.version_one_exheader = .ok false := by
    have h0 : FromByteSeq (SubFile Sample.version_one_exheader 0x1B0 4) = 0 := by
      rw [RomfsOffset, Field_of_le 4 _ 0x1B0 (by rw [hl]; decide)] at ho
      exact Result.ok.inj ho
    rw [CheckForceNoCrypto_of_header _ 0 hg (by rw [hl]; decide), if_neg (by decide),
      if_pos h0]
  have hd : IsDecrypted false Sample.version_one_exheader = .ok false := by
    rw [IsDecrypted_of_byte false _ 0 hg]
    decide
  exact ⟨hv, hn, hl, he, Ncch_terminates _ _ _ _ hseed hfnc
    (ResolveSignatureKey_terminates _ false _ 1 hv hn (by decide) hd he)⟩

/-- C17, amended. For every raw source whose first 0x200 bytes are readable and
whose declared ROM filesystem region, if any, is not empty and holds its first 4
bytes, and for every secret store, seed store and crypto-method value:
constructing the decoder completes for every version value other than 1; for
version 1 it completes exactly when the extended header is not declared, or is
decrypted, or has a non-empty `ExheaderError`; in particular, for a container
that is not fixed-key-crypto, a missing `aes const` or `key2C_x` never aborts
the construction; and every fixed-offset scalar field of the header can be
opened. -/
theorem construction_completes (w : World) (file : File) (hl : 0x200 ≤ file.length)
    (hkey : ∀ exheader, ∃ key, w.NcchSignaturePublicKey exheader = .ok key)
    (off size : Nat) (ho : RomfsOffset file = .ok off) (hs : RomfsSize file = .ok size)
    (hread : off ≠ 0 → size ≠ 0 ∧ size < 0x800000 ∧ off * 0x200 + 4 ≤ file.length) :
    (∀ v, Version file = .ok v → v ≠ 1 → ∃ c, Ncch w file = .ok c) ∧
    ((∃ c, Ncch w file = .ok c) ↔
      ¬ (Version file = .ok 1 ∧ (∃ n, ExheaderHashRegionSize file = .ok n ∧ n ≠ 0) ∧
        ∃ fnc, CheckForceNoCrypto file = .ok fnc ∧ IsDecrypted fnc file = .ok false ∧
          ExheaderError w fnc file = .ok "")) ∧
    (∀ g, file[0x18F]? = some g → g.val &&& 0x1 = 0 →
      ((w.secrets SB.k_sec_aes_const).length ≠ 16 ∨
        (w.secrets SB.k_sec_key2C_x).length ≠ 16) →
      ∃ c, Ncch w file = .ok c) ∧
    (∀ width offset, offset + width ≤ 0x200 → ∃ v, Field width file offset = .ok v) := by
  obtain ⟨g, hg⟩ : ∃ g, file[0x18F]? = some g :=
    ⟨_, List.getElem?_eq_getElem (show 0x18F < file.length by omega)⟩
  obtain ⟨seed, hseed⟩ := InitSeed_ok w file g hg
  obtain ⟨fnc, hfnc⟩ := CheckForceNoCrypto_ok file off size ho hs hread
  have hph := PatchedHeader_of_header file hl g hg
  obtain ⟨⟨en, hen⟩, ⟨rn, hrn⟩⟩ := region_steps_ok w seed.seed_status fnc file hl
  have hres := ResolveSignatureKey_ok_iff w fnc file hl hkey
  have hiff : (∃ c, Ncch w file = .ok c) ↔
      ∃ key_and_names, ResolveSignatureKey w fnc file = .ok key_and_names := by
    constructor
    · rintro ⟨c, hc⟩
      obtain ⟨kn, _, _, hkn, _⟩ := Ncch_installed w file c hc
      have hf := (Ncch_eq_ok w file c hc).2.1
      rw [hfnc] at hf
      rw [← Result.ok.inj hf] at hkn
      exact ⟨kn, hkn⟩
    · rintro ⟨kn, hkn⟩
      unfold Ncch
      rw [hseed, Result.bind_ok, hfnc, Result.bind_ok, hkn, Result.bind_ok, hph,
        Result.bind_ok, hen, Result.bind_ok, hrn, Result.bind_ok]
      exact ⟨_, rfl⟩
  have hmain : (∃ c, Ncch w file = .ok c) ↔
      ¬ (Version file = .ok 1 ∧ (∃ n, ExheaderHashRegionSize file = .ok n ∧ n ≠ 0) ∧
        ∃ fnc, CheckForceNoCrypto file = .ok fnc ∧ IsDecrypted fnc file = .ok false ∧
          ExheaderError w fnc file = .ok "") := by
    rw [hiff, hres]
    constructor
    · rintro h ⟨h1, h2, f, hf, h3, h4⟩
      rw [hfnc] at hf
      rw [← Result.ok.inj hf] at h3 h4
      exact h ⟨h1, h2, h3, h4⟩
    · rintro h ⟨h1, h2, h3, h4⟩
      exact h ⟨h1, h2, fnc, hfnc, h3, h4⟩
  refine ⟨?_, hmain, ?_, ?_⟩
  · intro v hv hne
    apply hmain.mpr
    rintro ⟨h1, _⟩
    rw [hv] at h1
    exact hne (Result.ok.inj h1)
  · intro g2 hg2 hfix hsecret
    rw [hg] at hg2
    cases hg2
    apply hmain.mpr
    rintro ⟨_, _, f, _, hd, he⟩
    have hd2 := IsDecrypted_of_byte f file g hg
    rw [hd] at hd2
    have hd3 : (f || ((g.val &&& 0x4) != 0)) = false := (Result.ok.inj hd2).symm
    have hnd : ¬ (f = true ∨ g.val &&& 0x4 ≠ 0) := by
      rintro (h | h)
      · rw [h] at hd3
        cases hd3
      · have hb : ((g.val &&& 0x4) != 0) = true := by simpa using h
        rw [hb, Bool.or_true] at hd3
        cases hd3
    rw [ExheaderError_of_byte w f file g hg, if_neg hnd,
      PrimaryNormalKeyError_of_byte w file g hg, if_neg (not_not.mpr hfix)] at he
    by_cases hc : (w.secrets SB.k_sec_aes_const).length ≠ 16
    · rw [if_pos hc] at he
      exact absurd (Result.ok.inj he) (by decide)
    · rw [if_neg hc] at he
      rcases hsecret with h | h
      · exact hc h
      · rw [if_pos h] at he
        exact absurd (Result.ok.inj he) (by decide)
  · intro width offset hw
    exact ⟨_, Field_of_le width file offset (by omega)⟩

/-- Witness for the amended C17: the construction completes on the sample
source with a plaintext ROM filesystem, and on a version 1 header with an
encrypted extended header once the secrets are removed. -/
theorem construction_completes_witness :
    (∃ c, Ncch Sample.world Sample.plain_romfs = .ok c) ∧
    (∃ c, Ncch Sample.world_no_secrets
      (Sample.poke Sample.locked_exheader 0x112 [1, 0]) = .ok c) :=
  ⟨(construction_completes Sample.world Sample.plain_romfs (by decide)
      (fun _ => ⟨_, rfl⟩) 1 1 (by decide) (by decide) (fun _ => by decide)).1 0
      (by decide) (by decide),
    (construction_completes Sample.world_no_secrets
      (Sample.poke Sample.locked_exheader 0x112 [1, 0]) (by decide)
      (fun _ => ⟨_, rfl⟩) 0 0 (by decide) (by decide) (fun h => absurd rfl h)).2.2.1 0
      (by decide) (by decide) (Or.inl (by decide))⟩

end CB.Ncch

/-! # Sector units -/

namespace CB.Ncch

open FB

/-- The raw region windows in terms of the raw bytes of the header: the offset
and the length are the `u32` products of the sector fields with 0x200, which are
the exact products when the fields are below 0x800000. -/
theorem raw_region_windows (file : File) (hl : 0x200 ≤ file.length) :
    RawExefsFile file = .ok (SubFile file
      (FromByteSeq (SubFile file 0x1A0 4) * 0x200 % 2 ^ 32)
      (FromByteSeq (SubFile file 0x1A4 4) * 0x200 % 2 ^ 32)) ∧
    RawRomfsFile file = .ok (SubFile file
      (FromByteSeq (SubFile file 0x1B0 4) * 0x200 % 2 ^ 32)
      (FromByteSeq (SubFile file 0x1B4 4) * 0x200 % 2 ^ 32)) ∧
    (∀ sectors, sectors < 0x800000 → sectors * 0x200 % 2 ^ 32 = sectors * 0x200) := by
  refine ⟨?_, ?_, ?_⟩
  · unfold RawExefsFile
    rw [ExefsOffset, ExefsSize, Field_of_le 4 file 0x1A0 (by omega),
      Field_of_le 4 file 0x1A4 (by omega)]
    rfl
  · unfold RawRomfsFile
    rw [RomfsOffset, RomfsSize, Field_of_le 4 file 0x1B0 (by omega),
      Field_of_le 4 file 0x1B4 (by omega)]
    rfl
  · intro sectors h
    exact Nat.mod_eq_of_lt (by omega)

/-- C18. The sector products are not exact for every 32-bit field value: they are
formed in `u32` and wrap. With "ExefsOffset" = 0x800000 the raw executable
filesystem window starts at raw offset 0 instead of byte offset 0x800000 * 0x200,
with "RomfsOffset" = 0x800000 so does the raw ROM filesystem window, and with
"ExefsHashRegionSize" = 0x800000 the hash node covers no byte of a region of
0x200 bytes. -/
theorem sector_products_wrap :
    (ExefsOffset Sample.wrapped_exefs_offset = .ok 0x800000 ∧
      ExefsSize Sample.wrapped_exefs_offset = .ok 1 ∧
      RawExefsFile Sample.wrapped_exefs_offset
        = .ok (SubFile Sample.wrapped_exefs_offset 0 0x200) ∧
      RawExefsFile Sample.wrapped_exefs_offset
        ≠ .ok (SubFile Sample.wrapped_exefs_offset (0x800000 * 0x200) (1 * 0x200))) ∧
    (RomfsOffset Sample.wrapped_romfs_offset = .ok 0x800000 ∧
      RomfsSize Sample.wrapped_romfs_offset = .ok 1 ∧
      RawRomfsFile Sample.wrapped_romfs_offset
        = .ok (SubFile Sample.wrapped_romfs_offset 0 0x200) ∧
      RawRomfsFile Sample.wrapped_romfs_offset
        ≠ .ok (SubFile Sample.wrapped_romfs_offset (0x800000 * 0x200) (1 * 0x200))) ∧
    (ExefsHashRegionSize Sample.wrapped_hash_region = .ok 0x800000 ∧
      PrimaryExefsFile Sample.world false Sample.wrapped_hash_region
        = .ok (List.replicate 0x200 9) ∧
      ExefsHash Sample.world false Sample.wrapped_hash_region
        = .ok ⟨[], SubFile Sample.wrapped_hash_region 0x1C0 0x20⟩ ∧
      SubFile (List.replicate 0x200 9) 0 (0x800000 * 0x200) ≠ []) := by
  decide

end CB.Ncch

/-! # Patching twice and patching an unpatched header -/

namespace CB.Ncch

open FB

theorem set_of_getElem? (l : byte_seq) (i : Nat) (x : byte) (h : l[i]? = some x) :
    l.set i x = l := by
  apply List.ext_getElem?
  intro j
  by_cases hj : i = j
  · subst hj
    rw [List.getElem?_set_self (length_of_getElem? l i x h), h]
  · rw [List.getElem?_set_ne hj]

theorem SubFile_header_set (file : File) (x y : byte) :
    (SubFile (file.set 0x18F x) 0x100 0x100).set 0x8F y
      = (SubFile file 0x100 0x100).set 0x8F y := by
  apply List.ext_getElem?
  intro i
  have hlen : (SubFile (file.set 0x18F x) 0x100 0x100).length
      = (SubFile file 0x100 0x100).length := by
    simp only [SubFile, List.length_take, List.length_drop, List.length_set]
  by_cases hi : i = 0x8F
  · subst hi
    simp only [List.getElem?_set, hlen, if_true]
  · rw [List.getElem?_set_ne (fun h => hi h.symm), List.getElem?_set_ne (fun h => hi h.symm)]
    simp only [SubFile, List.getElem?_take, List.getElem?_drop]
    split
    · rw [List.getElem?_set_ne (by omega)]
    · rfl

/-- C23. Patching is the identity on unpatched headers and idempotent. For every
raw source that holds the 0x200-byte header and whose no-crypto flag (bit 0x4 of
the byte at 0x18F) is unset, the patched header equals the header window, byte
for byte at every offset 0..0xFF, so that "Signature" and "SignaturePatched" are
built over identical data, signature and key; and for every such raw source,
patching the source whose header block is the patched header gives the patched
header again. -/
theorem PatchedHeader_identity_idempotent (file : File) (hl : 0x200 ≤ file.length) :
    (∀ g, file[0x18F]? = some g → g.val &&& 0x4 = 0 →
      PatchedHeader file = .ok (SubFile file 0x100 0x100) ∧
      (∀ patched, PatchedHeader file = .ok patched →
        ∀ i, i < 0x100 → patched[i]? = file[0x100 + i]?) ∧
      (∀ (w : World) (c : Constructed), Ncch w file = .ok c →
        c.SignaturePatched = c.Signature)) ∧
    (∀ patched, PatchedHeader file = .ok patched →
      PatchedHeader (Sample.with_header file patched) = .ok patched) := by
  obtain ⟨b, hb⟩ : ∃ b, file[0x18F]? = some b :=
    ⟨_, List.getElem?_eq_getElem (show 0x18F < file.length by omega)⟩
  have hval := PatchedHeader_of_header file hl b hb
  obtain ⟨_, _, _, _, _, _, hid, hidem⟩ := patch_byte_facts b
  refine ⟨?_, ?_⟩
  · intro g hg hflag
    rw [hb] at hg
    cases hg
    have h8F : (SubFile file 0x100 0x100)[0x8F]? = some b := by
      rw [SubFile_getElem? file 0x100 0x100 0x8F (by omega)]
      exact hb
    have hsame : PatchedHeader file = .ok (SubFile file 0x100 0x100) := by
      rw [hval, hid hflag, set_of_getElem? _ 0x8F b h8F]
    refine ⟨hsame, ?_, ?_⟩
    · intro patched hp i hi
      rw [hsame] at hp
      rw [← Result.ok.inj hp, SubFile_getElem? file 0x100 0x100 i hi]
    · intro w c hc
      obtain ⟨_, _, _, hsig, ph, hph, hsp⟩ := Ncch_eq_ok w file c hc
      rw [hsame] at hph
      rw [hsig, hsp, ← Result.ok.inj hph]
  · intro patched hp
    rw [hval] at hp
    rw [← Result.ok.inj hp, with_header_set file hl]
    have hl2 : 0x200 ≤ (file.set 0x18F (b &&& 0xFB)).length := by
      rw [List.length_set]
      exact hl
    have hb2 : (file.set 0x18F (b &&& 0xFB))[0x18F]? = some (b &&& 0xFB) :=
      List.getElem?_set_self (by omega)
    rw [PatchedHeader_of_header _ hl2 (b &&& 0xFB) hb2, hidem, SubFile_header_set]

/-- Witness for C23: the sample seed-crypto header, whose no-crypto flag is
unset, is its own patched header; and patching the patched header of the sample
with every flag bit set changes nothing. -/
theorem PatchedHeader_identity_idempotent_witness :
    PatchedHeader Sample.seeded = .ok (SubFile Sample.seeded 0x100 0x100) ∧
    PatchedHeader (Sample.with_header Sample.all_flags
        ((SubFile Sample.all_flags 0x100 0x100).set 0x8F 0xFB))
      = .ok ((SubFile Sample.all_flags 0x100 0x100).set 0x8F 0xFB) :=
  ⟨((PatchedHeader_identity_idempotent Sample.seeded (by decide)).1 0x20 (by decide)
      (by decide)).1,
    (PatchedHeader_identity_idempotent Sample.all_flags (by decide)).2 _ (by decide)⟩

end CB.Ncch

/-! # Primary and secondary key in the original-crypto case -/

namespace CB.Ncch

open FB

/-- C22 as stated fails in its last part: for a fixed-key-crypto container with
the seed-crypto flag set and no seed in the store, the seed status is `NotFound`
and yet `SecondaryNormalKeyError` is empty, as `PrimaryNormalKeyError` is. -/
theorem keys_coincide_refuted :
    IsFixedKeyCrypto Sample.fixed_key_seeded = .ok true ∧
    InitSeed Sample.world_no_seed Sample.fixed_key_seeded = .ok ⟨.NotFound, []⟩ ∧
    PrimaryNormalKeyError Sample.world_no_seed Sample.fixed_key_seeded = .ok "" ∧
    SecondaryNormalKeyError Sample.world_no_seed .NotFound Sample.fixed_key_seeded = .ok "" ∧
    ¬ (SecondaryNormalKeyError Sample.world_no_seed .NotFound Sample.fixed_key_seeded = .ok "" ↔
      PrimaryNormalKeyError Sample.world_no_seed Sample.fixed_key_seeded = .ok "" ∧
      SeedStatus.NotFound ≠ .NotFound ∧ SeedStatus.NotFound ≠ .NotCorrect) := by
  decide

/-- C22, amended. If the fixed-key-crypto flag is set, or if the crypto method is
0x00 and the seed status is not `Found`, then, given 16-byte secrets,
`SecondaryNormalKey` returns exactly the same 16 bytes as `PrimaryNormalKey`, and
the primary and secondary executable-filesystem views are the same. For a
container that is not fixed-key-crypto with crypto method 0x00,
`SecondaryNormalKeyError` is empty exactly when `PrimaryNormalKeyError` is empty
and the seed status is neither `NotFound` nor `NotCorrect`; for a
fixed-key-crypto container both errors are empty whatever the seed status is. -/
theorem keys_coincide (w : World) (seed : SeedState) (file : File) (g m : byte)
    (hg : file[0x18F]? = some g) (hm : file[0x18B]? = some m) :
    (g.val &&& 0x1 ≠ 0 ∨ (m.val = 0x00 ∧ seed.seed_status ≠ .Found) →
      (g.val &&& 0x1 = 0 → (w.secrets SB.k_sec_key2C_x).length = 16 ∧
        (w.secrets SB.k_sec_aes_const).length = 16) →
      (∃ key, key.length = 16 ∧ PrimaryNormalKey w file = .ok key ∧
        SecondaryNormalKey w seed file = .ok key) ∧
      ∀ force_no_crypto, SecondaryExefsFile w seed force_no_crypto file
        = PrimaryExefsFile w force_no_crypto file) ∧
    (g.val &&& 0x1 = 0 → m.val = 0x00 →
      (SecondaryNormalKeyError w seed.seed_status file = .ok "" ↔
        PrimaryNormalKeyError w file = .ok "" ∧
        seed.seed_status ≠ .NotFound ∧ seed.seed_status ≠ .NotCorrect)) ∧
    (g.val &&& 0x1 ≠ 0 →
      SecondaryNormalKeyError w seed.seed_status file = .ok "" ∧
      PrimaryNormalKeyError w file = .ok "") := by
  have hP := PrimaryNormalKey_of_byte w file g hg
  have hS := SecondaryNormalKey_of_byte w seed file g m hg hm
  have hPE := PrimaryNormalKeyError_of_byte w file g hg
  have hSE := SecondaryNormalKeyError_of_byte w seed.seed_status file g m hg hm
  refine ⟨?_, ?_, ?_⟩
  · intro hcase hsecrets
    have hkeys : ∃ key, key.length = 16 ∧ PrimaryNormalKey w file = .ok key ∧
        SecondaryNormalKey w seed file = .ok key := by
      by_cases hfix : g.val &&& 0x1 ≠ 0
      · rw [if_pos hfix] at hP hS
        exact ⟨_, by rw [List.length_replicate], hP, hS⟩
      · obtain ⟨hx, hc⟩ := hsecrets (not_not.mp hfix)
        rcases hcase with h | ⟨hm0, hseed⟩
        · exact absurd h hfix
        · rw [if_neg hfix, memcpy16_of_length _ hx, memcpy16_of_length _ hc] at hP
          rw [if_neg hfix, memcpy16_of_length _ hc, Result.bind_ok, if_pos hm0,
            memcpy16_of_length _ hx, Result.bind_ok, if_neg hseed] at hS
          exact ⟨_, w.ScrambleKey_size _ _ _, hP, hS⟩
    refine ⟨hkeys, ?_⟩
    intro force_no_crypto
    obtain ⟨key, _, hp, hs⟩ := hkeys
    unfold SecondaryExefsFile PrimaryExefsFile
    rw [hp, hs]
  · intro hfix hm0
    rw [hSE, hPE, if_neg (not_not.mpr hfix), if_neg (not_not.mpr hfix)]
    by_cases h1 : seed.seed_status = .NotCorrect
    · rw [if_pos h1]
      constructor
      · intro h
        exact absurd (Result.ok.inj h) (by decide)
      · rintro ⟨_, _, h⟩
        exact absurd h1 h
    · rw [if_neg h1]
      by_cases h2 : seed.seed_status = .NotFound
      · rw [if_pos h2]
        constructor
        · intro h
          exact absurd (Result.ok.inj h) (by decide)
        · rintro ⟨_, h, _⟩
          exact absurd h2 h
      · rw [if_neg h2]
        by_cases hc : (w.secrets SB.k_sec_aes_const).length ≠ 16
        · rw [if_pos hc, if_pos hc]
          constructor
          · intro h
            exact absurd (Result.ok.inj h) (by decide)
          · rintro ⟨h, _⟩
            exact absurd (Result.ok.inj h) (by decide)
        · rw [if_neg hc, if_neg hc, if_pos hm0]
          exact ⟨fun h => ⟨h, h2, h1⟩, fun h => h.1⟩
  · intro hfix
    rw [hSE, hPE, if_pos hfix, if_pos hfix]
    exact ⟨rfl, rfl⟩

/-- Witness for the amended C22: on the blank header (crypto method 0, status
`NoNeed`) with the sample secrets both keys are the same, and on the fixed-key
sample both errors are empty with status `NotFound`. -/
theorem keys_coincide_witness :
    (∃ key, key.length = 16 ∧ PrimaryNormalKey Sample.world Sample.blank = .ok key ∧
      SecondaryNormalKey Sample.world ⟨.NoNeed, []⟩ Sample.blank = .ok key) ∧
    (SecondaryNormalKeyError Sample.world_no_seed .NotFound Sample.fixed_key_seeded = .ok "" ∧
      PrimaryNormalKeyError Sample.world_no_seed Sample.fixed_key_seeded = .ok "") :=
  ⟨((keys_coincide Sample.world ⟨.NoNeed, []⟩ Sample.blank 0 0 (by decide) (by decide)).1
      (Or.inr ⟨by decide, by decide⟩) (fun _ => ⟨by decide, by decide⟩)).1,
    (keys_coincide Sample.world_no_seed ⟨.NotFound, []⟩ Sample.fixed_key_seeded 0x21 0
      (by decide) (by decide)).2.2 (by decide)⟩

end CB.Ncch

/-! # Empty errors make key derivation safe -/

namespace CB.Ncch

open FB

/-- What an empty primary key error says about a container that is not
fixed-key-crypto. -/
theorem PrimaryNormalKeyError_empty (w : World) (file : File) (g : byte)
    (hg : file[0x18F]? = some g) (hfix : g.val &&& 0x1 = 0)
    (h : PrimaryNormalKeyError w file = .ok "") :
    (w.secrets SB.k_sec_aes_const).length = 16 ∧
      (w.secrets SB.k_sec_key2C_x).length = 16 := by
  rw [PrimaryNormalKeyError_of_byte w file g hg, if_neg (not_not.mpr hfix)] at h
  by_cases hc : (w.secrets SB.k_sec_aes_const).length ≠ 16
  · rw [if_pos hc] at h
    exact absurd (Result.ok.inj h) (by decide)
  · rw [if_neg hc] at h
    by_cases hx : (w.secrets SB.k_sec_key2C_x).length ≠ 16
    · rw [if_pos hx] at h
      exact absurd (Result.ok.inj h) (by decide)
    · exact ⟨not_not.mp hc, not_not.mp hx⟩

/-- What an empty secondary key error says about a container that is not
fixed-key-crypto. -/
theorem SecondaryNormalKeyError_empty (w : World) (seed_status : SeedStatus) (file : File)
    (g m : byte) (hg : file[0x18F]? = some g) (hm : file[0x18B]? = some m)
    (hfix : g.val &&& 0x1 = 0)
    (h : SecondaryNormalKeyError w seed_status file = .ok "") :
    (seed_status = .NoNeed ∨ seed_status = .Found) ∧
    (w.secrets SB.k_sec_aes_const).length = 16 ∧
    ((m.val = 0x00 ∧ (w.secrets SB.k_sec_key2C_x).length = 16) ∨
      (m.val = 0x01 ∧ (w.secrets SB.k_sec_key25_x).length = 16) ∨
      (m.val = 0x0A ∧ (w.secrets SB.k_sec_key18_x).length = 16) ∨
      (m.val = 0x0B ∧ (w.secrets SB.k_sec_key1B_x).length = 16)) := by
  rw [SecondaryNormalKeyError_of_byte w seed_status file g m hg hm,
    if_neg (not_not.mpr hfix)] at h
  by_cases h1 : seed_status = .NotCorrect
  · rw [if_pos h1] at h
    exact absurd (Result.ok.inj h) (by decide)
  rw [if_neg h1] at h
  by_cases h2 : seed_status = .NotFound
  · rw [if_pos h2] at h
    exact absurd (Result.ok.inj h) (by decide)
  rw [if_neg h2] at h
  have hstatus : seed_status = .NoNeed ∨ seed_status = .Found := by
    cases seed_status
    · exact Or.inl rfl
    · exact Or.inr rfl
    · exact absurd rfl h2
    · exact absurd rfl h1
  by_cases hc : (w.secrets SB.k_sec_aes_const).length ≠ 16
  · rw [if_pos hc] at h
    exact absurd (Result.ok.inj h) (by decide)
  rw [if_neg hc] at h
  refine ⟨hstatus, not_not.mp hc, ?_⟩
  by_cases m0 : m.val = 0x00
  · rw [if_pos m0] at h
    by_cases hx : (w.secrets SB.k_sec_key2C_x).length ≠ 16
    · rw [if_pos hx] at h
      exact absurd (Result.ok.inj h) (by decide)
    · exact Or.inl ⟨m0, not_not.mp hx⟩
  rw [if_neg m0] at h
  by_cases m1 : m.val = 0x01
  · rw [if_pos m1] at h
    by_cases hx : (w.secrets SB.k_sec_key25_x).length ≠ 16
    · rw [if_pos hx] at h
      exact absurd (Result.ok.inj h) (by decide)
    · exact Or.inr (Or.inl ⟨m1, not_not.mp hx⟩)
  rw [if_neg m1] at h
  by_cases mA : m.val = 0x0A
  · rw [if_pos mA] at h
    by_cases hx : (w.secrets SB.k_sec_key18_x).length ≠ 16
    · rw [if_pos hx] at h
      exact absurd (Result.ok.inj h) (by decide)
    · exact Or.inr (Or.inr (Or.inl ⟨mA, not_not.mp hx⟩))
  rw [if_neg mA] at h
  by_cases mB : m.val = 0x0B
  · rw [if_pos mB] at h
    by_cases hx : (w.secrets SB.k_sec_key1B_x).length ≠ 16
    · rw [if_pos hx] at h
      exact absurd (Result.ok.inj h) (by decide)
    · exact Or.inr (Or.inr (Or.inr ⟨mB, not_not.mp hx⟩))
  rw [if_neg mB] at h
  exact absurd (Result.ok.inj h) (by decide)

/-- With an empty secondary key error the secondary key can be derived: no copy
reads past a secret and the crypto method is a recognized one. -/
theorem SecondaryNormalKey_ok (w : World) (seed : SeedState) (file : File) (g m : byte)
    (hg : file[0x18F]? = some g) (hm : file[0x18B]? = some m)
    (h : SecondaryNormalKeyError w seed.seed_status file = .ok "") :
    ∃ key, SecondaryNormalKey w seed file = .ok key := by
  rw [SecondaryNormalKey_of_byte w seed file g m hg hm]
  by_cases hfix : g.val &&& 0x1 ≠ 0
  · rw [if_pos hfix]
    exact ⟨_, rfl⟩
  · obtain ⟨_, hc, hsel⟩ := SecondaryNormalKeyError_empty w seed.seed_status file g m hg hm
      (not_not.mp hfix) h
    rw [if_neg hfix, memcpy16_of_length _ hc, Result.bind_ok]
    rcases hsel with ⟨hm0, hx⟩ | ⟨hm1, hx⟩ | ⟨hmA, hx⟩ | ⟨hmB, hx⟩
    · rw [if_pos hm0, memcpy16_of_length _ hx]
      exact ⟨_, rfl⟩
    · rw [if_neg (by omega), if_pos hm1, memcpy16_of_length _ hx]
      exact ⟨_, rfl⟩
    · rw [if_neg (by omega), if_neg (by omega), if_pos hmA, memcpy16_of_length _ hx]
      exact ⟨_, rfl⟩
    · rw [if_neg (by omega), if_neg (by omega), if_neg (by omega), if_pos hmB,
        memcpy16_of_length _ hx]
      exact ⟨_, rfl⟩

/-- A container is decrypted or neither the override nor the no-crypto flag is
set. -/
theorem IsDecrypted_cases (force_no_crypto : Bool) (file : File) (g : byte)
    (hg : file[0x18F]? = some g) :
    IsDecrypted force_no_crypto file = .ok true ∨
      (IsDecrypted force_no_crypto file = .ok false ∧
        ¬ (force_no_crypto = true ∨ g.val &&& 0x4 ≠ 0)) := by
  rw [IsDecrypted_of_byte force_no_crypto file g hg]
  by_cases hnc : g.val &&& 0x4 = 0
  · have hb : ((g.val &&& 0x4) != 0) = false := by simp [hnc]
    cases force_no_crypto
    · right
      refine ⟨by rw [hb]; rfl, ?_⟩
      rintro (h | h)
      · cases h
      · exact h hnc
    · left
      rfl
  · have hb : ((g.val &&& 0x4) != 0) = true := by simpa using hnc
    left
    rw [hb, Bool.or_true]

/-- The errors of the regions a construction has registered are empty. -/
theorem registered_errors_empty (w : World) (file : File) (c : Constructed)
    (h : Ncch w file = .ok c) :
    ("Exheader" ∈ c.installed → ExheaderError w c.force_no_crypto file = .ok "") ∧
    ("Exefs" ∈ c.installed →
      ExefsError w c.seed.seed_status c.force_no_crypto file = .ok "") ∧
    ("Romfs" ∈ c.installed →
      RomfsError w c.seed.seed_status c.force_no_crypto file = .ok "") := by
  obtain ⟨kn, en, rn, hkn, hen, hrn, hinst⟩ := Ncch_installed w file c h
  have hk := ResolveSignatureKey_names w _ file kn hkn
  obtain ⟨eoff, _, he⟩ := InstallExefs_eq_ok w _ _ file en hen
  obtain ⟨roff, _, hr⟩ := InstallRomfs_eq_ok w _ _ file rn hrn
  have hexh : "Exheader" ∈ kn.2 → ExheaderError w c.force_no_crypto file = .ok "" := by
    intro hmem
    unfold ResolveSignatureKey at hkn
    obtain ⟨n, _, hkn⟩ := (Result.bind_eq_ok _ _ _).mp hkn
    split at hkn
    · obtain ⟨e, he, hkn⟩ := (Result.bind_eq_ok _ _ _).mp hkn
      split at hkn
      · rename_i hempty
        rw [he, hempty]
      · rw [← Result.ok.inj hkn] at hmem
        simp at hmem
    · rw [← Result.ok.inj hkn] at hmem
      simp at hmem
  refine ⟨?_, ?_, ?_⟩
  · intro hmem
    apply hexh
    rw [hinst] at hmem
    rcases he with ⟨_, e1⟩ | ⟨_, _, e1⟩ | ⟨_, _, e1⟩ <;>
      rcases hr with ⟨_, e2⟩ | ⟨_, _, e2⟩ | ⟨_, _, e2⟩ <;>
      simpa [e1, e2] using hmem
  · intro hmem
    rw [hinst] at hmem
    rcases he with ⟨_, e1⟩ | ⟨_, herr, _⟩ | ⟨_, _, e1⟩
    · exfalso
      rcases hk with e0 | e0 | e0 <;>
        rcases hr with ⟨_, e2⟩ | ⟨_, _, e2⟩ | ⟨_, _, e2⟩ <;>
        simp [e0, e1, e2] at hmem
    · exact herr
    · exfalso
      rcases hk with e0 | e0 | e0 <;>
        rcases hr with ⟨_, e2⟩ | ⟨_, _, e2⟩ | ⟨_, _, e2⟩ <;>
        simp [e0, e1, e2] at hmem
  · intro hmem
    rw [hinst] at hmem
    rcases hr with ⟨_, e2⟩ | ⟨_, herr, _⟩ | ⟨_, _, e2⟩
    · exfalso
      rcases hk with e0 | e0 | e0 <;>
        rcases he with ⟨_, e1⟩ | ⟨_, _, e1⟩ | ⟨_, _, e1⟩ <;>
        simp [e0, e1, e2] at hmem
    · exact herr
    · exfalso
      rcases hk with e0 | e0 | e0 <;>
        rcases he with ⟨_, e1⟩ | ⟨_, _, e1⟩ | ⟨_, _, e1⟩ <;>
        simp [e0, e1, e2] at hmem

/-- C21. Error-empty implies key derivation is safe. For a container that is
neither decrypted nor fixed-key-crypto: `RomfsError` is empty exactly when
`SecondaryNormalKeyError` is, and then the seed status is `NoNeed` or `Found`, the
crypto-method byte is one of 0x00, 0x01, 0x0A, 0x0B, `aes const` and the keyX
secret selected by that method are exactly 16 bytes long, and `SecondaryNormalKey`
returns a key; if `ExheaderError` is empty then `aes const` and `key2C_x` are
exactly 16 bytes long and `PrimaryNormalKey` returns a key. Hence whenever the
constructor has registered "Exheader", "Exefs" or "Romfs", either the container is
decrypted, and the region views are the raw windows without any key being
derived, or the keys the region needs are derived without a copy past the end of
a secret and without reaching the default branch of the crypto-method switch. -/
theorem error_empty_safe (w : World) (seed : SeedState) (file : File) (g m : byte)
    (hg : file[0x18F]? = some g) (hm : file[0x18B]? = some m) :
    (g.val &&& 0x4 = 0 → g.val &&& 0x1 = 0 →
      (RomfsError w seed.seed_status false file = .ok "" ↔
        SecondaryNormalKeyError w seed.seed_status file = .ok "") ∧
      (SecondaryNormalKeyError w seed.seed_status file = .ok "" →
        (seed.seed_status = .NoNeed ∨ seed.seed_status = .Found) ∧
        (m.val = 0x00 ∨ m.val = 0x01 ∨ m.val = 0x0A ∨ m.val = 0x0B) ∧
        (w.secrets SB.k_sec_aes_const).length = 16 ∧
        ((m.val = 0x00 ∧ (w.secrets SB.k_sec_key2C_x).length = 16) ∨
          (m.val = 0x01 ∧ (w.secrets SB.k_sec_key25_x).length = 16) ∨
          (m.val = 0x0A ∧ (w.secrets SB.k_sec_key18_x).length = 16) ∨
          (m.val = 0x0B ∧ (w.secrets SB.k_sec_key1B_x).length = 16)) ∧
        ∃ key, SecondaryNormalKey w seed file = .ok key) ∧
      (ExheaderError w false file = .ok "" →
        (w.secrets SB.k_sec_aes_const).length = 16 ∧
        (w.secrets SB.k_sec_key2C_x).length = 16 ∧
        ∃ key, PrimaryNormalKey w file = .ok key)) ∧
    (∀ c, Ncch w file = .ok c →
      ("Exheader" ∈ c.installed →
        IsDecrypted c.force_no_crypto file = .ok true ∨
        ∃ key, PrimaryNormalKey w file = .ok key) ∧
      ("Exefs" ∈ c.installed →
        IsDecrypted c.force_no_crypto file = .ok true ∨
        ((∃ key, PrimaryNormalKey w file = .ok key) ∧
          ∃ key, SecondaryNormalKey w c.seed file = .ok key)) ∧
      ("Romfs" ∈ c.installed →
        IsDecrypted c.force_no_crypto file = .ok true ∨
        ∃ key, SecondaryNormalKey w c.seed file = .ok key)) ∧
    (∀ force_no_crypto, IsDecrypted force_no_crypto file = .ok true →
      ExheaderFile w force_no_crypto file = .ok (SubFile file 0x200 0x800) ∧
      PrimaryExefsFile w force_no_crypto file = RawExefsFile file ∧
      SecondaryExefsFile w seed force_no_crypto file = RawExefsFile file ∧
      RomfsFile w seed force_no_crypto file = RawRomfsFile file) := by
  refine ⟨?_, ?_, ?_⟩
  · intro hnc hfix
    have hnd : ¬ (false = true ∨ g.val &&& 0x4 ≠ 0) := by
      rintro (h | h)
      · cases h
      · exact h hnc
    refine ⟨?_, ?_, ?_⟩
    · rw [RomfsError_of_byte w seed.seed_status false file g hg, if_neg hnd]
    · intro h
      obtain ⟨hstatus, hc, hsel⟩ :=
        SecondaryNormalKeyError_empty w seed.seed_status file g m hg hm hfix h
      refine ⟨hstatus, ?_, hc, hsel, SecondaryNormalKey_ok w seed file g m hg hm h⟩
      rcases hsel with ⟨h0, _⟩ | ⟨h0, _⟩ | ⟨h0, _⟩ | ⟨h0, _⟩
      · exact Or.inl h0
      · exact Or.inr (Or.inl h0)
      · exact Or.inr (Or.inr (Or.inl h0))
      · exact Or.inr (Or.inr (Or.inr h0))
    · intro h
      rw [ExheaderError_of_byte w false file g hg, if_neg hnd] at h
      obtain ⟨hc, hx⟩ := PrimaryNormalKeyError_empty w file g hg hfix h
      exact ⟨hc, hx, PrimaryNormalKey_ok w file g hg h⟩
  · intro c hc
    obtain ⟨h1, h2, h3⟩ := registered_errors_empty w file c hc
    refine ⟨?_, ?_, ?_⟩
    · intro hmem
      rcases IsDecrypted_cases c.force_no_crypto file g hg with hd | ⟨_, hnd⟩
      · exact Or.inl hd
      · right
        have he := h1 hmem
        rw [ExheaderError_of_byte w c.force_no_crypto file g hg, if_neg hnd] at he
        exact PrimaryNormalKey_ok w file g hg he
    · intro hmem
      rcases IsDecrypted_cases c.force_no_crypto file g hg with hd | ⟨_, hnd⟩
      · exact Or.inl hd
      · right
        have he := h2 hmem
        obtain ⟨p, s, hp, hs⟩ := key_errors_ok w c.seed.seed_status file g hg
        rw [ExefsError_of_byte w c.seed.seed_status c.force_no_crypto file g hg, if_neg hnd,
          hp, Result.bind_ok] at he
        by_cases hpe : p ≠ ""
        · rw [if_pos hpe] at he
          exact absurd (Result.ok.inj he) hpe
        · rw [if_neg hpe, hs] at he
          rw [not_not.mp hpe] at hp
          rw [Result.ok.inj he] at hs
          exact ⟨PrimaryNormalKey_ok w file g hg hp,
            SecondaryNormalKey_ok w c.seed file g m hg hm hs⟩
    · intro hmem
      rcases IsDecrypted_cases c.force_no_crypto file g hg with hd | ⟨_, hnd⟩
      · exact Or.inl hd
      · right
        have he := h3 hmem
        rw [RomfsError_of_byte w c.seed.seed_status c.force_no_crypto file g hg,
          if_neg hnd] at he
        exact SecondaryNormalKey_ok w c.seed file g m hg hm he
  · intro force_no_crypto hd
    refine ⟨?_, ?_, ?_, ?_⟩
    · unfold ExheaderFile
      rw [hd]
      rfl
    · unfold PrimaryExefsFile
      rw [hd]
      cases RawExefsFile file <;> rfl
    · unfold SecondaryExefsFile
      rw [hd]
      cases RawExefsFile file <;> rfl
    · unfold RomfsFile
      rw [hd]
      cases RawRomfsFile file <;> rfl

/-- Witness for C21: on an encrypted header with an executable filesystem and the
sample secrets the constructor registers "Exefs", and both keys are derived. -/
theorem error_empty_safe_witness :
    Ncch Sample.world Sample.encrypted_exefs = .ok Sample.encrypted_exefs_constructed ∧
    "Exefs" ∈ Sample.encrypted_exefs_constructed.installed ∧
    (IsDecrypted Sample.encrypted_exefs_constructed.force_no_crypto Sample.encrypted_exefs
        = .ok true ∨
      ((∃ key, PrimaryNormalKey Sample.world Sample.encrypted_exefs = .ok key) ∧
        ∃ key, SecondaryNormalKey Sample.world Sample.encrypted_exefs_constructed.seed
          Sample.encrypted_exefs = .ok key)) :=
  ⟨by decide, by decide,
    ((error_empty_safe Sample.world ⟨.NoNeed, []⟩ Sample.encrypted_exefs 0 0 (by decide)
      (by decide)).2.1 Sample.encrypted_exefs_constructed (by decide)).2.1 (by decide)⟩

end CB.Ncch
